import Mathlib

/-!
# rucbase-lab: lock manager and transaction manager

A shallow embedding of `src/transaction/concurrency/lock_manager.cpp` and
`src/transaction/transaction_manager.cpp`.  Every lock-manager operation takes
the lock-table latch for its whole duration, so each call is modelled as one
atomic function from (transaction, lock table) to (outcome, transaction, lock
table).  Machine integers (`int`, `txn_id_t`) are modelled as `Int`; overflow
of the two counters is out of scope.
-/

namespace Rucbase

/-! ## Data model -/

/-- Transaction states, in the order of the comment in the source
(`DEFAULT, GROWING, SHRINKING, COMMITTED, ABORTED`). -/
inductive TransactionState where
  | DEFAULT
  | GROWING
  | SHRINKING
  | COMMITTED
  | ABORTED
  deriving DecidableEq

/-- The two abort reasons thrown by the lock manager. -/
inductive AbortReason where
  | LOCK_ON_SHIRINKING
  | DEADLOCK_PREVENTION
  deriving DecidableEq

/-- Lock modes of a single request (spelling of the source kept). -/
inductive LockMode where
  | SHARED
  | EXLUCSIVE
  | INTENTION_SHARED
  | INTENTION_EXCLUSIVE
  | S_IX
  deriving DecidableEq

/-- Group lock mode of a request queue (`NON_LOCK, IS, IX, S, X, SIX`). -/
inductive GroupLockMode where
  | NON_LOCK
  | IS
  | IX
  | S
  | X
  | SIX
  deriving DecidableEq

/-- Record identifier: page number and slot number. -/
structure Rid where
  page_no : Int
  slot_no : Int
  deriving DecidableEq

/-- Modelled from the spec: the lock identifier declared in the absent header
`lock_manager.h` / `txn_defs.h`.  A table handle with a granularity tag; a
record identifier is present exactly for RECORD granularity; equality is
structural. -/
inductive LockDataId where
  | TABLE (fd : Int)
  | RECORD (fd : Int) (rid : Rid)
  deriving DecidableEq

/-- One request in a queue: `LockRequest{txn_id, lock_mode}` with its
`granted_` flag (fields as the source reads and writes them). -/
structure LockRequest where
  txn_id_ : Int
  lock_mode_ : LockMode
  granted_ : Bool
  deriving DecidableEq

/-- Request queue of one resource: the ordered requests, the group mode and
the two counters `shared_lock_num_` and `IX_lock_num_`. -/
structure LockRequestQueue where
  request_queue_ : List LockRequest
  group_lock_mode_ : GroupLockMode
  shared_lock_num_ : Int
  IX_lock_num_ : Int
  deriving DecidableEq

/-- Modelled from the spec: a default-constructed queue, as produced by
`lock_table_.emplace` (member initialisers are in the absent
`lock_manager.h`): no request, group mode NONE, both counters zero. -/
def LockRequestQueue.empty : LockRequestQueue :=
  { request_queue_ := [], group_lock_mode_ := .NON_LOCK, shared_lock_num_ := 0, IX_lock_num_ := 0 }

/-- The global lock table `lock_table_` (an `unordered_map`): a finite partial
map, `none` meaning `count(id) == 0`. -/
abbrev LockTable := LockDataId → Option LockRequestQueue

/-- The lock table with no key. -/
def LockTable.empty : LockTable := fun _ => none

/-- Raw bytes of a record or of an index key. -/
abbrev Bytes := List Nat

/-- Kind of a write record. -/
inductive WType where
  | INSERT_TUPLE
  | DELETE_TUPLE
  | UPDATE_TUPLE
  deriving DecidableEq

/-- Modelled from the spec: a write record of the write-set (declared in the
absent `txn_defs.h`): kind, table name, rid and pre-image bytes. -/
structure WriteRecord where
  wtype_ : WType
  tab_name_ : String
  rid_ : Rid
  record_ : Bytes
  deriving DecidableEq

/-- Modelled from the spec: the transaction object (declared in the absent
`transaction.h`): id, state, lock-set (an `unordered_set`, kept here as a
duplicate-free list) and write-set (oldest first, `back()` is the last
element). -/
structure Transaction where
  txn_id_ : Int
  state_ : TransactionState
  lock_set_ : List LockDataId
  write_set_ : List WriteRecord
  deriving DecidableEq

/-- Modelled from the spec: the constructor `Transaction(txn_id)` of the
absent `transaction.h`: state DEFAULT, empty lock-set and write-set. -/
def Transaction.fresh (id : Int) : Transaction :=
  { txn_id_ := id, state_ := .DEFAULT, lock_set_ := [], write_set_ := [] }

/-- The call `lock_set->emplace(id)` on an unordered set. -/
def lock_set_emplace (ls : List LockDataId) (d : LockDataId) : List LockDataId :=
  if d ∈ ls then ls else d :: ls

/-- How a lock-manager call ends: a boolean return value or a thrown
`TransactionAbortException`. -/
inductive Outcome where
  | ret (b : Bool)
  | throw (r : AbortReason)
  deriving DecidableEq

/-- Result of one lock-manager call: how it ended, and the transaction and
lock table it leaves behind. -/
structure LockResult where
  outcome : Outcome
  txn : Transaction
  lock_table : LockTable

/-! ## Lock manager -/

/-- The range-for scan `for (auto& iter : request_queue_) if (iter.txn_id_ ==
txn_id)`: the first request of the transaction, if any. -/
def find_request (id : Int) : List LockRequest → Option LockRequest
  | [] => none
  | r :: rs => if r.txn_id_ = id then some r else find_request id rs

/-- The in-place assignment `iter.lock_mode_ = m` on the request found by the
scan (the first request of the transaction). -/
def set_mode (id : Int) (m : LockMode) : List LockRequest → List LockRequest
  | [] => []
  | r :: rs => if r.txn_id_ = id then { r with lock_mode_ := m } :: rs else r :: set_mode id m rs

/-- The lookup-or-create idiom `if (count(id) == 0) emplace(id)`. -/
def ensure_queue (lt : LockTable) (d : LockDataId) : LockTable :=
  if (lt d).isNone then Function.update lt d (some LockRequestQueue.empty) else lt

/-- The reference `lock_table_[id]` after `ensure_queue`. -/
def queue_at (lt : LockTable) (d : LockDataId) : LockRequestQueue :=
  (lt d).getD LockRequestQueue.empty

/-- Step 2 of every acquire, the inspection of the transaction state:
`.ok txn1` when the call goes on (DEFAULT has become GROWING), `.error o` when
it ends at once with outcome `o`. -/
def check_state (txn : Transaction) : Except Outcome Transaction :=
  match txn.state_ with
  | .DEFAULT => .ok { txn with state_ := .GROWING }
  | .GROWING => .ok txn
  | .COMMITTED => .error (.ret false)
  | .ABORTED => .error (.ret false)
  | .SHRINKING => .error (.throw .LOCK_ON_SHIRINKING)

/-- `LockManager::lock_shared_on_record`. -/
def lock_shared_on_record (txn : Transaction) (lt : LockTable) (rid : Rid) (tab_fd : Int) :
    LockResult :=
  match check_state txn with
  | .error o => ⟨o, txn, lt⟩
  | .ok txn1 =>
    let d := LockDataId.RECORD tab_fd rid
    let lt1 := ensure_queue lt d
    let q := queue_at lt1 d
    match find_request txn1.txn_id_ q.request_queue_ with
    | some _ => ⟨.ret true, txn1, lt1⟩
    | none =>
      if q.group_lock_mode_ = .IX ∨ q.group_lock_mode_ = .X ∨ q.group_lock_mode_ = .SIX then
        ⟨.throw .DEADLOCK_PREVENTION, txn1, lt1⟩
      else
        let q1 : LockRequestQueue :=
          { q with
            group_lock_mode_ := .S
            request_queue_ := q.request_queue_ ++ [⟨txn1.txn_id_, .SHARED, true⟩]
            shared_lock_num_ := q.shared_lock_num_ + 1 }
        ⟨.ret true, { txn1 with lock_set_ := lock_set_emplace txn1.lock_set_ d },
          Function.update lt1 d (some q1)⟩

/-- `LockManager::lock_exclusive_on_record`. -/
def lock_exclusive_on_record (txn : Transaction) (lt : LockTable) (rid : Rid) (tab_fd : Int) :
    LockResult :=
  match check_state txn with
  | .error o => ⟨o, txn, lt⟩
  | .ok txn1 =>
    let d := LockDataId.RECORD tab_fd rid
    let lt1 := ensure_queue lt d
    let q := queue_at lt1 d
    match find_request txn1.txn_id_ q.request_queue_ with
    | some iter =>
      if iter.lock_mode_ = .EXLUCSIVE then ⟨.ret true, txn1, lt1⟩
      else if iter.lock_mode_ = .SHARED ∧ q.request_queue_.length = 1 then
        let q1 : LockRequestQueue :=
          { q with
            request_queue_ := set_mode txn1.txn_id_ .EXLUCSIVE q.request_queue_
            group_lock_mode_ := .X }
        ⟨.ret true, txn1, Function.update lt1 d (some q1)⟩
      else ⟨.throw .DEADLOCK_PREVENTION, txn1, lt1⟩
    | none =>
      if q.group_lock_mode_ ≠ .NON_LOCK then ⟨.throw .DEADLOCK_PREVENTION, txn1, lt1⟩
      else
        let q1 : LockRequestQueue :=
          { q with
            group_lock_mode_ := .X
            request_queue_ := q.request_queue_ ++ [⟨txn1.txn_id_, .EXLUCSIVE, true⟩] }
        ⟨.ret true, { txn1 with lock_set_ := lock_set_emplace txn1.lock_set_ d },
          Function.update lt1 d (some q1)⟩

/-- `LockManager::lock_shared_on_table`. -/
def lock_shared_on_table (txn : Transaction) (lt : LockTable) (tab_fd : Int) : LockResult :=
  match check_state txn with
  | .error o => ⟨o, txn, lt⟩
  | .ok txn1 =>
    let d := LockDataId.TABLE tab_fd
    let lt1 := ensure_queue lt d
    let q := queue_at lt1 d
    match find_request txn1.txn_id_ q.request_queue_ with
    | some iter =>
      if iter.lock_mode_ = .SHARED ∨ iter.lock_mode_ = .EXLUCSIVE ∨ iter.lock_mode_ = .S_IX then
        ⟨.ret true, txn1, lt1⟩
      else if iter.lock_mode_ = .INTENTION_SHARED ∧
          (q.group_lock_mode_ = .S ∨ q.group_lock_mode_ = .IS) then
        let q1 : LockRequestQueue :=
          { q with
            request_queue_ := set_mode txn1.txn_id_ .SHARED q.request_queue_
            group_lock_mode_ := .S
            shared_lock_num_ := q.shared_lock_num_ + 1 }
        ⟨.ret true, txn1, Function.update lt1 d (some q1)⟩
      else if iter.lock_mode_ = .INTENTION_EXCLUSIVE ∧ q.IX_lock_num_ = 1 then
        let q1 : LockRequestQueue :=
          { q with
            request_queue_ := set_mode txn1.txn_id_ .S_IX q.request_queue_
            group_lock_mode_ := .SIX
            shared_lock_num_ := q.shared_lock_num_ + 1 }
        ⟨.ret true, txn1, Function.update lt1 d (some q1)⟩
      else ⟨.throw .DEADLOCK_PREVENTION, txn1, lt1⟩
    | none =>
      if q.group_lock_mode_ = .IX ∨ q.group_lock_mode_ = .X ∨ q.group_lock_mode_ = .SIX then
        ⟨.throw .DEADLOCK_PREVENTION, txn1, lt1⟩
      else
        let q1 : LockRequestQueue :=
          { q with
            group_lock_mode_ := .S
            request_queue_ := q.request_queue_ ++ [⟨txn1.txn_id_, .SHARED, true⟩]
            shared_lock_num_ := q.shared_lock_num_ + 1 }
        ⟨.ret true, { txn1 with lock_set_ := lock_set_emplace txn1.lock_set_ d },
          Function.update lt1 d (some q1)⟩

/-- `LockManager::lock_exclusive_on_table`. -/
def lock_exclusive_on_table (txn : Transaction) (lt : LockTable) (tab_fd : Int) : LockResult :=
  match check_state txn with
  | .error o => ⟨o, txn, lt⟩
  | .ok txn1 =>
    let d := LockDataId.TABLE tab_fd
    let lt1 := ensure_queue lt d
    let q := queue_at lt1 d
    match find_request txn1.txn_id_ q.request_queue_ with
    | some iter =>
      if iter.lock_mode_ = .EXLUCSIVE then ⟨.ret true, txn1, lt1⟩
      else if q.request_queue_.length = 1 then
        let q1 : LockRequestQueue :=
          { q with
            request_queue_ := set_mode txn1.txn_id_ .EXLUCSIVE q.request_queue_
            group_lock_mode_ := .X }
        ⟨.ret true, txn1, Function.update lt1 d (some q1)⟩
      else ⟨.throw .DEADLOCK_PREVENTION, txn1, lt1⟩
    | none =>
      if q.group_lock_mode_ ≠ .NON_LOCK then ⟨.throw .DEADLOCK_PREVENTION, txn1, lt1⟩
      else
        let q1 : LockRequestQueue :=
          { q with
            group_lock_mode_ := .X
            request_queue_ := q.request_queue_ ++ [⟨txn1.txn_id_, .EXLUCSIVE, true⟩] }
        ⟨.ret true, { txn1 with lock_set_ := lock_set_emplace txn1.lock_set_ d },
          Function.update lt1 d (some q1)⟩

/-- `LockManager::lock_IS_on_table`. -/
def lock_IS_on_table (txn : Transaction) (lt : LockTable) (tab_fd : Int) : LockResult :=
  match check_state txn with
  | .error o => ⟨o, txn, lt⟩
  | .ok txn1 =>
    let d := LockDataId.TABLE tab_fd
    let lt1 := ensure_queue lt d
    let q := queue_at lt1 d
    match find_request txn1.txn_id_ q.request_queue_ with
    | some _ => ⟨.ret true, txn1, lt1⟩
    | none =>
      if q.group_lock_mode_ = .X then ⟨.throw .DEADLOCK_PREVENTION, txn1, lt1⟩
      else
        let g := if q.group_lock_mode_ = .NON_LOCK then GroupLockMode.IS else q.group_lock_mode_
        let q1 : LockRequestQueue :=
          { q with
            group_lock_mode_ := g
            request_queue_ := q.request_queue_ ++ [⟨txn1.txn_id_, .INTENTION_SHARED, true⟩] }
        ⟨.ret true, { txn1 with lock_set_ := lock_set_emplace txn1.lock_set_ d },
          Function.update lt1 d (some q1)⟩

/-- `LockManager::lock_IX_on_table`. -/
def lock_IX_on_table (txn : Transaction) (lt : LockTable) (tab_fd : Int) : LockResult :=
  match check_state txn with
  | .error o => ⟨o, txn, lt⟩
  | .ok txn1 =>
    let d := LockDataId.TABLE tab_fd
    let lt1 := ensure_queue lt d
    let q := queue_at lt1 d
    match find_request txn1.txn_id_ q.request_queue_ with
    | some iter =>
      if iter.lock_mode_ = .INTENTION_EXCLUSIVE ∨ iter.lock_mode_ = .EXLUCSIVE ∨
          iter.lock_mode_ = .S_IX then
        ⟨.ret true, txn1, lt1⟩
      else if iter.lock_mode_ = .INTENTION_SHARED ∧
          (q.group_lock_mode_ = .IS ∨ q.group_lock_mode_ = .IX) then
        let q1 : LockRequestQueue :=
          { q with
            request_queue_ := set_mode txn1.txn_id_ .INTENTION_EXCLUSIVE q.request_queue_
            group_lock_mode_ := .IX
            IX_lock_num_ := q.IX_lock_num_ + 1 }
        ⟨.ret true, txn1, Function.update lt1 d (some q1)⟩
      else if iter.lock_mode_ = .SHARED ∧ q.shared_lock_num_ = 1 then
        let q1 : LockRequestQueue :=
          { q with
            request_queue_ := set_mode txn1.txn_id_ .S_IX q.request_queue_
            group_lock_mode_ := .SIX
            IX_lock_num_ := q.IX_lock_num_ + 1 }
        ⟨.ret true, txn1, Function.update lt1 d (some q1)⟩
      else ⟨.throw .DEADLOCK_PREVENTION, txn1, lt1⟩
    | none =>
      if q.group_lock_mode_ = .S ∨ q.group_lock_mode_ = .X ∨ q.group_lock_mode_ = .SIX then
        ⟨.throw .DEADLOCK_PREVENTION, txn1, lt1⟩
      else
        let q1 : LockRequestQueue :=
          { q with
            group_lock_mode_ := .IX
            IX_lock_num_ := q.IX_lock_num_ + 1
            request_queue_ := q.request_queue_ ++ [⟨txn1.txn_id_, .INTENTION_EXCLUSIVE, true⟩] }
        ⟨.ret true, { txn1 with lock_set_ := lock_set_emplace txn1.lock_set_ d },
          Function.update lt1 d (some q1)⟩

/-- The call `request_queue_.erase(it)` for the iterator found by the scan of
`unlock`: removes the first request of the transaction. -/
def erase_request (id : Int) : List LockRequest → List LockRequest
  | [] => []
  | r :: rs => if r.txn_id_ = id then rs else r :: erase_request id rs

/-- The counting loop of `unlock`: how many requests carry mode `m`. -/
def mode_num (m : LockMode) : List LockRequest → Nat
  | [] => 0
  | r :: rs => (if r.lock_mode_ = m then 1 else 0) + mode_num m rs

/-- The if-chain of `unlock` that follows the counting loop. -/
def recompute_group (rs : List LockRequest) : GroupLockMode :=
  if mode_num .EXLUCSIVE rs > 0 then .X
  else if mode_num .S_IX rs > 0 then .SIX
  else if mode_num .SHARED rs > 0 then .S
  else if mode_num .INTENTION_EXCLUSIVE rs > 0 then .IX
  else if mode_num .INTENTION_SHARED rs > 0 then .IS
  else .NON_LOCK

/-- `LockManager::unlock`. -/
def unlock (txn : Transaction) (lt : LockTable) (lock_data_id : LockDataId) : LockResult :=
  match txn.state_ with
  | .COMMITTED => ⟨.ret false, txn, lt⟩
  | .ABORTED => ⟨.ret false, txn, lt⟩
  | st =>
    let txn1 : Transaction :=
      if st = .GROWING then { txn with state_ := .SHRINKING } else txn
    match lt lock_data_id with
    | none => ⟨.ret true, txn1, lt⟩
    | some q =>
      match find_request txn1.txn_id_ q.request_queue_ with
      | none => ⟨.ret true, txn1, lt⟩
      | some it =>
        let sn : Int :=
          if it.lock_mode_ = .SHARED ∨ it.lock_mode_ = .S_IX then q.shared_lock_num_ - 1
          else q.shared_lock_num_
        let ixn : Int :=
          if it.lock_mode_ = .INTENTION_EXCLUSIVE ∨ it.lock_mode_ = .S_IX then q.IX_lock_num_ - 1
          else q.IX_lock_num_
        let rs := erase_request txn1.txn_id_ q.request_queue_
        let q1 : LockRequestQueue :=
          { request_queue_ := rs
            group_lock_mode_ := recompute_group rs
            shared_lock_num_ := sn
            IX_lock_num_ := ixn }
        ⟨.ret true, txn1, Function.update lt lock_data_id (some q1)⟩

/-! ## Transaction manager -/

/-- Modelled from the spec: column metadata of the catalog (absent
`sm_meta.h`): name, byte length and byte offset inside a record. -/
structure ColMeta where
  name : String
  len : Nat
  offset : Nat
  deriving DecidableEq

/-- Modelled from the spec: index metadata of the catalog (absent
`sm_meta.h`): total key length, number of columns, the columns. -/
structure IndexMeta where
  tab_name : String
  col_tot_len : Nat
  col_num : Nat
  cols : List ColMeta
  deriving DecidableEq

/-- Modelled from the spec: table metadata of the catalog (absent
`sm_meta.h`); only the index list is read by `abort`. -/
structure TabMeta where
  name : String
  indexes : List IndexMeta
  deriving DecidableEq

/-- Modelled from the spec: the collaborators consumed by `abort` (record file
handles `fhs_`, index handles `ihs_`, catalog `db_`), whose code is absent.
They act on a store `σ`; `none` stands for a call that throws.  An index
handle is named by the table name and the column list of the index. -/
structure Collab (σ : Type) where
  get_table : σ → String → Option TabMeta
  get_record : σ → String → Rid → Option Bytes
  insert_record : σ → String → Bytes → Option (Rid × σ)
  delete_record : σ → String → Rid → Option σ
  update_record : σ → String → Rid → Bytes → Option σ
  insert_entry : σ → String → List ColMeta → Bytes → Rid → Option σ
  delete_entry : σ → String → List ColMeta → Bytes → Option σ

/-- The inner loop `for (j = 0; j < index.col_num; ++j) memcpy(key + offset,
data + cols[j].offset, cols[j].len); offset += cols[j].len`, over the column
numbers still to do; `key` holds the bytes written so far, so `offset` of the
source is `key.length`.  An out-of-range `cols[j]`, a read past the end of the
record and a write past the `col_tot_len` bytes of the key buffer are
undefined in the source and give `none`. -/
def build_key_from (index : IndexMeta) (data : Bytes) : List Nat → Bytes → Option Bytes
  | [], key => some key
  | j :: js, key =>
    match index.cols[j]? with
    | none => none
    | some col =>
      if col.offset + col.len ≤ data.length ∧ key.length + col.len ≤ index.col_tot_len then
        build_key_from index data js (key ++ (data.drop col.offset).take col.len)
      else none

/-- The key that `abort` builds for one index from the bytes of a record. -/
def build_key (index : IndexMeta) (data : Bytes) : Option Bytes :=
  build_key_from index data (List.range index.col_num) []

/-- The loop `for (i = 0; i < tab.indexes.size(); ++i) { ...; ih->delete_entry(key, txn); }`. -/
def delete_index_entries {σ : Type} (c : Collab σ) (tab_name : String) (data : Bytes) :
    List IndexMeta → σ → Option σ
  | [], st => some st
  | index :: rest, st =>
    match build_key index data with
    | none => none
    | some key =>
      match c.delete_entry st tab_name index.cols key with
      | none => none
      | some st1 => delete_index_entries c tab_name data rest st1

/-- The loop `for (i = 0; i < tab.indexes.size(); ++i) { ...; ih->insert_entry(key, rid, txn); }`. -/
def insert_index_entries {σ : Type} (c : Collab σ) (tab_name : String) (data : Bytes) (rid : Rid) :
    List IndexMeta → σ → Option σ
  | [], st => some st
  | index :: rest, st =>
    match build_key index data with
    | none => none
    | some key =>
      match c.insert_entry st tab_name index.cols key rid with
      | none => none
      | some st1 => insert_index_entries c tab_name data rid rest st1

/-- One iteration of the while loop of `abort`: the inverse of one write
record. -/
def undo_write {σ : Type} (c : Collab σ) (st : σ) (item : WriteRecord) : Option σ :=
  match item.wtype_ with
  | .INSERT_TUPLE =>
    match c.get_table st item.tab_name_ with
    | none => none
    | some tab =>
      match c.get_record st item.tab_name_ item.rid_ with
      | none => none
      | some rec =>
        match delete_index_entries c item.tab_name_ rec tab.indexes st with
        | none => none
        | some st1 => c.delete_record st1 item.tab_name_ item.rid_
  | .DELETE_TUPLE =>
    match c.get_table st item.tab_name_ with
    | none => none
    | some tab =>
      match c.insert_record st item.tab_name_ item.record_ with
      | none => none
      | some (rid, st1) => insert_index_entries c item.tab_name_ item.record_ rid tab.indexes st1
  | .UPDATE_TUPLE =>
    match c.get_table st item.tab_name_ with
    | none => none
    | some tab =>
      match c.get_record st item.tab_name_ item.rid_ with
      | none => none
      | some rec =>
        match delete_index_entries c item.tab_name_ rec tab.indexes st with
        | none => none
        | some st1 =>
          match insert_index_entries c item.tab_name_ item.record_ item.rid_ tab.indexes st1 with
          | none => none
          | some st2 => c.update_record st2 item.tab_name_ item.rid_ item.record_

/-- The loop `while (!write_set->empty()) { item = back(); ...; pop_back(); }`
of `abort`; the argument lists the write records newest first. -/
def rollback {σ : Type} (c : Collab σ) : List WriteRecord → σ → Option σ
  | [], st => some st
  | item :: older, st =>
    match undo_write c st item with
    | none => none
    | some st1 => rollback c older st1

/-- The loop `for (auto lock : *lock_set) lock_manager_->unlock(txn, lock)` of
`commit` and `abort`; the return value of `unlock` is dropped.  The loop
visits the lock ids in list order; `Step.reorder` makes every order of a
lock-set reachable. -/
def unlock_all (txn : Transaction) (lt : LockTable) : List LockDataId → Transaction × LockTable
  | [] => (txn, lt)
  | d :: ds => unlock_all (unlock txn lt d).txn (unlock txn lt d).lock_table ds

/-- `TransactionManager::commit`. -/
def commit (txn : Transaction) (lt : LockTable) : Transaction × LockTable :=
  let txn1 : Transaction := { txn with write_set_ := [] }
  let r := unlock_all txn1 lt txn1.lock_set_
  ({ r.1 with lock_set_ := [], state_ := .COMMITTED }, r.2)

/-- `TransactionManager::abort`; `none` when a collaborator throws during the
rollback of the write-set. -/
def abort {σ : Type} (c : Collab σ) (st : σ) (txn : Transaction) (lt : LockTable) :
    Option (σ × Transaction × LockTable) :=
  match rollback c txn.write_set_.reverse st with
  | none => none
  | some st1 =>
    let txn1 : Transaction := { txn with write_set_ := [] }
    let r := unlock_all txn1 lt txn1.lock_set_
    some (st1, { r.1 with lock_set_ := [], state_ := .ABORTED }, r.2)

/-! ## The system: lock table, transaction objects, store -/

/-- The six acquire operations with their arguments. -/
inductive LockOp where
  | shared_on_record (rid : Rid) (tab_fd : Int)
  | exclusive_on_record (rid : Rid) (tab_fd : Int)
  | shared_on_table (tab_fd : Int)
  | exclusive_on_table (tab_fd : Int)
  | IS_on_table (tab_fd : Int)
  | IX_on_table (tab_fd : Int)
  deriving DecidableEq

/-- The lock identifier an acquire operation builds. -/
def LockOp.target : LockOp → LockDataId
  | .shared_on_record rid fd => .RECORD fd rid
  | .exclusive_on_record rid fd => .RECORD fd rid
  | .shared_on_table fd => .TABLE fd
  | .exclusive_on_table fd => .TABLE fd
  | .IS_on_table fd => .TABLE fd
  | .IX_on_table fd => .TABLE fd

/-- Dispatch of an acquire call to the member function it names. -/
def acquire (op : LockOp) (txn : Transaction) (lt : LockTable) : LockResult :=
  match op with
  | .shared_on_record rid fd => lock_shared_on_record txn lt rid fd
  | .exclusive_on_record rid fd => lock_exclusive_on_record txn lt rid fd
  | .shared_on_table fd => lock_shared_on_table txn lt fd
  | .exclusive_on_table fd => lock_exclusive_on_table txn lt fd
  | .IS_on_table fd => lock_IS_on_table txn lt fd
  | .IX_on_table fd => lock_IX_on_table txn lt fd

/-- State of the whole core: the lock table, the transaction objects (by
handle, the model of a `Transaction*`) and the store of the collaborators. -/
structure Sys (σ : Type) where
  lock_table : LockTable
  txns : Nat → Transaction
  store : σ

/-- One call into the core by the transaction object with handle `h`, or one
action of the executor (outside the core) on the write-set and the store, or
a change of the iteration order of a lock-set (an `unordered_set` fixes
none).  An `abort` whose rollback throws half-way leaves the locks as they
are and is covered by `write`. -/
inductive Step {σ : Type} (c : Collab σ) : Sys σ → Sys σ → Prop where
  | acquire (s : Sys σ) (h : Nat) (op : LockOp) :
      Step c s
        { s with
          lock_table := (acquire op (s.txns h) s.lock_table).lock_table
          txns := Function.update s.txns h (acquire op (s.txns h) s.lock_table).txn }
  | unlock (s : Sys σ) (h : Nat) (d : LockDataId) :
      Step c s
        { s with
          lock_table := (unlock (s.txns h) s.lock_table d).lock_table
          txns := Function.update s.txns h (unlock (s.txns h) s.lock_table d).txn }
  | commit (s : Sys σ) (h : Nat) :
      Step c s
        { s with
          lock_table := (commit (s.txns h) s.lock_table).2
          txns := Function.update s.txns h (commit (s.txns h) s.lock_table).1 }
  | abort (s : Sys σ) (h : Nat) (st1 : σ) (txn1 : Transaction) (lt1 : LockTable)
      (e : abort c s.store (s.txns h) s.lock_table = some (st1, txn1, lt1)) :
      Step c s { lock_table := lt1, txns := Function.update s.txns h txn1, store := st1 }
  | write (s : Sys σ) (h : Nat) (ws : List WriteRecord) (st1 : σ) :
      Step c s
        { s with
          txns := Function.update s.txns h { s.txns h with write_set_ := ws }
          store := st1 }
  | reorder (s : Sys σ) (h : Nat) (ls : List LockDataId)
      (hp : ls.Perm (s.txns h).lock_set_) :
      Step c s { s with txns := Function.update s.txns h { s.txns h with lock_set_ := ls } }

/-- States reachable from an empty lock table and fresh transaction objects. -/
inductive Reachable {σ : Type} (c : Collab σ) : Sys σ → Prop where
  | init (s : Sys σ) (hlt : s.lock_table = LockTable.empty)
      (hfresh : ∀ h, ∃ id, s.txns h = Transaction.fresh id) : Reachable c s
  | step (s s1 : Sys σ) (hr : Reachable c s) (hs : Step c s s1) : Reachable c s1

/-- Transaction ids are unique: two handles with the same id are the same
transaction object. -/
def DistinctIds {σ : Type} (s : Sys σ) : Prop :=
  ∀ h1 h2, (s.txns h1).txn_id_ = (s.txns h2).txn_id_ → h1 = h2

/-! ## Specification-side notions -/

/-- Position of a group mode in the precedence X > SIX > S > IX > IS > NONE. -/
def GroupLockMode.rank : GroupLockMode → Nat
  | .NON_LOCK => 0
  | .IS => 1
  | .IX => 2
  | .S => 3
  | .SIX => 4
  | .X => 5

/-- The group mode that names a request mode. -/
def LockMode.toGroup : LockMode → GroupLockMode
  | .SHARED => .S
  | .EXLUCSIVE => .X
  | .INTENTION_SHARED => .IS
  | .INTENTION_EXCLUSIVE => .IX
  | .S_IX => .SIX

/-- The strongest mode among the requests of a queue under the precedence
X > SIX > S > IX > IS > NONE; NONE for an empty queue. -/
def strongest_mode : List LockRequest → GroupLockMode
  | [] => .NON_LOCK
  | r :: rs =>
    if (strongest_mode rs).rank < r.lock_mode_.toGroup.rank then r.lock_mode_.toGroup
    else strongest_mode rs

/-- Number of requests whose mode is S or SIX. -/
def S_holders (rs : List LockRequest) : Nat :=
  rs.countP (fun r => r.lock_mode_ = .SHARED ∨ r.lock_mode_ = .S_IX)

/-- Number of requests whose mode is IX or SIX. -/
def IX_holders (rs : List LockRequest) : Nat :=
  rs.countP (fun r => r.lock_mode_ = .INTENTION_EXCLUSIVE ∨ r.lock_mode_ = .S_IX)

/-- The standard multi-granularity compatibility matrix. -/
def compatible : LockMode → LockMode → Bool
  | .INTENTION_SHARED, .EXLUCSIVE => false
  | .INTENTION_SHARED, _ => true
  | .INTENTION_EXCLUSIVE, .INTENTION_SHARED => true
  | .INTENTION_EXCLUSIVE, .INTENTION_EXCLUSIVE => true
  | .INTENTION_EXCLUSIVE, _ => false
  | .SHARED, .INTENTION_SHARED => true
  | .SHARED, .SHARED => true
  | .SHARED, _ => false
  | .S_IX, .INTENTION_SHARED => true
  | .S_IX, _ => false
  | .EXLUCSIVE, _ => false

/-- The transaction ids of the requests of a queue, in queue order. -/
def queue_ids (rs : List LockRequest) : List Int := rs.map (fun r => r.txn_id_)

/-- Invariant of one request queue: the group mode is the strongest request
mode, a transaction has at most one request, the counters do not under-count,
and requests of different transactions are compatible. -/
structure QueueInv (q : LockRequestQueue) : Prop where
  group : q.group_lock_mode_ = strongest_mode q.request_queue_
  nodup : (queue_ids q.request_queue_).Nodup
  s_count : (S_holders q.request_queue_ : Int) ≤ q.shared_lock_num_
  ix_count : (IX_holders q.request_queue_ : Int) ≤ q.IX_lock_num_
  compat : q.request_queue_.Pairwise (fun a b => compatible a.lock_mode_ b.lock_mode_ = true)

/-- Every queue of the lock table satisfies the queue invariant. -/
def TableInv (lt : LockTable) : Prop := ∀ d q, lt d = some q → QueueInv q

/-- What an acquire call that passed the state gate did: it kept the queue
(re-entrant success, or a refusal on an existing queue), or rewrote the mode
of the request found, or appended a new request and recorded the lock id in
the lock-set. -/
def Granted (op : LockOp) (txn : Transaction) (lt : LockTable) (r : LockResult) : Prop :=
  let d := op.target
  let lt1 := ensure_queue lt d
  let q := queue_at lt1 d
  (r.txn = { txn with state_ := .GROWING } ∧ r.lock_table = lt1 ∧
    ((r.outcome = .ret true ∧ ∃ it, find_request txn.txn_id_ q.request_queue_ = some it) ∨
      (r.outcome = .throw .DEADLOCK_PREVENTION ∧ q ≠ LockRequestQueue.empty))) ∨
  (∃ it m g sn ixn, find_request txn.txn_id_ q.request_queue_ = some it ∧
    r.outcome = .ret true ∧ r.txn = { txn with state_ := .GROWING } ∧
    r.lock_table = Function.update lt1 d
      (some ⟨set_mode txn.txn_id_ m q.request_queue_, g, sn, ixn⟩)) ∨
  (∃ m g sn ixn, find_request txn.txn_id_ q.request_queue_ = none ∧
    r.outcome = .ret true ∧
    r.txn = { txn with state_ := .GROWING, lock_set_ := lock_set_emplace txn.lock_set_ d } ∧
    r.lock_table = Function.update lt1 d
      (some ⟨q.request_queue_ ++ [⟨txn.txn_id_, m, true⟩], g, sn, ixn⟩))

/-- Finite runs of the system: the reflexive and transitive closure of
`Step`. -/
inductive Steps {σ : Type} (c : Collab σ) : Sys σ → Sys σ → Prop where
  | refl (s : Sys σ) : Steps c s s
  | tail (s s1 s2 : Sys σ) (h1 : Steps c s s1) (h2 : Step c s1 s2) : Steps c s s2

/-- The system after the transaction with handle `h` called `unlock` on `d`. -/
def after_unlock {σ : Type} (s : Sys σ) (h : Nat) (d : LockDataId) : Sys σ :=
  { s with
    lock_table := (unlock (s.txns h) s.lock_table d).lock_table
    txns := Function.update s.txns h (unlock (s.txns h) s.lock_table d).txn }

/-- Invariant of the whole system: a transaction whose id is in the queue of a
resource has that resource in its lock-set, and a transaction in a terminal
state has an empty lock-set. -/
structure SysInv {σ : Type} (s : Sys σ) : Prop where
  cover : ∀ (h : Nat) (d : LockDataId) (q : LockRequestQueue), s.lock_table d = some q →
    (s.txns h).txn_id_ ∈ queue_ids q.request_queue_ → d ∈ (s.txns h).lock_set_
  terminal : ∀ h : Nat, (s.txns h).state_ = .COMMITTED ∨ (s.txns h).state_ = .ABORTED →
    (s.txns h).lock_set_ = []

/-- The system after the transaction with handle `h` called an acquire
operation. -/
def after_acquire {σ : Type} (s : Sys σ) (h : Nat) (op : LockOp) : Sys σ :=
  { s with
    lock_table := (acquire op (s.txns h) s.lock_table).lock_table
    txns := Function.update s.txns h (acquire op (s.txns h) s.lock_table).txn }

/-- The system after `commit` of the transaction with handle `h`. -/
def after_commit {σ : Type} (s : Sys σ) (h : Nat) : Sys σ :=
  { s with
    lock_table := (commit (s.txns h) s.lock_table).2
    txns := Function.update s.txns h (commit (s.txns h) s.lock_table).1 }

/-! ## Concrete scenarios -/

/-- Collaborators over an empty store: every call throws.  Enough for
scenarios whose write-sets are empty. -/
def no_store : Collab Unit :=
  { get_table := fun _ _ => none
    get_record := fun _ _ _ => none
    insert_record := fun _ _ _ => none
    delete_record := fun _ _ _ => none
    update_record := fun _ _ _ _ => none
    insert_entry := fun _ _ _ _ _ => none
    delete_entry := fun _ _ _ _ => none }

/-- The initial system: an empty lock table, and behind handle `h` the fresh
transaction with id `h`. -/
def sys0 : Sys Unit :=
  { lock_table := LockTable.empty, txns := fun h => Transaction.fresh h, store := () }

/-- Transaction 1 holds S on table 0. -/
def sys_S : Sys Unit := after_acquire sys0 1 (.shared_on_table 0)

/-- Transaction 1 took S on table 0 and then X on table 0. -/
def sys_SX : Sys Unit := after_acquire sys_S 1 (.exclusive_on_table 0)

/-- Transactions 1 and 2 both hold S on table 0. -/
def sys_SS : Sys Unit := after_acquire sys_S 2 (.shared_on_table 0)

/-- Transaction 1 holds X on record (0, 0) of table 0. -/
def sys_Xrec : Sys Unit := after_acquire sys0 1 (.exclusive_on_record ⟨0, 0⟩ 0)

/-- Transaction 1 took IX and then X on table 0 and committed; then
transaction 2 took IX on table 0. -/
def sys_IX_after_X : Sys Unit :=
  after_acquire
    (after_commit (after_acquire (after_acquire sys0 1 (.IX_on_table 0)) 1 (.exclusive_on_table 0)) 1)
    2 (.IX_on_table 0)

/-! ## Transaction manager: begin -/

/-- Modelled from the spec: the state of the transaction manager read by
`begin` (declared in the absent `transaction_manager.h`): the counter
`next_txn_id_`, an atomic `txn_id_t`, and the global table `txn_map` from
transaction id to transaction object. -/
structure TransactionManager where
  next_txn_id_ : Int
  txn_map : Int → Option Transaction

/-- Modelled from the spec: `txn_id_t` is a signed integer of 32 bits
(declared in the absent `config.h`), and arithmetic on the atomic counter
wraps around: the value of the type that stands for the integer `x`. -/
def txn_id_wrap (x : Int) : Int := (x + 2147483648) % 4294967296 - 2147483648

/-- `TransactionManager::begin`; `none` stands for the null pointer.  Returns
the transaction and the manager state after the call.  `next_txn_id_++`
gives the old value to the constructor and stores the old value plus one,
wrapped into `txn_id_t`. -/
def begin (tm : TransactionManager) (txn : Option Transaction) :
    Transaction × TransactionManager :=
  match txn with
  | none =>
    let t := Transaction.fresh tm.next_txn_id_
    (t, { next_txn_id_ := txn_id_wrap (tm.next_txn_id_ + 1)
          txn_map := Function.update tm.txn_map t.txn_id_ (some t) })
  | some t => (t, { tm with txn_map := Function.update tm.txn_map t.txn_id_ (some t) })

/-- The manager state after a sequence of `begin` calls with the given
arguments. -/
def begin_all (tm : TransactionManager) : List (Option Transaction) → TransactionManager
  | [] => tm
  | a :: rest => begin_all (begin tm a).2 rest

/-- A transaction manager that has handed out no id: the counter is 0 and
`txn_map` is empty. -/
def tm_init : TransactionManager :=
  { next_txn_id_ := 0, txn_map := fun _ => none }

/-! ## The operations issued by abort -/

/-- One mutating call on a collaborator, with its arguments and, for
`insert_record`, the rid it returned. -/
inductive StoreOp where
  | delete_entry (tab_name : String) (cols : List ColMeta) (key : Bytes)
  | insert_entry (tab_name : String) (cols : List ColMeta) (key : Bytes) (rid : Rid)
  | delete_record (tab_name : String) (rid : Rid)
  | insert_record (tab_name : String) (data : Bytes) (rid : Rid)
  | update_record (tab_name : String) (rid : Rid) (data : Bytes)
  deriving DecidableEq

/-- The collaborators `c` with a log: every mutating call is appended to the
log with its arguments; the calls themselves act as in `c`. -/
def traced {σ : Type} (c : Collab σ) : Collab (σ × List StoreOp) :=
  { get_table := fun s t => c.get_table s.1 t
    get_record := fun s t rid => c.get_record s.1 t rid
    insert_record := fun s t data =>
      match c.insert_record s.1 t data with
      | none => none
      | some (rid, st1) => some (rid, (st1, s.2 ++ [.insert_record t data rid]))
    delete_record := fun s t rid =>
      match c.delete_record s.1 t rid with
      | none => none
      | some st1 => some (st1, s.2 ++ [.delete_record t rid])
    update_record := fun s t rid data =>
      match c.update_record s.1 t rid data with
      | none => none
      | some st1 => some (st1, s.2 ++ [.update_record t rid data])
    insert_entry := fun s t cols key rid =>
      match c.insert_entry s.1 t cols key rid with
      | none => none
      | some st1 => some (st1, s.2 ++ [.insert_entry t cols key rid])
    delete_entry := fun s t cols key =>
      match c.delete_entry s.1 t cols key with
      | none => none
      | some st1 => some (st1, s.2 ++ [.delete_entry t cols key]) }

/-- Spec side: the keys built from a record for the indexes of a table, in
index order; `none` when some key cannot be built. -/
def index_keys (data : Bytes) : List IndexMeta → Option (List Bytes)
  | [] => some []
  | index :: rest =>
    match build_key index data, index_keys data rest with
    | some key, some keys => some (key :: keys)
    | _, _ => none

/-- Spec side: delete the given key from every index of the table. -/
def delete_entry_ops (tab_name : String) : List IndexMeta → List Bytes → List StoreOp
  | index :: rest, key :: keys =>
    .delete_entry tab_name index.cols key :: delete_entry_ops tab_name rest keys
  | _, _ => []

/-- Spec side: insert (key, rid) into every index of the table. -/
def insert_entry_ops (tab_name : String) (rid : Rid) : List IndexMeta → List Bytes → List StoreOp
  | index :: rest, key :: keys =>
    .insert_entry tab_name index.cols key rid :: insert_entry_ops tab_name rid rest keys
  | _, _ => []

/-- Spec side: the inverse of one write record as a list of operations, in the
store state in which the record is undone.  INSERT: delete from every index
the key built from the record currently at rid, then delete rid from the heap.
DELETE: insert the pre-image into the heap, obtaining a new rid, then insert
(key of the pre-image, new rid) into every index.  UPDATE: delete from every
index the key built from the record currently at rid, insert (key of the
pre-image, rid) into every index, then overwrite the heap record at rid with
the pre-image. -/
def inverse_ops {σ : Type} (c : Collab σ) (st : σ) (w : WriteRecord) : Option (List StoreOp) :=
  match w.wtype_ with
  | .INSERT_TUPLE =>
    match c.get_table st w.tab_name_, c.get_record st w.tab_name_ w.rid_ with
    | some tab, some cur =>
      match index_keys cur tab.indexes with
      | some keys =>
        some (delete_entry_ops w.tab_name_ tab.indexes keys ++ [.delete_record w.tab_name_ w.rid_])
      | none => none
    | _, _ => none
  | .DELETE_TUPLE =>
    match c.get_table st w.tab_name_, c.insert_record st w.tab_name_ w.record_ with
    | some tab, some (rid, _) =>
      match index_keys w.record_ tab.indexes with
      | some keys =>
        some (.insert_record w.tab_name_ w.record_ rid ::
          insert_entry_ops w.tab_name_ rid tab.indexes keys)
      | none => none
    | _, _ => none
  | .UPDATE_TUPLE =>
    match c.get_table st w.tab_name_, c.get_record st w.tab_name_ w.rid_ with
    | some tab, some cur =>
      match index_keys cur tab.indexes, index_keys w.record_ tab.indexes with
      | some keys_cur, some keys_pre =>
        some (delete_entry_ops w.tab_name_ tab.indexes keys_cur ++
          insert_entry_ops w.tab_name_ w.rid_ tab.indexes keys_pre ++
          [.update_record w.tab_name_ w.rid_ w.record_])
      | _, _ => none
    | _, _ => none

/-- Spec side: the effect of one operation on the store; an `insert_record`
must return the rid it names. -/
def StoreOp.run {σ : Type} (c : Collab σ) (st : σ) : StoreOp → Option σ
  | .delete_entry t cols key => c.delete_entry st t cols key
  | .insert_entry t cols key rid => c.insert_entry st t cols key rid
  | .delete_record t rid => c.delete_record st t rid
  | .insert_record t data rid =>
    match c.insert_record st t data with
    | some (rid1, st1) => if rid1 = rid then some st1 else none
    | none => none
  | .update_record t rid data => c.update_record st t rid data

/-- Spec side: the effect of a sequence of operations on the store. -/
def run_ops {σ : Type} (c : Collab σ) : List StoreOp → σ → Option σ
  | [], st => some st
  | op :: ops, st =>
    match op.run c st with
    | none => none
    | some st1 => run_ops c ops st1

/-- Spec side: undo the write records in the order given (newest first): the
store reached and the concatenation of the inverses. -/
def replay_newest_first {σ : Type} (c : Collab σ) :
    List WriteRecord → σ → Option (σ × List StoreOp)
  | [], st => some (st, [])
  | w :: older, st =>
    match inverse_ops c st w with
    | none => none
    | some ops =>
      match run_ops c ops st with
      | none => none
      | some st1 =>
        match replay_newest_first c older st1 with
        | none => none
        | some (st2, rest) => some (st2, ops ++ rest)

/-- Spec side: the replay of a write-set `[w1, ..., wn]` in strict LIFO order:
inverse(wn), ..., inverse(w1). -/
def replay_spec {σ : Type} (c : Collab σ) (write_set : List WriteRecord) (st : σ) :
    Option (σ × List StoreOp) :=
  replay_newest_first c write_set.reverse st

/-! ## A store of maps -/

/-- Modelled from the spec: the store behind the collaborators, whose code is
absent: the catalog, per table a heap that maps a rid to the bytes of its
record, and per index (named by table and column list) a map from key to
rid. -/
structure MapStore where
  tables : String → Option TabMeta
  heap : String → Rid → Option Bytes
  index : String → List ColMeta → Bytes → Option Rid

/-- The store with the heap entry of `rid` in table `t` set to `v`. -/
def MapStore.set_record (s : MapStore) (t : String) (rid : Rid) (v : Option Bytes) : MapStore :=
  { s with heap := Function.update s.heap t (Function.update (s.heap t) rid v) }

/-- The store with the entry of `key` in the index `cols` of table `t` set to
`v`. -/
def MapStore.set_entry (s : MapStore) (t : String) (cols : List ColMeta) (key : Bytes)
    (v : Option Rid) : MapStore :=
  { s with
    index := Function.update s.index t
      (Function.update (s.index t) cols (Function.update (s.index t cols) key v)) }

/-- Modelled from the spec: the collaborators over a store of maps.
`get_record` throws when the heap has no record at the rid; `insert_record`
stores the bytes at the rid chosen by `alloc` (the spec fixes no policy, it
only says that a new rid is obtained); the other calls set or clear one entry
of a map. -/
def map_collab (alloc : (Rid → Option Bytes) → Rid) : Collab MapStore :=
  { get_table := fun s t => s.tables t
    get_record := fun s t rid => s.heap t rid
    insert_record := fun s t data =>
      some (alloc (s.heap t), s.set_record t (alloc (s.heap t)) (some data))
    delete_record := fun s t rid => some (s.set_record t rid none)
    update_record := fun s t rid data => some (s.set_record t rid (some data))
    insert_entry := fun s t cols key rid => some (s.set_entry t cols key (some rid))
    delete_entry := fun s t cols key => some (s.set_entry t cols key none) }

/-- Modelled from the spec: one allocation policy for `insert_record`, the
first free slot of page 0 (slots 0 to 7), else slot 0 of page 1. -/
def first_free (h : Rid → Option Bytes) : Rid :=
  match (List.range 8).find? (fun i => (h ⟨0, i⟩).isNone) with
  | some i => ⟨0, i⟩
  | none => ⟨1, 0⟩

/-! ## Concrete scenarios on the store of maps -/

/-- The one-byte column `a` at offset 0. -/
def col_a : ColMeta := { name := "a", len := 1, offset := 0 }

/-- The index of table `t` on column `a`. -/
def index_a : IndexMeta := { tab_name := "t", col_tot_len := 1, col_num := 1, cols := [col_a] }

/-- The catalog entry of table `t`, with its one index. -/
def tab_t : TabMeta := { name := "t", indexes := [index_a] }

/-- A store with table `t` only, no record and no index entry. -/
def store_empty : MapStore :=
  { tables := fun t => if t = "t" then some tab_t else none
    heap := fun _ _ => none
    index := fun _ _ _ => none }

/-- Table `t` holds the row `[7]` at slot 0 of page 0, with its index entry. -/
def store_row : MapStore :=
  (store_empty.set_record "t" ⟨0, 0⟩ (some [7])).set_entry "t" [col_a] [7] (some ⟨0, 0⟩)

/-- The transaction that inserted the row of `store_row` and holds IX on
table `t` (file 0) and X on the record. -/
def txn_insert : Transaction :=
  { txn_id_ := 1, state_ := .GROWING
    lock_set_ := [.RECORD 0 ⟨0, 0⟩, .TABLE 0]
    write_set_ := [⟨.INSERT_TUPLE, "t", ⟨0, 0⟩, []⟩] }

/-- The pre-transaction snapshot of the rid-reuse scenario: slot 0 of page 0
is free, the row `[7]` stands at slot 1, with its index entry. -/
def store_snapshot : MapStore :=
  (store_empty.set_record "t" ⟨0, 1⟩ (some [7])).set_entry "t" [col_a] [7] (some ⟨0, 1⟩)

/-- The store after the transaction updated the row at slot 1 to `[8]` (the
executor replaces the index entry and overwrites the record). -/
def store_updated : MapStore :=
  ((store_snapshot.set_entry "t" [col_a] [7] none).set_entry "t" [col_a] [8]
    (some ⟨0, 1⟩)).set_record "t" ⟨0, 1⟩ (some [8])

/-- The store after the transaction then deleted the row at slot 1 (the
executor removes the index entry and the record). -/
def store_deleted : MapStore :=
  (store_updated.set_entry "t" [col_a] [8] none).set_record "t" ⟨0, 1⟩ none

/-- The write-set of that transaction: the update, then the delete, of the row
at slot 1, each with its pre-image. -/
def write_set_update_delete : List WriteRecord :=
  [⟨.UPDATE_TUPLE, "t", ⟨0, 1⟩, [7]⟩, ⟨.DELETE_TUPLE, "t", ⟨0, 1⟩, [8]⟩]

/-! ## Further lock scenarios -/

/-- Transaction 1 holds IS on table 0. -/
def sys_IS : Sys Unit := after_acquire sys0 1 (.IS_on_table 0)

/-- Transaction 1 holds S on record (0, 0) of table 0. -/
def sys_Srec : Sys Unit := after_acquire sys0 1 (.shared_on_record ⟨0, 0⟩ 0)

/-! ## Index keys, specification side -/

/-- Spec side: the key of a record for a column list: the concatenation, in
declared column order, of the record bytes `[offset, offset + len)` of each
column. -/
def spec_key (data : Bytes) : List ColMeta → Bytes
  | [] => []
  | col :: rest => (data.drop col.offset).take col.len ++ spec_key data rest

/-- Spec side: the sum of the lengths of the columns. -/
def cols_len : List ColMeta → Nat
  | [] => 0
  | col :: rest => col.len + cols_len rest

/-- The mode that an acquire operation requests. -/
def LockOp.mode : LockOp → LockMode
  | .shared_on_record _ _ => .SHARED
  | .exclusive_on_record _ _ => .EXLUCSIVE
  | .shared_on_table _ => .SHARED
  | .exclusive_on_table _ => .EXLUCSIVE
  | .IS_on_table _ => .INTENTION_SHARED
  | .IX_on_table _ => .INTENTION_EXCLUSIVE

/-! ## Nested-loop join executor -/

/-- Modelled from the spec: the column types of the catalog (absent
`defs.h`). -/
inductive ColType where
  | TYPE_INT
  | TYPE_FLOAT
  | TYPE_STRING
  deriving DecidableEq

/-- Modelled from the spec: the comparison operator of a condition (absent
`common.h`).  `OP_OTHER` stands for any value outside the six named ones,
which is what the last `else` of `eval_cond` handles. -/
inductive CompOp where
  | OP_EQ
  | OP_NE
  | OP_LT
  | OP_GT
  | OP_LE
  | OP_GE
  | OP_OTHER
  deriving DecidableEq

/-- Modelled from the spec: the name of a column in a condition (absent
`common.h`). -/
structure TabCol where
  tab_name : String
  col_name : String
  deriving DecidableEq

/-- Modelled from the spec: a literal of a condition (absent `common.h`); the
executor reads its type and its raw bytes. -/
structure Value where
  type : ColType
  raw : Bytes
  deriving DecidableEq

/-- Modelled from the spec: a condition `lhs_col op rhs` (absent `common.h`),
whose right side is the literal `rhs_val` or the column `rhs_col`. -/
structure Condition where
  lhs_col : TabCol
  op : CompOp
  is_rhs_val : Bool
  rhs_col : TabCol
  rhs_val : Value
  deriving DecidableEq

/-- Modelled from the spec: the column metadata that an executor reads
(absent `sm_meta.h`): besides name, length and offset, the table name and the
type of the column. -/
structure ExecColMeta extends ColMeta where
  tab_name : String
  type : ColType
  deriving DecidableEq

/-- Modelled from the spec: the two helpers that `eval_cond` calls and whose
code is absent: `get_col` of `executor_abstract.h` (`none` when it throws) and
`ix_compare` of `ix.h`, which is given the bytes from each pointer to the end
of its buffer. -/
structure ExecHelpers where
  get_col : List ExecColMeta → TabCol → Option ExecColMeta
  ix_compare : Bytes → Bytes → ColType → Nat → Int

/-- Modelled from the spec: a child executor (the subclasses of
`AbstractExecutor` are absent) as a cursor over a finite sequence of tuples:
`beginTuple` goes to the first tuple, `nextTuple` to the next one, `is_end`
holds behind the last one and `Next` gives the tuple under the cursor. -/
structure AbstractExecutor where
  tuples : List Bytes
  pos : Nat
  len : Nat
  col_list : List ExecColMeta

def AbstractExecutor.beginTuple (e : AbstractExecutor) : AbstractExecutor :=
  { e with pos := 0 }

def AbstractExecutor.nextTuple (e : AbstractExecutor) : AbstractExecutor :=
  { e with pos := e.pos + 1 }

def AbstractExecutor.is_end (e : AbstractExecutor) : Bool :=
  decide (e.tuples.length ≤ e.pos)

def AbstractExecutor.Next (e : AbstractExecutor) : Option Bytes :=
  e.tuples[e.pos]?

def AbstractExecutor.tupleLen (e : AbstractExecutor) : Nat := e.len

def AbstractExecutor.cols (e : AbstractExecutor) : List ExecColMeta := e.col_list

/-- The members of `NestedLoopJoinExecutor`. -/
structure NestedLoopJoinExecutor where
  left_ : AbstractExecutor
  right_ : AbstractExecutor
  len_ : Nat
  cols_ : List ExecColMeta
  fed_conds_ : List Condition
  isend : Bool

/-- The constructor: the record length is the sum of the two tuple lengths and
the columns are those of the left child followed by those of the right child
with their offsets moved behind the left tuple. -/
def NestedLoopJoinExecutor.new (left right : AbstractExecutor) (conds : List Condition) :
    NestedLoopJoinExecutor :=
  { left_ := left
    right_ := right
    len_ := left.tupleLen + right.tupleLen
    cols_ := left.cols ++
      right.cols.map (fun col => { col with offset := col.offset + left.tupleLen })
    fed_conds_ := conds
    isend := false }

def NestedLoopJoinExecutor.is_end (e : NestedLoopJoinExecutor) : Bool := e.left_.is_end

def NestedLoopJoinExecutor.tupleLen (e : NestedLoopJoinExecutor) : Nat := e.len_

/-- The right side of a condition: the bytes from the pointer `rhs` on, and
`rhs_type`.  A column that `get_col` does not find, and a pointer
`rrec->data + rhs_col->offset - left_->tupleLen()` that is not followed by
`len` bytes of the right record (or of the literal), give `none`. -/
def eval_rhs (hp : ExecHelpers) (left_len : Nat) (rec_cols : List ExecColMeta)
    (cond : Condition) (rrec : Bytes) (len : Nat) : Option (Bytes × ColType) :=
  if cond.is_rhs_val then
    if len ≤ cond.rhs_val.raw.length then some (cond.rhs_val.raw, cond.rhs_val.type) else none
  else
    match hp.get_col rec_cols cond.rhs_col with
    | none => none
    | some rhs_col =>
      if left_len ≤ rhs_col.offset ∧ rhs_col.offset - left_len + len ≤ rrec.length then
        some (rrec.drop (rhs_col.offset - left_len), rhs_col.type)
      else none

/-- The method `eval_cond`; `left_len` is `left_->tupleLen()`.  `none` stands
for a throw (`get_col`, the unexpected operator), the failed assertion on the
types, and a read outside a record, which is undefined in the source. -/
def eval_cond (hp : ExecHelpers) (left_len : Nat) (rec_cols : List ExecColMeta)
    (cond : Condition) (lrec rrec : Bytes) : Option Bool :=
  match hp.get_col rec_cols cond.lhs_col with
  | none => none
  | some lhs_col =>
    if lhs_col.offset + lhs_col.len ≤ lrec.length then
      match eval_rhs hp left_len rec_cols cond rrec lhs_col.len with
      | none => none
      | some (rhs, rhs_type) =>
        if rhs_type = lhs_col.type then
          let cmp := hp.ix_compare (lrec.drop lhs_col.offset) rhs rhs_type lhs_col.len
          match cond.op with
          | .OP_EQ => some (decide (cmp = 0))
          | .OP_NE => some (decide (cmp ≠ 0))
          | .OP_LT => some (decide (cmp < 0))
          | .OP_GT => some (decide (cmp > 0))
          | .OP_LE => some (decide (cmp ≤ 0))
          | .OP_GE => some (decide (cmp ≥ 0))
          | .OP_OTHER => none
        else none
    else none

/-- The method `eval_conds`: `std::all_of` over the conditions, which stops at
the first condition that is false. -/
def eval_conds (hp : ExecHelpers) (left_len : Nat) (rec_cols : List ExecColMeta) :
    List Condition → Bytes → Bytes → Option Bool
  | [], _, _ => some true
  | cond :: conds, lrec, rrec =>
    match eval_cond hp left_len rec_cols cond lrec rrec with
    | none => none
    | some false => some false
    | some true => eval_conds hp left_len rec_cols conds lrec rrec

/-- The loop `while (!is_end())` that ends `beginTuple` and `nextTuple`: it
stops at the first pair of tuples, from the two cursors on, that satisfies the
conditions, or behind the last left tuple.  `none` when `eval_conds` gives
`none` or a child is read behind its last tuple. -/
def NestedLoopJoinExecutor.scan (hp : ExecHelpers) (e : NestedLoopJoinExecutor) :
    Option NestedLoopJoinExecutor :=
  if _hend : e.is_end = true then some e
  else
    match _hl : e.left_.Next, _hr : e.right_.Next with
    | some lrec, some rrec =>
      match eval_conds hp e.left_.tupleLen e.cols_ e.fed_conds_ lrec rrec with
      | none => none
      | some true => some e
      | some false =>
        if e.right_.nextTuple.is_end then
          NestedLoopJoinExecutor.scan hp
            { e with left_ := e.left_.nextTuple, right_ := e.right_.nextTuple.beginTuple }
        else
          NestedLoopJoinExecutor.scan hp { e with right_ := e.right_.nextTuple }
    | _, _ => none
termination_by (e.left_.tuples.length - e.left_.pos, e.right_.tuples.length - e.right_.pos)
decreasing_by
  · simp only [NestedLoopJoinExecutor.is_end, AbstractExecutor.is_end, decide_eq_true_eq] at _hend
    simp only [AbstractExecutor.nextTuple, AbstractExecutor.beginTuple]
    apply Prod.Lex.left
    omega
  · have hlt := (List.getElem?_eq_some.mp _hr).1
    simp only [AbstractExecutor.nextTuple]
    apply Prod.Lex.right
    omega

/-- The method `beginTuple`. -/
def NestedLoopJoinExecutor.beginTuple (hp : ExecHelpers) (e : NestedLoopJoinExecutor) :
    Option NestedLoopJoinExecutor :=
  let e1 := { e with left_ := e.left_.beginTuple }
  if e1.left_.is_end then some e1
  else NestedLoopJoinExecutor.scan hp { e1 with right_ := e1.right_.beginTuple }

/-- The method `nextTuple`; `none` also when the assertion `!is_end()`
fails. -/
def NestedLoopJoinExecutor.nextTuple (hp : ExecHelpers) (e : NestedLoopJoinExecutor) :
    Option NestedLoopJoinExecutor :=
  if e.is_end then none
  else
    let e1 := { e with right_ := e.right_.nextTuple }
    if e1.right_.is_end then
      NestedLoopJoinExecutor.scan hp
        { e1 with left_ := e1.left_.nextTuple, right_ := e1.right_.beginTuple }
    else NestedLoopJoinExecutor.scan hp e1

/-- The call `memcpy(dst + off, src, src.size)` on a buffer; a write past the
end of the buffer is undefined in the source and gives `none`. -/
def memcpy_at (dst : Bytes) (off : Nat) (src : Bytes) : Option Bytes :=
  if off + src.length ≤ dst.length then
    some (dst.take off ++ src ++ dst.drop (off + src.length))
  else none

/-- The method `Next`: a new record of `len_` bytes (their content is
indeterminate in the source, here zero) that receives the left tuple and,
behind it, the right tuple.  `none` when the assertion `!is_end()` fails, a
child has no tuple under its cursor, or a copy leaves the record. -/
def NestedLoopJoinExecutor.Next (e : NestedLoopJoinExecutor) : Option Bytes :=
  if e.is_end then none
  else
    match e.left_.Next, e.right_.Next with
    | some left_record, some right_record =>
      match memcpy_at (List.replicate e.len_ 0) 0 left_record with
      | none => none
      | some record => memcpy_at record left_record.length right_record
    | _, _ => none

/-- Modelled from the spec: the loop of the caller, `Next` and then
`nextTuple` until `is_end`, which collects the records; `fuel` bounds the
number of rounds and `none` is also the answer when it runs out. -/
def NestedLoopJoinExecutor.collect (hp : ExecHelpers) :
    Nat → NestedLoopJoinExecutor → Option (List Bytes)
  | 0, e => if e.is_end then some [] else none
  | fuel + 1, e =>
    if e.is_end then some []
    else
      match e.Next, e.nextTuple hp with
      | some record, some e1 =>
        match NestedLoopJoinExecutor.collect hp fuel e1 with
        | none => none
        | some records => some (record :: records)
      | _, _ => none

/-- Modelled from the spec: `beginTuple` followed by the loop of the
caller. -/
def NestedLoopJoinExecutor.run (hp : ExecHelpers) (fuel : Nat) (e : NestedLoopJoinExecutor) :
    Option (List Bytes) :=
  match e.beginTuple hp with
  | none => none
  | some e1 => NestedLoopJoinExecutor.collect hp fuel e1

/-- Spec side: the join of two tuple sequences under a condition on pairs:
the concatenations of the pairs that satisfy it, in left-major and
right-minor order. -/
def join_spec (sat : Bytes → Bytes → Bool) : List Bytes → List Bytes → List Bytes
  | [], _ => []
  | l :: ls, R => (R.filter (fun r => sat l r)).map (fun r => l ++ r) ++ join_spec sat ls R

/-- Spec side: the part of the join that starts at the pair of the left tuple
number `i` and the right tuple number `j`. -/
def join_rest (sat : Bytes → Bytes → Bool) (L R : List Bytes) (i j : Nat) : List Bytes :=
  match L.drop i with
  | [] => []
  | l :: ls => ((R.drop j).filter (fun r => sat l r)).map (fun r => l ++ r) ++ join_spec sat ls R

/-- The executor over two children with the left cursor at `i` and the right
cursor at `j`. -/
def join_state (left right : AbstractExecutor) (conds : List Condition) (i j : Nat) :
    NestedLoopJoinExecutor :=
  { left_ := { left with pos := i }
    right_ := { right with pos := j }
    len_ := left.tupleLen + right.tupleLen
    cols_ := left.cols ++
      right.cols.map (fun col => { col with offset := col.offset + left.tupleLen })
    fed_conds_ := conds
    isend := false }

/-- The move of the two cursors to the next pair. -/
def join_advance (right : AbstractExecutor) (i j : Nat) : Nat × Nat :=
  if right.tuples.length ≤ j + 1 then (i + 1, 0) else (i, j + 1)

/-- Spec side: a condition `lhs_col op rhs` holds on a record of the join,
read with the columns of the join: the bytes of the record from the offset of
`lhs_col` on are compared, over the length of `lhs_col`, with the literal or
with the bytes of the record from the offset of `rhs_col` on, and the
comparison result is tested by `op`. -/
def cond_holds (hp : ExecHelpers) (cols : List ExecColMeta) (cond : Condition)
    (record : Bytes) : Bool :=
  match hp.get_col cols cond.lhs_col with
  | none => false
  | some lhs_col =>
    let rhs : Option (Bytes × ColType) :=
      if cond.is_rhs_val then some (cond.rhs_val.raw, cond.rhs_val.type)
      else
        match hp.get_col cols cond.rhs_col with
        | none => none
        | some rhs_col => some (record.drop rhs_col.offset, rhs_col.type)
    match rhs with
    | none => false
    | some (rhs_bytes, rhs_type) =>
      let cmp := hp.ix_compare (record.drop lhs_col.offset) rhs_bytes rhs_type lhs_col.len
      match cond.op with
      | .OP_EQ => decide (cmp = 0)
      | .OP_NE => decide (cmp ≠ 0)
      | .OP_LT => decide (cmp < 0)
      | .OP_GT => decide (cmp > 0)
      | .OP_LE => decide (cmp ≤ 0)
      | .OP_GE => decide (cmp ≥ 0)
      | .OP_OTHER => false

/-- Spec side: the pair of a left and a right tuple satisfies every join
condition: each condition holds on the concatenation of the two tuples. -/
def join_sat (hp : ExecHelpers) (cols : List ExecColMeta) (conds : List Condition)
    (l r : Bytes) : Bool :=
  conds.all (fun cond => cond_holds hp cols cond (l ++ r))

/-- The comparison reads at most `n` bytes of each operand. -/
def ReadsPrefix (hp : ExecHelpers) : Prop :=
  ∀ (a a1 b b1 : Bytes) (ty : ColType) (n : Nat), a.take n = a1.take n → b.take n = b1.take n →
    hp.ix_compare a b ty n = hp.ix_compare a1 b1 ty n

/-- Helpers for the scenarios: `get_col` finds the column by table and
column name, `ix_compare` compares the first bytes among the `n` it reads. -/
def helpers_byte : ExecHelpers :=
  { get_col := fun rec_cols target =>
      rec_cols.find? (fun col => col.tab_name == target.tab_name && col.name == target.col_name)
    ix_compare := fun a b _ n => ((a.take n).headD 0 : Int) - ((b.take n).headD 0 : Int) }

/-- A left child over table `t` with the one-byte column `a` and the tuples
1, 2, 3. -/
def child_left : AbstractExecutor :=
  { tuples := [[1], [2], [3]]
    pos := 0
    len := 1
    col_list := [{ name := "a", len := 1, offset := 0, tab_name := "t", type := .TYPE_INT }] }

/-- A right child over table `u` with the one-byte column `b` and the tuples
2, 3, 2, 1. -/
def child_right : AbstractExecutor :=
  { tuples := [[2], [3], [2], [1]]
    pos := 0
    len := 1
    col_list := [{ name := "b", len := 1, offset := 0, tab_name := "u", type := .TYPE_INT }] }

/-- The join condition `t.a = u.b`. -/
def cond_eq : Condition :=
  { lhs_col := ⟨"t", "a"⟩
    op := .OP_EQ
    is_rhs_val := false
    rhs_col := ⟨"u", "b"⟩
    rhs_val := ⟨.TYPE_INT, []⟩ }

/-- The join condition `t.a > 1`. -/
def cond_gt_one : Condition :=
  { lhs_col := ⟨"t", "a"⟩
    op := .OP_GT
    is_rhs_val := true
    rhs_col := ⟨"", ""⟩
    rhs_val := ⟨.TYPE_INT, [1]⟩ }

/-! ## Lemmas on the queue scans -/

theorem find_request_none_iff (id : Int) (rs : List LockRequest) :
    find_request id rs = none ↔ id ∉ queue_ids rs := by
  induction rs with
  | nil => simp [find_request, queue_ids]
  | cons r rs ih =>
    unfold find_request
    by_cases h : r.txn_id_ = id
    · simp [h, queue_ids]
    · simp only [h, if_false, ih, queue_ids, List.map_cons, List.mem_cons, not_or]
      constructor
      · intro h1
        exact ⟨fun e => h e.symm, h1⟩
      · intro h1
        exact h1.2

/-- The scan finds the first request of the transaction: the queue splits
around it, and the in-place update and the erase act on that position. -/
theorem find_request_split (id : Int) (rs : List LockRequest) (it : LockRequest)
    (h : find_request id rs = some it) :
    ∃ pre post, rs = pre ++ it :: post ∧ it.txn_id_ = id ∧ id ∉ queue_ids pre ∧
      (∀ m, set_mode id m rs = pre ++ { it with lock_mode_ := m } :: post) ∧
      erase_request id rs = pre ++ post := by
  induction rs with
  | nil => simp [find_request] at h
  | cons r rs ih =>
    unfold find_request at h
    by_cases hr : r.txn_id_ = id
    · simp only [hr, if_true, Option.some.injEq] at h
      subst h
      refine ⟨[], rs, rfl, hr, by simp [queue_ids], ?_, ?_⟩
      · intro m
        simp [set_mode, hr]
      · simp [erase_request, hr]
    · simp only [hr, if_false] at h
      obtain ⟨pre, post, e, hid, hpre, hset, her⟩ := ih h
      refine ⟨r :: pre, post, by simp [e], hid, ?_, ?_, ?_⟩
      · simp only [queue_ids, List.map_cons, List.mem_cons, not_or]
        exact ⟨fun e1 => hr e1.symm, hpre⟩
      · intro m
        simp [set_mode, hr, hset m]
      · simp [erase_request, hr, her]

theorem find_request_mem (id : Int) (rs : List LockRequest) (it : LockRequest)
    (h : find_request id rs = some it) : it ∈ rs ∧ it.txn_id_ = id := by
  obtain ⟨pre, post, e, hid, _⟩ := find_request_split id rs it h
  subst e
  exact ⟨by simp, hid⟩

/-! ## Lemmas on the strongest mode -/

theorem rank_injective (g1 g2 : GroupLockMode) (h : g1.rank = g2.rank) : g1 = g2 := by
  cases g1 <;> cases g2 <;> simp [GroupLockMode.rank] at h <;> rfl

theorem rank_toGroup_pos (m : LockMode) : 0 < m.toGroup.rank := by
  cases m <;> simp [LockMode.toGroup, GroupLockMode.rank]

theorem rank_le_strongest (rs : List LockRequest) :
    ∀ r ∈ rs, r.lock_mode_.toGroup.rank ≤ (strongest_mode rs).rank := by
  induction rs with
  | nil => simp
  | cons a rs ih =>
    intro r hr
    unfold strongest_mode
    rcases List.mem_cons.mp hr with e | hmem
    · subst e
      split <;> omega
    · have := ih r hmem
      split <;> omega

theorem strongest_attained (rs : List LockRequest) :
    strongest_mode rs = .NON_LOCK ∨ ∃ r ∈ rs, r.lock_mode_.toGroup = strongest_mode rs := by
  induction rs with
  | nil => left; rfl
  | cons a rs ih =>
    right
    unfold strongest_mode
    split
    · exact ⟨a, by simp, rfl⟩
    · rcases ih with h0 | ⟨r, hr, e⟩
      · rename_i hlt
        have hpos := rank_toGroup_pos a.lock_mode_
        rw [h0] at hlt
        have h00 : GroupLockMode.NON_LOCK.rank = 0 := rfl
        omega
      · exact ⟨r, by simp [hr], e⟩

/-- The strongest mode is the only group mode that bounds every request and
is attained (or is NONE). -/
theorem strongest_unique (rs : List LockRequest) (g : GroupLockMode)
    (hle : ∀ r ∈ rs, r.lock_mode_.toGroup.rank ≤ g.rank)
    (hat : g = .NON_LOCK ∨ ∃ r ∈ rs, r.lock_mode_.toGroup = g) :
    g = strongest_mode rs := by
  apply rank_injective
  rcases hat with h0 | ⟨r, hr, e⟩
  · subst h0
    rcases strongest_attained rs with h1 | ⟨r1, hr1, e1⟩
    · rw [h1]
    · have := hle r1 hr1
      have := rank_toGroup_pos r1.lock_mode_
      simp [GroupLockMode.rank] at *
      omega
  · have h1 := rank_le_strongest rs r hr
    rw [e] at h1
    rcases strongest_attained rs with h2 | ⟨r1, hr1, e1⟩
    · rw [h2] at h1
      have := rank_toGroup_pos r.lock_mode_
      rw [e] at this
      simp [GroupLockMode.rank] at *
      omega
    · have := hle r1 hr1
      rw [e1] at this
      omega

theorem mode_num_pos_iff (m : LockMode) (rs : List LockRequest) :
    mode_num m rs > 0 ↔ ∃ r ∈ rs, r.lock_mode_ = m := by
  induction rs with
  | nil => simp [mode_num]
  | cons a rs ih =>
    unfold mode_num
    by_cases h : a.lock_mode_ = m
    · simp [h]
    · simp only [h, if_false, Nat.zero_add, ih, List.mem_cons, exists_eq_or_imp, false_or]

/-- The count-based if-chain of `unlock` computes the strongest mode. -/
theorem recompute_group_eq (rs : List LockRequest) : recompute_group rs = strongest_mode rs := by
  apply strongest_unique
  · intro r hr
    unfold recompute_group
    have key : ∀ m, r.lock_mode_ = m → mode_num m rs > 0 :=
      fun m e => (mode_num_pos_iff m rs).mpr ⟨r, hr, e⟩
    cases hm : r.lock_mode_
    all_goals
      have hk := key _ hm
      simp only [LockMode.toGroup]
      repeat' split
      all_goals simp_all [GroupLockMode.rank]
  · unfold recompute_group
    repeat' split
    all_goals first
      | (left; rfl)
      | (right
         rename_i h
         obtain ⟨r, hr, e⟩ := (mode_num_pos_iff _ rs).mp h
         exact ⟨r, hr, by rw [e]; rfl⟩)

/-! ## Preservation of the queue invariant -/

theorem compatible_comm (a b : LockMode) : compatible a b = compatible b a := by
  cases a <;> cases b <;> rfl

theorem QueueInv_empty : QueueInv LockRequestQueue.empty := by
  constructor <;> simp [LockRequestQueue.empty, strongest_mode, queue_ids, S_holders, IX_holders]

theorem QueueInv.rank_le {q : LockRequestQueue} (hq : QueueInv q) :
    ∀ r ∈ q.request_queue_, r.lock_mode_.toGroup.rank ≤ q.group_lock_mode_.rank := by
  rw [hq.group]
  exact rank_le_strongest _

/-- A fresh request of mode `m` appended to the queue. -/
theorem QueueInv.append {q : LockRequestQueue} (hq : QueueInv q) (id : Int) (m : LockMode)
    (g : GroupLockMode) (sn ixn : Int)
    (hfind : find_request id q.request_queue_ = none)
    (hc : ∀ r ∈ q.request_queue_, compatible r.lock_mode_ m = true)
    (hg : g = if q.group_lock_mode_.rank < m.toGroup.rank then m.toGroup else q.group_lock_mode_)
    (hsn : q.shared_lock_num_ + (if m = .SHARED ∨ m = .S_IX then 1 else 0) ≤ sn)
    (hixn : q.IX_lock_num_ + (if m = .INTENTION_EXCLUSIVE ∨ m = .S_IX then 1 else 0) ≤ ixn) :
    QueueInv
      { request_queue_ := q.request_queue_ ++ [⟨id, m, true⟩]
        group_lock_mode_ := g
        shared_lock_num_ := sn
        IX_lock_num_ := ixn } := by
  have hnot := (find_request_none_iff id _).mp hfind
  constructor
  · simp only
    apply strongest_unique
    · intro r hr
      rcases List.mem_append.mp hr with h1 | h1
      · have := hq.rank_le r h1
        rw [hg]
        split <;> omega
      · simp only [List.mem_singleton] at h1
        subst h1
        rw [hg]
        split <;> simp only <;> omega
    · rw [hg]
      split
      · right
        exact ⟨⟨id, m, true⟩, by simp, rfl⟩
      · rcases strongest_attained q.request_queue_ with h0 | ⟨r, hr, e⟩
        · left
          rw [hq.group, h0]
        · right
          exact ⟨r, by simp [hr], by rw [e, hq.group]⟩
  · have := hq.nodup
    simp only [queue_ids, List.map_append, List.map_cons, List.map_nil] at *
    rw [List.nodup_append]
    refine ⟨this, by simp, ?_⟩
    intro a ha hb
    simp only [List.mem_singleton] at hb
    subst hb
    exact hnot ha
  · have := hq.s_count
    simp only [S_holders, List.countP_append, List.countP_cons, List.countP_nil] at *
    split at hsn <;> simp_all <;> omega
  · have := hq.ix_count
    simp only [IX_holders, List.countP_append, List.countP_cons, List.countP_nil] at *
    split at hixn <;> simp_all <;> omega
  · simp only
    rw [List.pairwise_append]
    refine ⟨hq.compat, by simp, ?_⟩
    intro a ha b hb
    simp only [List.mem_singleton] at hb
    subst hb
    exact hc a ha

/-- The request of the transaction rewritten in place to mode `m`, the group
mode set to the group mode of `m`. -/
theorem QueueInv.upgrade {q : LockRequestQueue} (hq : QueueInv q) (id : Int) (it : LockRequest)
    (m : LockMode) (sn ixn : Int)
    (hfind : find_request id q.request_queue_ = some it)
    (hothers : ∀ r ∈ q.request_queue_, r.txn_id_ ≠ id →
      compatible r.lock_mode_ m = true ∧ r.lock_mode_.toGroup.rank ≤ m.toGroup.rank)
    (hsn : q.shared_lock_num_ + (if m = .SHARED ∨ m = .S_IX then 1 else 0) ≤
      sn + (if it.lock_mode_ = .SHARED ∨ it.lock_mode_ = .S_IX then 1 else 0))
    (hixn : q.IX_lock_num_ + (if m = .INTENTION_EXCLUSIVE ∨ m = .S_IX then 1 else 0) ≤
      ixn + (if it.lock_mode_ = .INTENTION_EXCLUSIVE ∨ it.lock_mode_ = .S_IX then 1 else 0)) :
    QueueInv
      { request_queue_ := set_mode id m q.request_queue_
        group_lock_mode_ := m.toGroup
        shared_lock_num_ := sn
        IX_lock_num_ := ixn } := by
  obtain ⟨pre, post, e, hid, hpre, hset, _⟩ := find_request_split id _ it hfind
  have hnd := hq.nodup
  rw [e] at hnd hothers
  simp only [queue_ids, List.map_append, List.map_cons] at hnd hpre
  rw [List.nodup_append] at hnd
  obtain ⟨hnd1, hnd2, hdisj⟩ := hnd
  rw [List.nodup_cons] at hnd2
  have hpost : id ∉ List.map (fun r => r.txn_id_) post := by
    rw [← hid]
    exact hnd2.1
  have hopre : ∀ r ∈ pre, compatible r.lock_mode_ m = true ∧
      r.lock_mode_.toGroup.rank ≤ m.toGroup.rank := by
    intro r hr
    apply hothers r (by simp [hr])
    intro e1
    exact hpre (List.mem_map.mpr ⟨r, hr, e1⟩)
  have hopost : ∀ r ∈ post, compatible r.lock_mode_ m = true ∧
      r.lock_mode_.toGroup.rank ≤ m.toGroup.rank := by
    intro r hr
    apply hothers r (by simp [hr])
    intro e1
    exact hpost (List.mem_map.mpr ⟨r, hr, e1⟩)
  constructor
  · simp only [hset m]
    apply strongest_unique
    · intro r hr
      simp only [List.mem_append, List.mem_cons] at hr
      rcases hr with h1 | h1 | h1
      · exact (hopre r h1).2
      · subst h1
        exact le_refl _
      · exact (hopost r h1).2
    · right
      exact ⟨{ it with lock_mode_ := m }, by simp, rfl⟩
  · simp only [hset m, queue_ids, List.map_append, List.map_cons]
    rw [List.nodup_append]
    exact ⟨hnd1, List.nodup_cons.mpr hnd2, hdisj⟩
  · have := hq.s_count
    rw [e] at this
    simp only [hset m, S_holders, List.countP_append, List.countP_cons, decide_eq_true_eq,
      Nat.cast_add, Nat.cast_ite, Nat.cast_one, Nat.cast_zero] at *
    omega
  · have := hq.ix_count
    rw [e] at this
    simp only [hset m, IX_holders, List.countP_append, List.countP_cons, decide_eq_true_eq,
      Nat.cast_add, Nat.cast_ite, Nat.cast_one, Nat.cast_zero] at *
    omega
  · have hcp := hq.compat
    rw [e] at hcp
    simp only [hset m]
    rw [List.pairwise_append] at hcp ⊢
    obtain ⟨hc1, hc2, hc3⟩ := hcp
    rw [List.pairwise_cons] at hc2 ⊢
    refine ⟨hc1, ⟨?_, hc2.2⟩, ?_⟩
    · intro b hb
      rw [compatible_comm]
      exact (hopost b hb).1
    · intro a ha b hb
      simp only [List.mem_cons] at hb
      rcases hb with h1 | h1
      · subst h1
        exact (hopre a ha).1
      · exact hc3 a ha b (by simp [h1])

/-- The request of the transaction erased, as `unlock` does. -/
theorem QueueInv.erase {q : LockRequestQueue} (hq : QueueInv q) (id : Int) (it : LockRequest)
    (hfind : find_request id q.request_queue_ = some it) :
    QueueInv
      { request_queue_ := erase_request id q.request_queue_
        group_lock_mode_ := recompute_group (erase_request id q.request_queue_)
        shared_lock_num_ :=
          if it.lock_mode_ = .SHARED ∨ it.lock_mode_ = .S_IX then q.shared_lock_num_ - 1
          else q.shared_lock_num_
        IX_lock_num_ :=
          if it.lock_mode_ = .INTENTION_EXCLUSIVE ∨ it.lock_mode_ = .S_IX then q.IX_lock_num_ - 1
          else q.IX_lock_num_ } := by
  obtain ⟨pre, post, e, hid, hpre, _, her⟩ := find_request_split id _ it hfind
  have hnd := hq.nodup
  have hcp := hq.compat
  have hs := hq.s_count
  have hix := hq.ix_count
  rw [e] at hnd hcp hs hix
  constructor
  · exact recompute_group_eq _
  · simp only [her]
    simp only [queue_ids, List.map_append, List.map_cons] at hnd ⊢
    rw [List.nodup_append] at hnd ⊢
    obtain ⟨hnd1, hnd2, hdisj⟩ := hnd
    refine ⟨hnd1, (List.nodup_cons.mp hnd2).2, ?_⟩
    intro a ha hb
    exact hdisj ha (by simp [hb])
  · simp only [her, S_holders, List.countP_append, List.countP_cons, decide_eq_true_eq,
      Nat.cast_add, Nat.cast_ite, Nat.cast_one, Nat.cast_zero] at *
    split <;> simp_all
    omega
  · simp only [her, IX_holders, List.countP_append, List.countP_cons, decide_eq_true_eq,
      Nat.cast_add, Nat.cast_ite, Nat.cast_one, Nat.cast_zero] at *
    split <;> simp_all
    omega
  · simp only [her]
    rw [List.pairwise_append] at hcp ⊢
    obtain ⟨hc1, hc2, hc3⟩ := hcp
    refine ⟨hc1, (List.pairwise_cons.mp hc2).2, ?_⟩
    intro a ha b hb
    exact hc3 a ha b (by simp [hb])

/-! ## Preservation of the table invariant by the lock manager -/

theorem TableInv_empty : TableInv LockTable.empty := by
  intro d q h
  simp [LockTable.empty] at h

theorem TableInv_update {lt : LockTable} (h : TableInv lt) (d : LockDataId)
    (q : LockRequestQueue) (hq : QueueInv q) : TableInv (Function.update lt d (some q)) := by
  intro d1 q1 h1
  by_cases e : d1 = d
  · subst e
    simp only [Function.update_same, Option.some.injEq] at h1
    subst h1
    exact hq
  · rw [Function.update_noteq e] at h1
    exact h d1 q1 h1

theorem TableInv_ensure {lt : LockTable} (h : TableInv lt) (d : LockDataId) :
    TableInv (ensure_queue lt d) := by
  unfold ensure_queue
  split
  · exact TableInv_update h d _ QueueInv_empty
  · exact h

theorem QueueInv_queue_at {lt : LockTable} (h : TableInv lt) (d : LockDataId) :
    QueueInv (queue_at lt d) := by
  unfold queue_at
  cases e : lt d with
  | none => exact QueueInv_empty
  | some q => exact h d q e

/-- No other request exists when the queue has exactly one request. -/
theorem others_of_length_one {rs : List LockRequest} {id : Int} {it : LockRequest}
    (hfind : find_request id rs = some it) (hlen : rs.length = 1) :
    ∀ r ∈ rs, r.txn_id_ ≠ id → False := by
  intro r hr hne
  obtain ⟨hmem, hid⟩ := find_request_mem id rs it hfind
  match rs, hlen with
  | [a], _ =>
    simp only [List.mem_singleton] at hr hmem
    subst hr hmem
    exact hne hid

/-- Every other request of the queue is compatible with the request found. -/
theorem others_compatible {q : LockRequestQueue} (hq : QueueInv q) {id : Int} {it : LockRequest}
    (hfind : find_request id q.request_queue_ = some it) :
    ∀ r ∈ q.request_queue_, r.txn_id_ ≠ id → compatible r.lock_mode_ it.lock_mode_ = true := by
  obtain ⟨pre, post, e, hid, _, _, _⟩ := find_request_split id _ it hfind
  have hcp := hq.compat
  rw [e] at hcp ⊢
  rw [List.pairwise_append, List.pairwise_cons] at hcp
  obtain ⟨_, ⟨hc2, _⟩, hc3⟩ := hcp
  intro r hr hne
  simp only [List.mem_append, List.mem_cons] at hr
  rcases hr with h1 | h1 | h1
  · exact hc3 r h1 it (by simp)
  · subst h1
    exact absurd hid hne
  · rw [compatible_comm]
    exact hc2 r h1

/-- When the S-count is 1 and the request found is S or SIX, no other request
is S or SIX. -/
theorem others_not_S {q : LockRequestQueue} (hq : QueueInv q) {id : Int} {it : LockRequest}
    (hfind : find_request id q.request_queue_ = some it)
    (hit : it.lock_mode_ = .SHARED ∨ it.lock_mode_ = .S_IX) (hsn : q.shared_lock_num_ = 1) :
    ∀ r ∈ q.request_queue_, r.txn_id_ ≠ id →
      ¬ (r.lock_mode_ = .SHARED ∨ r.lock_mode_ = .S_IX) := by
  obtain ⟨pre, post, e, hid, _, _, _⟩ := find_request_split id _ it hfind
  have hs := hq.s_count
  rw [e, hsn] at hs
  rw [e]
  simp only [S_holders, List.countP_append, List.countP_cons, hit, decide_True, if_true,
    Nat.cast_add, Nat.cast_one] at hs
  have h1 : List.countP (fun r => decide (r.lock_mode_ = .SHARED ∨ r.lock_mode_ = .S_IX)) pre = 0 := by
    omega
  have h2 : List.countP (fun r => decide (r.lock_mode_ = .SHARED ∨ r.lock_mode_ = .S_IX)) post = 0 := by
    omega
  rw [List.countP_eq_zero] at h1 h2
  intro r hr hne
  simp only [List.mem_append, List.mem_cons] at hr
  rcases hr with h | h | h
  · simpa using h1 r h
  · subst h
    exact absurd hid hne
  · simpa using h2 r h

/-- When the IX-count is 1 and the request found is IX or SIX, no other
request is IX or SIX. -/
theorem others_not_IX {q : LockRequestQueue} (hq : QueueInv q) {id : Int} {it : LockRequest}
    (hfind : find_request id q.request_queue_ = some it)
    (hit : it.lock_mode_ = .INTENTION_EXCLUSIVE ∨ it.lock_mode_ = .S_IX)
    (hixn : q.IX_lock_num_ = 1) :
    ∀ r ∈ q.request_queue_, r.txn_id_ ≠ id →
      ¬ (r.lock_mode_ = .INTENTION_EXCLUSIVE ∨ r.lock_mode_ = .S_IX) := by
  obtain ⟨pre, post, e, hid, _, _, _⟩ := find_request_split id _ it hfind
  have hs := hq.ix_count
  rw [e, hixn] at hs
  rw [e]
  simp only [IX_holders, List.countP_append, List.countP_cons, hit, decide_True, if_true,
    Nat.cast_add, Nat.cast_one] at hs
  have h1 : List.countP
      (fun r => decide (r.lock_mode_ = .INTENTION_EXCLUSIVE ∨ r.lock_mode_ = .S_IX)) pre = 0 := by
    omega
  have h2 : List.countP
      (fun r => decide (r.lock_mode_ = .INTENTION_EXCLUSIVE ∨ r.lock_mode_ = .S_IX)) post = 0 := by
    omega
  rw [List.countP_eq_zero] at h1 h2
  intro r hr hne
  simp only [List.mem_append, List.mem_cons] at hr
  rcases hr with h | h | h
  · simpa using h1 r h
  · subst h
    exact absurd hid hne
  · simpa using h2 r h

/-- Two different requests of a queue are compatible. -/
theorem QueueInv.compat_of_ne {q : LockRequestQueue} (hq : QueueInv q) :
    ∀ a ∈ q.request_queue_, ∀ b ∈ q.request_queue_, a ≠ b →
      compatible a.lock_mode_ b.lock_mode_ = true := by
  intro a ha b hb hne
  have hsymm : Symmetric (fun a b : LockRequest => compatible a.lock_mode_ b.lock_mode_ = true) := by
    intro x y hxy
    rw [compatible_comm]
    exact hxy
  exact List.Pairwise.forall hsymm hq.compat ha hb hne

/-- Every request is bounded by the group mode, and some request `w` carries
the group mode; any request is `w` or compatible with `w`. -/
theorem QueueInv.mode_in_group {q : LockRequestQueue} (hq : QueueInv q) :
    ∀ r ∈ q.request_queue_, r.lock_mode_.toGroup.rank ≤ q.group_lock_mode_.rank ∧
      ∃ w : LockMode, w.toGroup = q.group_lock_mode_ ∧
        (r.lock_mode_ = w ∨ compatible r.lock_mode_ w = true) := by
  intro r hr
  refine ⟨hq.rank_le r hr, ?_⟩
  rcases strongest_attained q.request_queue_ with h0 | ⟨w, hw, e⟩
  · have h1 := hq.rank_le r hr
    have h2 := rank_toGroup_pos r.lock_mode_
    rw [hq.group, h0] at h1
    have h00 : GroupLockMode.NON_LOCK.rank = 0 := rfl
    omega
  · refine ⟨w.lock_mode_, by rw [e, hq.group], ?_⟩
    by_cases hrw : r = w
    · left
      rw [hrw]
    · right
      exact hq.compat_of_ne r hr w hw hrw

theorem lock_shared_on_record_inv (txn : Transaction) (lt : LockTable) (rid : Rid) (fd : Int)
    (h : TableInv lt) : TableInv (lock_shared_on_record txn lt rid fd).lock_table := by
  unfold lock_shared_on_record
  have h1 := TableInv_ensure h (.RECORD fd rid)
  have hq := QueueInv_queue_at h1 (.RECORD fd rid)
  dsimp only
  generalize queue_at (ensure_queue lt (.RECORD fd rid)) (.RECORD fd rid) = q at hq ⊢
  generalize ensure_queue lt (.RECORD fd rid) = lt1 at h1 ⊢
  split
  · exact h
  · rename_i txn1 _
    split
    · exact h1
    · rename_i hfind
      split
      · exact h1
      · rename_i hg
        apply TableInv_update h1
        apply hq.append txn1.txn_id_ .SHARED _ _ _ hfind
        · intro r hr
          obtain ⟨hle, w, hw, hrw⟩ := hq.mode_in_group r hr
          revert hle hg hw hrw
          cases r.lock_mode_ <;> cases q.group_lock_mode_ <;> cases w <;>
            simp [GroupLockMode.rank, LockMode.toGroup, compatible]
        · revert hg
          cases q.group_lock_mode_ <;> simp [GroupLockMode.rank, LockMode.toGroup]
        · simp
        · simp

theorem lock_exclusive_on_record_inv (txn : Transaction) (lt : LockTable) (rid : Rid) (fd : Int)
    (h : TableInv lt) : TableInv (lock_exclusive_on_record txn lt rid fd).lock_table := by
  unfold lock_exclusive_on_record
  have h1 := TableInv_ensure h (.RECORD fd rid)
  have hq := QueueInv_queue_at h1 (.RECORD fd rid)
  dsimp only
  generalize queue_at (ensure_queue lt (.RECORD fd rid)) (.RECORD fd rid) = q at hq ⊢
  generalize ensure_queue lt (.RECORD fd rid) = lt1 at h1 ⊢
  split
  · exact h
  · rename_i txn1 _
    split
    · rename_i iter hfind
      split
      · exact h1
      · split
        · rename_i hcond
          apply TableInv_update h1
          refine hq.upgrade txn1.txn_id_ iter .EXLUCSIVE _ _ hfind ?_ ?_ ?_
          · intro r hr hne
            exact (others_of_length_one hfind hcond.2 r hr hne).elim
          · simp only [reduceCtorEq, or_self, if_false]
            split <;> omega
          · simp only [reduceCtorEq, or_self, if_false]
            split <;> omega
        · exact h1
    · rename_i hfind
      split
      · exact h1
      · rename_i hg
        apply TableInv_update h1
        apply hq.append txn1.txn_id_ .EXLUCSIVE _ _ _ hfind
        · intro r hr
          obtain ⟨hle, w, hw, hrw⟩ := hq.mode_in_group r hr
          revert hle hg hw hrw
          cases r.lock_mode_ <;> cases q.group_lock_mode_ <;> cases w <;>
            simp [GroupLockMode.rank, LockMode.toGroup, compatible]
        · revert hg
          cases q.group_lock_mode_ <;> simp [GroupLockMode.rank, LockMode.toGroup]
        · simp
        · simp

theorem lock_shared_on_table_inv (txn : Transaction) (lt : LockTable) (fd : Int)
    (h : TableInv lt) : TableInv (lock_shared_on_table txn lt fd).lock_table := by
  unfold lock_shared_on_table
  have h1 := TableInv_ensure h (.TABLE fd)
  have hq := QueueInv_queue_at h1 (.TABLE fd)
  dsimp only
  generalize queue_at (ensure_queue lt (.TABLE fd)) (.TABLE fd) = q at hq ⊢
  generalize ensure_queue lt (.TABLE fd) = lt1 at h1 ⊢
  split
  · exact h
  · rename_i txn1 _
    split
    · rename_i iter hfind
      split
      · exact h1
      · split
        · rename_i hcond
          apply TableInv_update h1
          refine hq.upgrade txn1.txn_id_ iter .SHARED _ _ hfind ?_ ?_ ?_
          · intro r hr hne
            obtain ⟨hle, w, hw, hrw⟩ := hq.mode_in_group r hr
            have hg := hcond.2
            revert hle hg hw hrw
            cases r.lock_mode_ <;> cases q.group_lock_mode_ <;> cases w <;>
              simp [GroupLockMode.rank, LockMode.toGroup, compatible]
          · simp [hcond.1]
          · simp [hcond.1]
        · split
          · rename_i hcond
            apply TableInv_update h1
            refine hq.upgrade txn1.txn_id_ iter .S_IX _ _ hfind ?_ ?_ ?_
            · intro r hr hne
              have hc := others_compatible hq hfind r hr hne
              have hn := others_not_IX hq hfind (Or.inl hcond.1) hcond.2 r hr hne
              rw [hcond.1] at hc
              revert hc hn
              cases r.lock_mode_ <;> simp [GroupLockMode.rank, LockMode.toGroup, compatible]
            · simp [hcond.1]
            · simp [hcond.1]
          · exact h1
    · rename_i hfind
      split
      · exact h1
      · rename_i hg
        apply TableInv_update h1
        apply hq.append txn1.txn_id_ .SHARED _ _ _ hfind
        · intro r hr
          obtain ⟨hle, w, hw, hrw⟩ := hq.mode_in_group r hr
          revert hle hg hw hrw
          cases r.lock_mode_ <;> cases q.group_lock_mode_ <;> cases w <;>
            simp [GroupLockMode.rank, LockMode.toGroup, compatible]
        · revert hg
          cases q.group_lock_mode_ <;> simp [GroupLockMode.rank, LockMode.toGroup]
        · simp
        · simp

theorem lock_exclusive_on_table_inv (txn : Transaction) (lt : LockTable) (fd : Int)
    (h : TableInv lt) : TableInv (lock_exclusive_on_table txn lt fd).lock_table := by
  unfold lock_exclusive_on_table
  have h1 := TableInv_ensure h (.TABLE fd)
  have hq := QueueInv_queue_at h1 (.TABLE fd)
  dsimp only
  generalize queue_at (ensure_queue lt (.TABLE fd)) (.TABLE fd) = q at hq ⊢
  generalize ensure_queue lt (.TABLE fd) = lt1 at h1 ⊢
  split
  · exact h
  · rename_i txn1 _
    split
    · rename_i iter hfind
      split
      · exact h1
      · split
        · rename_i hcond
          apply TableInv_update h1
          refine hq.upgrade txn1.txn_id_ iter .EXLUCSIVE _ _ hfind ?_ ?_ ?_
          · intro r hr hne
            exact (others_of_length_one hfind hcond r hr hne).elim
          · simp only [reduceCtorEq, or_self, if_false]
            split <;> omega
          · simp only [reduceCtorEq, or_self, if_false]
            split <;> omega
        · exact h1
    · rename_i hfind
      split
      · exact h1
      · rename_i hg
        apply TableInv_update h1
        apply hq.append txn1.txn_id_ .EXLUCSIVE _ _ _ hfind
        · intro r hr
          obtain ⟨hle, w, hw, hrw⟩ := hq.mode_in_group r hr
          revert hle hg hw hrw
          cases r.lock_mode_ <;> cases q.group_lock_mode_ <;> cases w <;>
            simp [GroupLockMode.rank, LockMode.toGroup, compatible]
        · revert hg
          cases q.group_lock_mode_ <;> simp [GroupLockMode.rank, LockMode.toGroup]
        · simp
        · simp

theorem lock_IS_on_table_inv (txn : Transaction) (lt : LockTable) (fd : Int)
    (h : TableInv lt) : TableInv (lock_IS_on_table txn lt fd).lock_table := by
  unfold lock_IS_on_table
  have h1 := TableInv_ensure h (.TABLE fd)
  have hq := QueueInv_queue_at h1 (.TABLE fd)
  dsimp only
  generalize queue_at (ensure_queue lt (.TABLE fd)) (.TABLE fd) = q at hq ⊢
  generalize ensure_queue lt (.TABLE fd) = lt1 at h1 ⊢
  split
  · exact h
  · rename_i txn1 _
    split
    · exact h1
    · rename_i hfind
      split
      · exact h1
      · rename_i hg
        apply TableInv_update h1
        apply hq.append txn1.txn_id_ .INTENTION_SHARED _ _ _ hfind
        · intro r hr
          obtain ⟨hle, w, hw, hrw⟩ := hq.mode_in_group r hr
          revert hle hg hw hrw
          cases r.lock_mode_ <;> cases q.group_lock_mode_ <;> cases w <;>
            simp [GroupLockMode.rank, LockMode.toGroup, compatible]
        · revert hg
          cases q.group_lock_mode_ <;> simp [GroupLockMode.rank, LockMode.toGroup]
        · simp
        · simp

theorem lock_IX_on_table_inv (txn : Transaction) (lt : LockTable) (fd : Int)
    (h : TableInv lt) : TableInv (lock_IX_on_table txn lt fd).lock_table := by
  unfold lock_IX_on_table
  have h1 := TableInv_ensure h (.TABLE fd)
  have hq := QueueInv_queue_at h1 (.TABLE fd)
  dsimp only
  generalize queue_at (ensure_queue lt (.TABLE fd)) (.TABLE fd) = q at hq ⊢
  generalize ensure_queue lt (.TABLE fd) = lt1 at h1 ⊢
  split
  · exact h
  · rename_i txn1 _
    split
    · rename_i iter hfind
      split
      · exact h1
      · split
        · rename_i hcond
          apply TableInv_update h1
          refine hq.upgrade txn1.txn_id_ iter .INTENTION_EXCLUSIVE _ _ hfind ?_ ?_ ?_
          · intro r hr hne
            obtain ⟨hle, w, hw, hrw⟩ := hq.mode_in_group r hr
            have hg := hcond.2
            revert hle hg hw hrw
            cases r.lock_mode_ <;> cases q.group_lock_mode_ <;> cases w <;>
              simp [GroupLockMode.rank, LockMode.toGroup, compatible]
          · simp [hcond.1]
          · simp [hcond.1]
        · split
          · rename_i hcond
            apply TableInv_update h1
            refine hq.upgrade txn1.txn_id_ iter .S_IX _ _ hfind ?_ ?_ ?_
            · intro r hr hne
              have hc := others_compatible hq hfind r hr hne
              have hn := others_not_S hq hfind (Or.inl hcond.1) hcond.2 r hr hne
              rw [hcond.1] at hc
              revert hc hn
              cases r.lock_mode_ <;> simp [GroupLockMode.rank, LockMode.toGroup, compatible]
            · simp [hcond.1]
            · simp [hcond.1]
          · exact h1
    · rename_i hfind
      split
      · exact h1
      · rename_i hg
        apply TableInv_update h1
        apply hq.append txn1.txn_id_ .INTENTION_EXCLUSIVE _ _ _ hfind
        · intro r hr
          obtain ⟨hle, w, hw, hrw⟩ := hq.mode_in_group r hr
          revert hle hg hw hrw
          cases r.lock_mode_ <;> cases q.group_lock_mode_ <;> cases w <;>
            simp [GroupLockMode.rank, LockMode.toGroup, compatible]
        · revert hg
          cases q.group_lock_mode_ <;> simp [GroupLockMode.rank, LockMode.toGroup]
        · simp
        · simp

theorem unlock_inv (txn : Transaction) (lt : LockTable) (d : LockDataId)
    (h : TableInv lt) : TableInv (unlock txn lt d).lock_table := by
  unfold unlock
  split
  · exact h
  · exact h
  · dsimp only
    split
    · exact h
    · rename_i q hq
      split
      · exact h
      · rename_i it hfind
        apply TableInv_update h
        exact (h d q hq).erase _ it hfind

theorem acquire_inv (op : LockOp) (txn : Transaction) (lt : LockTable) (h : TableInv lt) :
    TableInv (acquire op txn lt).lock_table := by
  cases op with
  | shared_on_record rid fd => exact lock_shared_on_record_inv txn lt rid fd h
  | exclusive_on_record rid fd => exact lock_exclusive_on_record_inv txn lt rid fd h
  | shared_on_table fd => exact lock_shared_on_table_inv txn lt fd h
  | exclusive_on_table fd => exact lock_exclusive_on_table_inv txn lt fd h
  | IS_on_table fd => exact lock_IS_on_table_inv txn lt fd h
  | IX_on_table fd => exact lock_IX_on_table_inv txn lt fd h

/-! ## Preservation of the table invariant by the transaction manager -/

theorem unlock_all_inv (ds : List LockDataId) (txn : Transaction) (lt : LockTable)
    (h : TableInv lt) : TableInv (unlock_all txn lt ds).2 := by
  induction ds generalizing txn lt with
  | nil => exact h
  | cons d ds ih =>
    unfold unlock_all
    exact ih _ _ (unlock_inv txn lt d h)

theorem commit_inv (txn : Transaction) (lt : LockTable) (h : TableInv lt) :
    TableInv (commit txn lt).2 := by
  unfold commit
  exact unlock_all_inv _ _ _ h

theorem abort_inv {σ : Type} (c : Collab σ) (st st1 : σ) (txn txn1 : Transaction)
    (lt lt1 : LockTable) (e : abort c st txn lt = some (st1, txn1, lt1)) (h : TableInv lt) :
    TableInv lt1 := by
  unfold abort at e
  split at e
  · simp at e
  · simp only [Option.some.injEq, Prod.mk.injEq] at e
    rw [← e.2.2]
    exact unlock_all_inv _ _ _ h

theorem Step_inv {σ : Type} (c : Collab σ) (s s1 : Sys σ) (hs : Step c s s1)
    (h : TableInv s.lock_table) : TableInv s1.lock_table := by
  cases hs with
  | acquire h0 op => exact acquire_inv op _ _ h
  | unlock h0 d => exact unlock_inv _ _ d h
  | commit h0 => exact commit_inv _ _ h
  | abort h0 st1 txn1 lt1 e => exact abort_inv c _ _ _ _ _ _ e h
  | write h0 ws st1 => exact h
  | reorder h0 ls hp => exact h

theorem Reachable_inv {σ : Type} (c : Collab σ) (s : Sys σ) (hr : Reachable c s) :
    TableInv s.lock_table := by
  induction hr with
  | init s hlt _ =>
    rw [hlt]
    exact TableInv_empty
  | step s s1 _ hs ih => exact Step_inv c s s1 hs ih

/-! ## The shape of an acquire call -/

theorem check_state_ok (txn : Transaction)
    (h : txn.state_ = .DEFAULT ∨ txn.state_ = .GROWING) :
    check_state txn = .ok { txn with state_ := .GROWING } := by
  obtain ⟨id, st, ls, ws⟩ := txn
  simp only at h
  rcases h with h | h <;> subst h <;> rfl

theorem check_state_terminal (txn : Transaction)
    (h : txn.state_ = .COMMITTED ∨ txn.state_ = .ABORTED) :
    check_state txn = .error (.ret false) := by
  unfold check_state
  rcases h with h | h <;> rw [h]

theorem check_state_shrinking (txn : Transaction) (h : txn.state_ = .SHRINKING) :
    check_state txn = .error (.throw .LOCK_ON_SHIRINKING) := by
  unfold check_state
  rw [h]

theorem state_cases (st : TransactionState) :
    (st = .COMMITTED ∨ st = .ABORTED) ∨ st = .SHRINKING ∨ (st = .DEFAULT ∨ st = .GROWING) := by
  cases st <;> simp

theorem queue_ne_empty_of_find {q : LockRequestQueue} {id : Int} {it : LockRequest}
    (h : find_request id q.request_queue_ = some it) : q ≠ LockRequestQueue.empty := by
  intro e
  rw [e] at h
  simp [LockRequestQueue.empty, find_request] at h

theorem queue_ne_empty_of_group {q : LockRequestQueue}
    (h : q.group_lock_mode_ ≠ .NON_LOCK) : q ≠ LockRequestQueue.empty := by
  intro e
  rw [e] at h
  simp [LockRequestQueue.empty] at h

theorem lock_shared_on_record_granted (txn : Transaction) (lt : LockTable) (rid : Rid) (fd : Int)
    (h : txn.state_ = .DEFAULT ∨ txn.state_ = .GROWING) :
    Granted (.shared_on_record rid fd) txn lt (lock_shared_on_record txn lt rid fd) := by
  unfold lock_shared_on_record Granted
  rw [check_state_ok txn h]
  dsimp only [LockOp.target]
  split
  · rename_i it hfind
    exact Or.inl ⟨rfl, rfl, Or.inl ⟨rfl, it, hfind⟩⟩
  · rename_i hfind
    split
    · rename_i hg
      refine Or.inl ⟨rfl, rfl, Or.inr ⟨rfl, queue_ne_empty_of_group ?_⟩⟩
      rcases hg with hg | hg | hg <;> rw [hg] <;> simp
    · exact Or.inr (Or.inr ⟨_, _, _, _, hfind, rfl, rfl, rfl⟩)

theorem lock_exclusive_on_record_granted (txn : Transaction) (lt : LockTable) (rid : Rid) (fd : Int)
    (h : txn.state_ = .DEFAULT ∨ txn.state_ = .GROWING) :
    Granted (.exclusive_on_record rid fd) txn lt (lock_exclusive_on_record txn lt rid fd) := by
  unfold lock_exclusive_on_record Granted
  rw [check_state_ok txn h]
  dsimp only [LockOp.target]
  split
  · rename_i it hfind
    split
    · exact Or.inl ⟨rfl, rfl, Or.inl ⟨rfl, it, hfind⟩⟩
    · split
      · exact Or.inr (Or.inl ⟨it, _, _, _, _, hfind, rfl, rfl, rfl⟩)
      · exact Or.inl ⟨rfl, rfl, Or.inr ⟨rfl, queue_ne_empty_of_find hfind⟩⟩
  · rename_i hfind
    split
    · rename_i hg
      refine Or.inl ⟨rfl, rfl, Or.inr ⟨rfl, queue_ne_empty_of_group ?_⟩⟩
      exact hg
    · exact Or.inr (Or.inr ⟨_, _, _, _, hfind, rfl, rfl, rfl⟩)

theorem lock_shared_on_table_granted (txn : Transaction) (lt : LockTable) (fd : Int)
    (h : txn.state_ = .DEFAULT ∨ txn.state_ = .GROWING) :
    Granted (.shared_on_table fd) txn lt (lock_shared_on_table txn lt fd) := by
  unfold lock_shared_on_table Granted
  rw [check_state_ok txn h]
  dsimp only [LockOp.target]
  split
  · rename_i it hfind
    split
    · exact Or.inl ⟨rfl, rfl, Or.inl ⟨rfl, it, hfind⟩⟩
    · split
      · exact Or.inr (Or.inl ⟨it, _, _, _, _, hfind, rfl, rfl, rfl⟩)
      · split
        · exact Or.inr (Or.inl ⟨it, _, _, _, _, hfind, rfl, rfl, rfl⟩)
        · exact Or.inl ⟨rfl, rfl, Or.inr ⟨rfl, queue_ne_empty_of_find hfind⟩⟩
  · rename_i hfind
    split
    · rename_i hg
      refine Or.inl ⟨rfl, rfl, Or.inr ⟨rfl, queue_ne_empty_of_group ?_⟩⟩
      rcases hg with hg | hg | hg <;> rw [hg] <;> simp
    · exact Or.inr (Or.inr ⟨_, _, _, _, hfind, rfl, rfl, rfl⟩)

theorem lock_exclusive_on_table_granted (txn : Transaction) (lt : LockTable) (fd : Int)
    (h : txn.state_ = .DEFAULT ∨ txn.state_ = .GROWING) :
    Granted (.exclusive_on_table fd) txn lt (lock_exclusive_on_table txn lt fd) := by
  unfold lock_exclusive_on_table Granted
  rw [check_state_ok txn h]
  dsimp only [LockOp.target]
  split
  · rename_i it hfind
    split
    · exact Or.inl ⟨rfl, rfl, Or.inl ⟨rfl, it, hfind⟩⟩
    · split
      · exact Or.inr (Or.inl ⟨it, _, _, _, _, hfind, rfl, rfl, rfl⟩)
      · exact Or.inl ⟨rfl, rfl, Or.inr ⟨rfl, queue_ne_empty_of_find hfind⟩⟩
  · rename_i hfind
    split
    · rename_i hg
      refine Or.inl ⟨rfl, rfl, Or.inr ⟨rfl, queue_ne_empty_of_group ?_⟩⟩
      exact hg
    · exact Or.inr (Or.inr ⟨_, _, _, _, hfind, rfl, rfl, rfl⟩)

theorem lock_IS_on_table_granted (txn : Transaction) (lt : LockTable) (fd : Int)
    (h : txn.state_ = .DEFAULT ∨ txn.state_ = .GROWING) :
    Granted (.IS_on_table fd) txn lt (lock_IS_on_table txn lt fd) := by
  unfold lock_IS_on_table Granted
  rw [check_state_ok txn h]
  dsimp only [LockOp.target]
  split
  · rename_i it hfind
    exact Or.inl ⟨rfl, rfl, Or.inl ⟨rfl, it, hfind⟩⟩
  · rename_i hfind
    split
    · rename_i hg
      refine Or.inl ⟨rfl, rfl, Or.inr ⟨rfl, queue_ne_empty_of_group ?_⟩⟩
      rw [hg]
      simp
    · exact Or.inr (Or.inr ⟨_, _, _, _, hfind, rfl, rfl, rfl⟩)

theorem lock_IX_on_table_granted (txn : Transaction) (lt : LockTable) (fd : Int)
    (h : txn.state_ = .DEFAULT ∨ txn.state_ = .GROWING) :
    Granted (.IX_on_table fd) txn lt (lock_IX_on_table txn lt fd) := by
  unfold lock_IX_on_table Granted
  rw [check_state_ok txn h]
  dsimp only [LockOp.target]
  split
  · rename_i it hfind
    split
    · exact Or.inl ⟨rfl, rfl, Or.inl ⟨rfl, it, hfind⟩⟩
    · split
      · exact Or.inr (Or.inl ⟨it, _, _, _, _, hfind, rfl, rfl, rfl⟩)
      · split
        · exact Or.inr (Or.inl ⟨it, _, _, _, _, hfind, rfl, rfl, rfl⟩)
        · exact Or.inl ⟨rfl, rfl, Or.inr ⟨rfl, queue_ne_empty_of_find hfind⟩⟩
  · rename_i hfind
    split
    · rename_i hg
      refine Or.inl ⟨rfl, rfl, Or.inr ⟨rfl, queue_ne_empty_of_group ?_⟩⟩
      rcases hg with hg | hg | hg <;> rw [hg] <;> simp
    · exact Or.inr (Or.inr ⟨_, _, _, _, hfind, rfl, rfl, rfl⟩)

/-- Every acquire call either stops at the state gate, leaving the
transaction and the lock table as they are, or goes on as `Granted` says. -/
theorem acquire_shape (op : LockOp) (txn : Transaction) (lt : LockTable) :
    ((txn.state_ = .COMMITTED ∨ txn.state_ = .ABORTED) ∧
      (acquire op txn lt).outcome = .ret false ∧ (acquire op txn lt).txn = txn ∧
      (acquire op txn lt).lock_table = lt) ∨
    (txn.state_ = .SHRINKING ∧
      (acquire op txn lt).outcome = .throw .LOCK_ON_SHIRINKING ∧ (acquire op txn lt).txn = txn ∧
      (acquire op txn lt).lock_table = lt) ∨
    ((txn.state_ = .DEFAULT ∨ txn.state_ = .GROWING) ∧ Granted op txn lt (acquire op txn lt)) := by
  rcases state_cases txn.state_ with h | h | h
  · left
    refine ⟨h, ?_⟩
    cases op <;>
      simp only [acquire, lock_shared_on_record, lock_exclusive_on_record, lock_shared_on_table,
        lock_exclusive_on_table, lock_IS_on_table, lock_IX_on_table, check_state_terminal txn h,
        and_self]
  · right; left
    refine ⟨h, ?_⟩
    cases op <;>
      simp only [acquire, lock_shared_on_record, lock_exclusive_on_record, lock_shared_on_table,
        lock_exclusive_on_table, lock_IS_on_table, lock_IX_on_table, check_state_shrinking txn h,
        and_self]
  · right; right
    refine ⟨h, ?_⟩
    cases op with
    | shared_on_record rid fd => exact lock_shared_on_record_granted txn lt rid fd h
    | exclusive_on_record rid fd => exact lock_exclusive_on_record_granted txn lt rid fd h
    | shared_on_table fd => exact lock_shared_on_table_granted txn lt fd h
    | exclusive_on_table fd => exact lock_exclusive_on_table_granted txn lt fd h
    | IS_on_table fd => exact lock_IS_on_table_granted txn lt fd h
    | IX_on_table fd => exact lock_IX_on_table_granted txn lt fd h

/-! ## The shape of an unlock call -/

theorem ensure_queue_eq_of_ne_empty (lt : LockTable) (d : LockDataId)
    (h : queue_at (ensure_queue lt d) d ≠ LockRequestQueue.empty) : ensure_queue lt d = lt := by
  unfold ensure_queue at h ⊢
  cases e : lt d with
  | none =>
    exfalso
    apply h
    simp [e, queue_at]
  | some q => simp

/-- An unlock call by a transaction in a terminal state changes nothing and
returns false. -/
theorem unlock_terminal (txn : Transaction) (lt : LockTable) (d : LockDataId)
    (h : txn.state_ = .COMMITTED ∨ txn.state_ = .ABORTED) :
    (unlock txn lt d).outcome = .ret false ∧ (unlock txn lt d).txn = txn ∧
      (unlock txn lt d).lock_table = lt := by
  unfold unlock
  rcases h with h | h <;> simp [h]

/-- An unlock call by a transaction in DEFAULT, GROWING or SHRINKING returns
true; GROWING becomes SHRINKING, nothing else of the transaction changes; the
lock table is kept, or the request of the transaction is erased from the
queue of `d`. -/
theorem unlock_shape (txn : Transaction) (lt : LockTable) (d : LockDataId)
    (h : txn.state_ ≠ .COMMITTED ∧ txn.state_ ≠ .ABORTED) :
    (unlock txn lt d).outcome = .ret true ∧
    (unlock txn lt d).txn =
      { txn with state_ := if txn.state_ = .GROWING then .SHRINKING else txn.state_ } ∧
    (((unlock txn lt d).lock_table = lt ∧
        (lt d = none ∨ ∃ q, lt d = some q ∧ find_request txn.txn_id_ q.request_queue_ = none)) ∨
      ∃ q it, lt d = some q ∧ find_request txn.txn_id_ q.request_queue_ = some it ∧
        (unlock txn lt d).lock_table = Function.update lt d (some
          { request_queue_ := erase_request txn.txn_id_ q.request_queue_
            group_lock_mode_ := recompute_group (erase_request txn.txn_id_ q.request_queue_)
            shared_lock_num_ :=
              if it.lock_mode_ = .SHARED ∨ it.lock_mode_ = .S_IX then q.shared_lock_num_ - 1
              else q.shared_lock_num_
            IX_lock_num_ :=
              if it.lock_mode_ = .INTENTION_EXCLUSIVE ∨ it.lock_mode_ = .S_IX then
                q.IX_lock_num_ - 1
              else q.IX_lock_num_ })) := by
  have htxn : ∀ t : Transaction, t.txn_id_ = txn.txn_id_ →
      (if txn.state_ = .GROWING then ({ txn with state_ := .SHRINKING } : Transaction) else txn) =
        { txn with state_ := if txn.state_ = .GROWING then .SHRINKING else txn.state_ } := by
    intro _ _
    split <;> rfl
  have hid : (if txn.state_ = .GROWING then ({ txn with state_ := .SHRINKING } : Transaction)
      else txn).txn_id_ = txn.txn_id_ := by
    split <;> rfl
  unfold unlock
  split
  · rename_i e
    exact absurd e h.1
  · rename_i e
    exact absurd e h.2
  · dsimp only
    rw [hid]
    split
    · rename_i e
      exact ⟨rfl, htxn txn rfl, Or.inl ⟨rfl, Or.inl e⟩⟩
    · rename_i q e
      split
      · rename_i hfind
        exact ⟨rfl, htxn txn rfl, Or.inl ⟨rfl, Or.inr ⟨q, e, hfind⟩⟩⟩
      · rename_i it hfind
        exact ⟨rfl, htxn txn rfl, Or.inr ⟨q, it, e, hfind, rfl⟩⟩

/-- The state of the transaction after an unlock call. -/
theorem unlock_state (txn : Transaction) (lt : LockTable) (d : LockDataId) :
    (unlock txn lt d).txn.state_ =
      if txn.state_ = .GROWING then .SHRINKING else txn.state_ := by
  by_cases h : txn.state_ = .COMMITTED ∨ txn.state_ = .ABORTED
  · rw [(unlock_terminal txn lt d h).2.1]
    rcases h with h | h <;> simp [h]
  · rw [(unlock_shape txn lt d (not_or.mp h)).2.1]

/-- An unlock call keeps the id, the lock-set and the write-set. -/
theorem unlock_frame (txn : Transaction) (lt : LockTable) (d : LockDataId) :
    (unlock txn lt d).txn.txn_id_ = txn.txn_id_ ∧
      (unlock txn lt d).txn.lock_set_ = txn.lock_set_ ∧
      (unlock txn lt d).txn.write_set_ = txn.write_set_ := by
  by_cases h : txn.state_ = .COMMITTED ∨ txn.state_ = .ABORTED
  · rw [(unlock_terminal txn lt d h).2.1]
    exact ⟨rfl, rfl, rfl⟩
  · rw [(unlock_shape txn lt d (not_or.mp h)).2.1]
    exact ⟨rfl, rfl, rfl⟩

/-- The state of the transaction after an acquire call: DEFAULT becomes
GROWING, every other state is kept. -/
theorem acquire_state (op : LockOp) (txn : Transaction) (lt : LockTable) :
    (acquire op txn lt).txn.state_ =
      if txn.state_ = .DEFAULT then .GROWING else txn.state_ := by
  rcases acquire_shape op txn lt with ⟨h, _, e, _⟩ | ⟨h, _, e, _⟩ | ⟨h, hg⟩
  · rw [e]
    rcases h with h | h <;> simp [h]
  · rw [e]
    simp [h]
  · have : (acquire op txn lt).txn.state_ = .GROWING := by
      rcases hg with ⟨e, _⟩ | ⟨_, _, _, _, _, _, _, e, _⟩ | ⟨_, _, _, _, _, _, e, _⟩ <;> rw [e]
    rw [this]
    rcases h with h | h <;> simp [h]

/-- An acquire call keeps the id and the write-set. -/
theorem acquire_frame (op : LockOp) (txn : Transaction) (lt : LockTable) :
    (acquire op txn lt).txn.txn_id_ = txn.txn_id_ ∧
      (acquire op txn lt).txn.write_set_ = txn.write_set_ := by
  rcases acquire_shape op txn lt with ⟨_, _, e, _⟩ | ⟨_, _, e, _⟩ | ⟨_, hg⟩
  · rw [e]
    exact ⟨rfl, rfl⟩
  · rw [e]
    exact ⟨rfl, rfl⟩
  · rcases hg with ⟨e, _⟩ | ⟨_, _, _, _, _, _, _, e, _⟩ | ⟨_, _, _, _, _, _, e, _⟩ <;> rw [e] <;>
      exact ⟨rfl, rfl⟩

/-! ## Which transaction ids a call leaves in the queues -/

theorem queue_ids_set_mode (id : Int) (m : LockMode) (rs : List LockRequest) :
    queue_ids (set_mode id m rs) = queue_ids rs := by
  induction rs with
  | nil => rfl
  | cons r rs ih =>
    unfold set_mode
    split
    · simp [queue_ids]
    · simp only [queue_ids, List.map_cons] at ih ⊢
      rw [ih]

theorem ensure_queue_some (lt : LockTable) (d d1 : LockDataId) (q1 : LockRequestQueue)
    (h : ensure_queue lt d d1 = some q1) : lt d1 = some q1 ∨ q1 = LockRequestQueue.empty := by
  unfold ensure_queue at h
  split at h
  · by_cases e : d1 = d
    · subst e
      simp only [Function.update_same, Option.some.injEq] at h
      exact Or.inr h.symm
    · rw [Function.update_noteq e] at h
      exact Or.inl h
  · exact Or.inl h

theorem ensure_queue_at (lt : LockTable) (d : LockDataId) :
    ensure_queue lt d d = some (queue_at (ensure_queue lt d) d) := by
  unfold queue_at ensure_queue
  cases e : lt d <;> simp [e]

theorem queue_at_of_some (lt : LockTable) (d : LockDataId) (q : LockRequestQueue)
    (h : lt d = some q) : ensure_queue lt d = lt ∧ queue_at (ensure_queue lt d) d = q := by
  unfold queue_at ensure_queue
  simp [h]

theorem mem_lock_set_emplace (ls : List LockDataId) (d : LockDataId) :
    d ∈ lock_set_emplace ls d ∧ ∀ d1 ∈ ls, d1 ∈ lock_set_emplace ls d := by
  unfold lock_set_emplace
  split
  · rename_i h
    exact ⟨h, fun _ h1 => h1⟩
  · exact ⟨by simp, fun _ h1 => by simp [h1]⟩

/-- An acquire call only grows the lock-set. -/
theorem acquire_lock_set_mono (op : LockOp) (txn : Transaction) (lt : LockTable) :
    ∀ d ∈ txn.lock_set_, d ∈ (acquire op txn lt).txn.lock_set_ := by
  intro d hd
  rcases acquire_shape op txn lt with ⟨_, _, e, _⟩ | ⟨_, _, e, _⟩ | ⟨_, hg⟩
  · rw [e]
    exact hd
  · rw [e]
    exact hd
  · rcases hg with ⟨e, _⟩ | ⟨_, _, _, _, _, _, _, e, _⟩ | ⟨_, _, _, _, _, _, e, _⟩
    · rw [e]
      exact hd
    · rw [e]
      exact hd
    · rw [e]
      exact (mem_lock_set_emplace _ _).2 d hd

/-- An id found in a queue after an acquire call was there before, or is the
id of the caller, whose lock-set now holds the resource. -/
theorem acquire_ids (op : LockOp) (txn : Transaction) (lt : LockTable) (d1 : LockDataId)
    (q1 : LockRequestQueue) (h1 : (acquire op txn lt).lock_table d1 = some q1) (j : Int)
    (hj : j ∈ queue_ids q1.request_queue_) :
    (∃ q0, lt d1 = some q0 ∧ j ∈ queue_ids q0.request_queue_) ∨
      (j = txn.txn_id_ ∧ d1 ∈ (acquire op txn lt).txn.lock_set_) := by
  have hens : ∀ q, ensure_queue lt op.target d1 = some q → j ∈ queue_ids q.request_queue_ →
      ∃ q0, lt d1 = some q0 ∧ j ∈ queue_ids q0.request_queue_ := by
    intro q hq hjq
    rcases ensure_queue_some lt _ d1 q hq with h | h
    · exact ⟨q, h, hjq⟩
    · rw [h] at hjq
      simp [LockRequestQueue.empty, queue_ids] at hjq
  rcases acquire_shape op txn lt with ⟨_, _, _, e⟩ | ⟨_, _, _, e⟩ | ⟨_, hg⟩
  · rw [e] at h1
    exact Or.inl ⟨q1, h1, hj⟩
  · rw [e] at h1
    exact Or.inl ⟨q1, h1, hj⟩
  · rcases hg with ⟨_, e, _⟩ | ⟨_, m, g, sn, ixn, _, _, _, e⟩ | ⟨m, g, sn, ixn, _, _, et, e⟩
    · rw [e] at h1
      exact Or.inl (hens q1 h1 hj)
    · rw [e] at h1
      by_cases hd : d1 = op.target
      · subst hd
        simp only [Function.update_same, Option.some.injEq] at h1
        subst h1
        simp only [queue_ids_set_mode] at hj
        exact Or.inl (hens _ (ensure_queue_at lt _) hj)
      · rw [Function.update_noteq hd] at h1
        exact Or.inl (hens q1 h1 hj)
    · rw [e] at h1
      by_cases hd : d1 = op.target
      · subst hd
        simp only [Function.update_same, Option.some.injEq] at h1
        subst h1
        simp only [queue_ids, List.map_append, List.map_cons, List.map_nil, List.mem_append,
          List.mem_singleton] at hj
        rcases hj with hj | hj
        · exact Or.inl (hens _ (ensure_queue_at lt _) hj)
        · right
          rw [et]
          exact ⟨hj, (mem_lock_set_emplace _ _).1⟩
      · rw [Function.update_noteq hd] at h1
        exact Or.inl (hens q1 h1 hj)

theorem mem_erase_request (id : Int) (rs : List LockRequest) :
    ∀ r ∈ erase_request id rs, r ∈ rs := by
  induction rs with
  | nil => simp [erase_request]
  | cons a rs ih =>
    intro r hr
    unfold erase_request at hr
    split at hr
    · simp [hr]
    · rcases List.mem_cons.mp hr with h | h
      · simp [h]
      · simp [ih r h]

/-- An unlock call adds no id to any queue. -/
theorem unlock_ids (txn : Transaction) (lt : LockTable) (d d1 : LockDataId)
    (q1 : LockRequestQueue) (h1 : (unlock txn lt d).lock_table d1 = some q1) :
    ∃ q0, lt d1 = some q0 ∧ ∀ j ∈ queue_ids q1.request_queue_, j ∈ queue_ids q0.request_queue_ := by
  by_cases h : txn.state_ = .COMMITTED ∨ txn.state_ = .ABORTED
  · rw [(unlock_terminal txn lt d h).2.2] at h1
    exact ⟨q1, h1, fun _ hj => hj⟩
  · rcases (unlock_shape txn lt d (not_or.mp h)).2.2 with ⟨e, _⟩ | ⟨q, it, hq, _, e⟩
    · rw [e] at h1
      exact ⟨q1, h1, fun _ hj => hj⟩
    · rw [e] at h1
      by_cases hd : d1 = d
      · subst hd
        simp only [Function.update_same, Option.some.injEq] at h1
        subst h1
        refine ⟨q, hq, ?_⟩
        intro j hj
        simp only [queue_ids, List.mem_map] at hj ⊢
        obtain ⟨r, hr, e1⟩ := hj
        exact ⟨r, mem_erase_request _ _ r hr, e1⟩
      · rw [Function.update_noteq hd] at h1
        exact ⟨q1, h1, fun _ hj => hj⟩

/-- After an unlock call by a transaction that is not in a terminal state, the
queue of the resource holds no request of the transaction. -/
theorem unlock_removes (txn : Transaction) (lt : LockTable) (d : LockDataId)
    (hinv : TableInv lt) (h : txn.state_ ≠ .COMMITTED ∧ txn.state_ ≠ .ABORTED)
    (q1 : LockRequestQueue) (h1 : (unlock txn lt d).lock_table d = some q1) :
    txn.txn_id_ ∉ queue_ids q1.request_queue_ := by
  rcases (unlock_shape txn lt d h).2.2 with ⟨e, hc⟩ | ⟨q, it, hq, hfind, e⟩
  · rw [e] at h1
    rcases hc with hc | ⟨q, hq, hfind⟩
    · rw [hc] at h1
      simp at h1
    · rw [hq] at h1
      simp only [Option.some.injEq] at h1
      subst h1
      exact (find_request_none_iff _ _).mp hfind
  · rw [e] at h1
    simp only [Function.update_same, Option.some.injEq] at h1
    subst h1
    obtain ⟨pre, post, eq, hid, hpre, _, her⟩ := find_request_split _ _ it hfind
    have hnd := (hinv d q hq).nodup
    rw [eq] at hnd
    simp only [her]
    simp only [queue_ids, List.map_append, List.map_cons] at hnd hpre ⊢
    rw [List.nodup_append] at hnd
    obtain ⟨_, hnd2, _⟩ := hnd
    rw [List.nodup_cons, hid] at hnd2
    simp only [List.mem_append, not_or]
    exact ⟨hpre, hnd2.1⟩

theorem unlock_all_frame (ds : List LockDataId) (txn : Transaction) (lt : LockTable) :
    (unlock_all txn lt ds).1.txn_id_ = txn.txn_id_ ∧
      (unlock_all txn lt ds).1.lock_set_ = txn.lock_set_ ∧
      (unlock_all txn lt ds).1.write_set_ = txn.write_set_ := by
  induction ds generalizing txn lt with
  | nil => exact ⟨rfl, rfl, rfl⟩
  | cons d ds ih =>
    unfold unlock_all
    obtain ⟨h1, h2, h3⟩ := ih (unlock txn lt d).txn (unlock txn lt d).lock_table
    obtain ⟨g1, g2, g3⟩ := unlock_frame txn lt d
    exact ⟨h1.trans g1, h2.trans g2, h3.trans g3⟩

theorem unlock_all_ids (ds : List LockDataId) (txn : Transaction) (lt : LockTable)
    (d1 : LockDataId) (q1 : LockRequestQueue) (h1 : (unlock_all txn lt ds).2 d1 = some q1) :
    ∃ q0, lt d1 = some q0 ∧ ∀ j ∈ queue_ids q1.request_queue_, j ∈ queue_ids q0.request_queue_ := by
  induction ds generalizing txn lt with
  | nil => exact ⟨q1, h1, fun _ hj => hj⟩
  | cons d ds ih =>
    unfold unlock_all at h1
    obtain ⟨q, hq, hsub⟩ := ih _ _ h1
    obtain ⟨q0, hq0, hsub0⟩ := unlock_ids txn lt d d1 q hq
    exact ⟨q0, hq0, fun j hj => hsub0 j (hsub j hj)⟩

theorem unlock_all_removes (ds : List LockDataId) (txn : Transaction) (lt : LockTable)
    (hinv : TableInv lt) (h : txn.state_ ≠ .COMMITTED ∧ txn.state_ ≠ .ABORTED)
    (d : LockDataId) (hd : d ∈ ds) (q1 : LockRequestQueue)
    (h1 : (unlock_all txn lt ds).2 d = some q1) :
    txn.txn_id_ ∉ queue_ids q1.request_queue_ := by
  induction ds generalizing txn lt with
  | nil => simp at hd
  | cons d0 ds ih =>
    unfold unlock_all at h1
    have hst : (unlock txn lt d0).txn.state_ ≠ .COMMITTED ∧
        (unlock txn lt d0).txn.state_ ≠ .ABORTED := by
      rw [unlock_state]
      split <;> simp [h.1, h.2]
    have hid := (unlock_frame txn lt d0).1
    by_cases hmem : d ∈ ds
    · have := ih _ _ (unlock_inv txn lt d0 hinv) hst hmem h1
      rw [hid] at this
      exact this
    · have e : d = d0 := by
        rcases List.mem_cons.mp hd with e | e
        · exact e
        · exact absurd e hmem
      subst e
      obtain ⟨q, hq, hsub⟩ := unlock_all_ids ds _ _ d q1 h1
      intro hin
      exact unlock_removes txn lt d hinv h q hq (hsub _ hin)

/-- The release loop of `commit` and `abort` leaves no request of the
transaction in any queue, when every queue that holds its id is named in its
lock-set and a terminal state comes with an empty lock-set. -/
theorem unlock_all_clears (txn : Transaction) (lt : LockTable) (hinv : TableInv lt)
    (hcover : ∀ d q, lt d = some q → txn.txn_id_ ∈ queue_ids q.request_queue_ →
      d ∈ txn.lock_set_)
    (hterm : txn.state_ = .COMMITTED ∨ txn.state_ = .ABORTED → txn.lock_set_ = [])
    (d : LockDataId) (q1 : LockRequestQueue)
    (h1 : (unlock_all txn lt txn.lock_set_).2 d = some q1) :
    txn.txn_id_ ∉ queue_ids q1.request_queue_ := by
  intro hin
  obtain ⟨q0, hq0, hsub⟩ := unlock_all_ids _ _ _ d q1 h1
  have hd := hcover d q0 hq0 (hsub _ hin)
  by_cases h : txn.state_ = .COMMITTED ∨ txn.state_ = .ABORTED
  · rw [hterm h] at hd
    simp at hd
  · exact unlock_all_removes _ txn lt hinv (not_or.mp h) d hd q1 h1 hin

theorem commit_frame (txn : Transaction) (lt : LockTable) :
    (commit txn lt).1.txn_id_ = txn.txn_id_ ∧ (commit txn lt).1.lock_set_ = [] ∧
      (commit txn lt).1.state_ = .COMMITTED ∧ (commit txn lt).1.write_set_ = [] := by
  unfold commit
  have := unlock_all_frame txn.lock_set_ { txn with write_set_ := [] } lt
  exact ⟨this.1, rfl, rfl, this.2.2⟩

theorem abort_frame {σ : Type} (c : Collab σ) (st st1 : σ) (txn txn1 : Transaction)
    (lt lt1 : LockTable) (e : abort c st txn lt = some (st1, txn1, lt1)) :
    txn1.txn_id_ = txn.txn_id_ ∧ txn1.lock_set_ = [] ∧ txn1.state_ = .ABORTED ∧
      txn1.write_set_ = [] ∧
      lt1 = (unlock_all { txn with write_set_ := [] } lt txn.lock_set_).2 := by
  unfold abort at e
  split at e
  · simp at e
  · simp only [Option.some.injEq, Prod.mk.injEq] at e
    obtain ⟨_, e2, e3⟩ := e
    have := unlock_all_frame txn.lock_set_ { txn with write_set_ := [] } lt
    subst e2 e3
    exact ⟨this.1, rfl, rfl, this.2.2, rfl⟩

/-- Every step keeps the id of every transaction object. -/
theorem Step_txn_id {σ : Type} (c : Collab σ) (s s1 : Sys σ) (hs : Step c s s1) (h : Nat) :
    (s1.txns h).txn_id_ = (s.txns h).txn_id_ := by
  cases hs with
  | acquire h0 op =>
    by_cases e : h = h0
    · subst e
      simp only [Function.update_same]
      exact (acquire_frame op _ _).1
    · simp only [Function.update_noteq e]
  | unlock h0 d =>
    by_cases e : h = h0
    · subst e
      simp only [Function.update_same]
      exact (unlock_frame _ _ d).1
    · simp only [Function.update_noteq e]
  | commit h0 =>
    by_cases e : h = h0
    · subst e
      simp only [Function.update_same]
      exact (commit_frame _ _).1
    · simp only [Function.update_noteq e]
  | abort h0 st1 txn1 lt1 e0 =>
    by_cases e : h = h0
    · subst e
      simp only [Function.update_same]
      exact (abort_frame c _ _ _ _ _ _ e0).1
    · simp only [Function.update_noteq e]
  | write h0 ws st1 =>
    by_cases e : h = h0
    · subst e
      simp only [Function.update_same]
    · simp only [Function.update_noteq e]
  | reorder h0 ls hp =>
    by_cases e : h = h0
    · subst e
      simp only [Function.update_same]
    · simp only [Function.update_noteq e]

theorem Step_distinct {σ : Type} (c : Collab σ) (s s1 : Sys σ) (hs : Step c s s1) :
    DistinctIds s1 ↔ DistinctIds s := by
  unfold DistinctIds
  simp only [Step_txn_id c s s1 hs]

theorem SysInv_step {σ : Type} (c : Collab σ) (s s1 : Sys σ) (hs : Step c s s1)
    (hd : DistinctIds s) (hinv : TableInv s.lock_table) (hsys : SysInv s) : SysInv s1 := by
  cases hs with
  | acquire h0 op =>
    constructor
    · intro h d q hq hin
      simp only at hq hin
      have hid : (Function.update s.txns h0 (acquire op (s.txns h0) s.lock_table).txn h).txn_id_ =
          (s.txns h).txn_id_ := Step_txn_id c s _ (Step.acquire s h0 op) h
      rw [hid] at hin
      rcases acquire_ids op _ _ d q hq _ hin with ⟨q0, hq0, hin0⟩ | ⟨he, hmem⟩
      · have := hsys.cover h d q0 hq0 hin0
        by_cases e : h = h0
        · subst e
          simp only [Function.update_same]
          exact acquire_lock_set_mono op _ _ d this
        · simp only [Function.update_noteq e]
          exact this
      · have e := hd h h0 he
        subst e
        simp only [Function.update_same]
        exact hmem
    · intro h hterm
      by_cases e : h = h0
      · subst e
        simp only [Function.update_same] at hterm ⊢
        rw [acquire_state] at hterm
        have hold : (s.txns h).state_ = .COMMITTED ∨ (s.txns h).state_ = .ABORTED := by
          split at hterm
          · simp at hterm
          · exact hterm
        rcases acquire_shape op (s.txns h) s.lock_table with ⟨_, _, e1, _⟩ | ⟨h1, _⟩ | ⟨h1, _⟩
        · rw [e1]
          exact hsys.terminal h hold
        · rw [h1] at hold
          simp at hold
        · rcases hold with h2 | h2 <;> rw [h2] at h1 <;> simp at h1
      · simp only [Function.update_noteq e] at hterm ⊢
        exact hsys.terminal h hterm
  | unlock h0 d0 =>
    constructor
    · intro h d q hq hin
      simp only at hq hin
      have hid : (Function.update s.txns h0 (unlock (s.txns h0) s.lock_table d0).txn h).txn_id_ =
          (s.txns h).txn_id_ := Step_txn_id c s _ (Step.unlock s h0 d0) h
      rw [hid] at hin
      obtain ⟨q0, hq0, hsub⟩ := unlock_ids _ _ d0 d q hq
      have := hsys.cover h d q0 hq0 (hsub _ hin)
      by_cases e : h = h0
      · subst e
        simp only [Function.update_same]
        rw [(unlock_frame _ _ d0).2.1]
        exact this
      · simp only [Function.update_noteq e]
        exact this
    · intro h hterm
      by_cases e : h = h0
      · subst e
        simp only [Function.update_same] at hterm ⊢
        rw [unlock_state] at hterm
        rw [(unlock_frame _ _ d0).2.1]
        apply hsys.terminal h
        split at hterm
        · simp at hterm
        · exact hterm
      · simp only [Function.update_noteq e] at hterm ⊢
        exact hsys.terminal h hterm
  | commit h0 =>
    constructor
    · intro h d q hq hin
      simp only at hq hin
      have hid : (Function.update s.txns h0 (commit (s.txns h0) s.lock_table).1 h).txn_id_ =
          (s.txns h).txn_id_ := Step_txn_id c s _ (Step.commit s h0) h
      rw [hid] at hin
      by_cases e : h = h0
      · subst e
        exfalso
        exact unlock_all_clears { s.txns h with write_set_ := [] } s.lock_table hinv
          (hsys.cover h) (hsys.terminal h) d q hq hin
      · simp only [Function.update_noteq e]
        obtain ⟨q0, hq0, hsub⟩ := unlock_all_ids _ _ _ d q hq
        exact hsys.cover h d q0 hq0 (hsub _ hin)
    · intro h hterm
      by_cases e : h = h0
      · subst e
        simp only [Function.update_same]
        exact (commit_frame _ _).2.1
      · simp only [Function.update_noteq e] at hterm ⊢
        exact hsys.terminal h hterm
  | abort h0 st1 txn1 lt1 e0 =>
    obtain ⟨f1, f2, f3, f4, f5⟩ := abort_frame c _ _ _ _ _ _ e0
    constructor
    · intro h d q hq hin
      simp only at hq hin
      have hid : (Function.update s.txns h0 txn1 h).txn_id_ = (s.txns h).txn_id_ :=
        Step_txn_id c s _ (Step.abort s h0 st1 txn1 lt1 e0) h
      rw [hid] at hin
      rw [f5] at hq
      by_cases e : h = h0
      · subst e
        exfalso
        exact unlock_all_clears { s.txns h with write_set_ := [] } s.lock_table hinv
          (hsys.cover h) (hsys.terminal h) d q hq hin
      · simp only [Function.update_noteq e]
        obtain ⟨q0, hq0, hsub⟩ := unlock_all_ids _ _ _ d q hq
        exact hsys.cover h d q0 hq0 (hsub _ hin)
    · intro h hterm
      by_cases e : h = h0
      · subst e
        simp only [Function.update_same]
        exact f2
      · simp only [Function.update_noteq e] at hterm ⊢
        exact hsys.terminal h hterm
  | write h0 ws st1 =>
    constructor
    · intro h d q hq hin
      simp only at hq hin
      by_cases e : h = h0
      · subst e
        simp only [Function.update_same] at hin ⊢
        exact hsys.cover h d q hq hin
      · simp only [Function.update_noteq e] at hin ⊢
        exact hsys.cover h d q hq hin
    · intro h hterm
      by_cases e : h = h0
      · subst e
        simp only [Function.update_same] at hterm ⊢
        exact hsys.terminal h hterm
      · simp only [Function.update_noteq e] at hterm ⊢
        exact hsys.terminal h hterm
  | reorder h0 ls hp =>
    constructor
    · intro h d q hq hin
      simp only at hq hin
      by_cases e : h = h0
      · subst e
        simp only [Function.update_same] at hin ⊢
        exact hp.mem_iff.mpr (hsys.cover h d q hq hin)
      · simp only [Function.update_noteq e] at hin ⊢
        exact hsys.cover h d q hq hin
    · intro h hterm
      by_cases e : h = h0
      · subst e
        simp only [Function.update_same] at hterm ⊢
        have := hsys.terminal h hterm
        rw [this] at hp
        exact List.Perm.eq_nil hp
      · simp only [Function.update_noteq e] at hterm ⊢
        exact hsys.terminal h hterm

theorem Reachable_SysInv {σ : Type} (c : Collab σ) (s : Sys σ) (hr : Reachable c s)
    (hd : DistinctIds s) : SysInv s := by
  induction hr with
  | init s hlt hfresh =>
    constructor
    · intro h d q hq _
      rw [hlt] at hq
      simp [LockTable.empty] at hq
    · intro h _
      obtain ⟨id, e⟩ := hfresh h
      rw [e]
      rfl
  | step s s1 hr hs ih =>
    have hd0 := (Step_distinct c s s1 hs).mp hd
    exact SysInv_step c s s1 hs hd0 (Reachable_inv c s hr) (ih hd0)

/-! ## Lemmas for the decision rules -/

theorem queue_at_ensure (lt : LockTable) (d : LockDataId) :
    queue_at (ensure_queue lt d) d = queue_at lt d := by
  unfold queue_at ensure_queue
  cases e : lt d <;> simp [e]

theorem ensure_queue_at_eq (lt : LockTable) (d : LockDataId) :
    ensure_queue lt d d = some (queue_at lt d) := by
  rw [ensure_queue_at, queue_at_ensure]

/-- The scan finds the request at a position that no request of the
transaction precedes. -/
theorem find_request_of_split (id : Int) (pre post : List LockRequest) (it : LockRequest)
    (hid : it.txn_id_ = id) (hpre : id ∉ queue_ids pre) :
    find_request id (pre ++ it :: post) = some it ∧
      ∀ m, set_mode id m (pre ++ it :: post) = pre ++ { it with lock_mode_ := m } :: post := by
  induction pre with
  | nil => simp [find_request, set_mode, hid]
  | cons a pre ih =>
    simp only [queue_ids, List.map_cons, List.mem_cons, not_or] at hpre
    have ha : ¬ a.txn_id_ = id := fun e => hpre.1 e.symm
    obtain ⟨h1, h2⟩ := ih hpre.2
    constructor
    · simp only [List.cons_append, find_request, ha, if_false]
      exact h1
    · intro m
      have h3 := h2 m
      simp only [List.cons_append, set_mode, ha, if_false, List.append_eq]
      rw [h3]

theorem nodup_ids_eq {rs : List LockRequest} (hnd : (queue_ids rs).Nodup) {a b : LockRequest}
    (ha : a ∈ rs) (hb : b ∈ rs) (e : a.txn_id_ = b.txn_id_) : a = b :=
  List.inj_on_of_nodup_map hnd ha hb e

/-! ## Runs and the concrete scenarios -/

theorem after_acquire_reach {σ : Type} (c : Collab σ) (s : Sys σ) (hr : Reachable c s) (h : Nat)
    (op : LockOp) : Reachable c (after_acquire s h op) :=
  Reachable.step s _ hr (Step.acquire s h op)

theorem after_unlock_reach {σ : Type} (c : Collab σ) (s : Sys σ) (hr : Reachable c s) (h : Nat)
    (d : LockDataId) : Reachable c (after_unlock s h d) :=
  Reachable.step s _ hr (Step.unlock s h d)

theorem after_commit_reach {σ : Type} (c : Collab σ) (s : Sys σ) (hr : Reachable c s) (h : Nat) :
    Reachable c (after_commit s h) :=
  Reachable.step s _ hr (Step.commit s h)

theorem after_acquire_distinct {σ : Type} (s : Sys σ) (hd : DistinctIds s) (h : Nat)
    (op : LockOp) : DistinctIds (after_acquire s h op) := by
  intro h1 h2 e
  apply hd h1 h2
  have key : ∀ k, ((after_acquire s h op).txns k).txn_id_ = (s.txns k).txn_id_ := by
    intro k
    unfold after_acquire
    by_cases ek : k = h
    · subst ek
      simp only [Function.update_same]
      exact (acquire_frame op _ _).1
    · simp only [Function.update_noteq ek]
  rw [key h1, key h2] at e
  exact e

theorem sys0_reach : Reachable no_store sys0 :=
  Reachable.init sys0 rfl (fun h => ⟨h, rfl⟩)

theorem sys0_distinct : DistinctIds sys0 := by
  intro h1 h2 e
  simp only [sys0, Transaction.fresh] at e
  exact_mod_cast e

/-- The states SHRINKING, COMMITTED and ABORTED are closed under every step. -/
theorem Step_closed {σ : Type} (c : Collab σ) (s s1 : Sys σ) (hs : Step c s s1) (h : Nat)
    (hst : (s.txns h).state_ = .SHRINKING ∨ (s.txns h).state_ = .COMMITTED ∨
      (s.txns h).state_ = .ABORTED) :
    (s1.txns h).state_ = .SHRINKING ∨ (s1.txns h).state_ = .COMMITTED ∨
      (s1.txns h).state_ = .ABORTED := by
  cases hs with
  | acquire h0 op =>
    by_cases e : h = h0
    · subst e
      simp only [Function.update_same]
      rw [acquire_state]
      rcases hst with h1 | h1 | h1 <;> simp [h1]
    · simp only [Function.update_noteq e]
      exact hst
  | unlock h0 d =>
    by_cases e : h = h0
    · subst e
      simp only [Function.update_same]
      rw [unlock_state]
      rcases hst with h1 | h1 | h1 <;> simp [h1]
    · simp only [Function.update_noteq e]
      exact hst
  | commit h0 =>
    by_cases e : h = h0
    · subst e
      simp only [Function.update_same]
      exact Or.inr (Or.inl (commit_frame _ _).2.2.1)
    · simp only [Function.update_noteq e]
      exact hst
  | abort h0 st1 txn1 lt1 e0 =>
    by_cases e : h = h0
    · subst e
      simp only [Function.update_same]
      exact Or.inr (Or.inr (abort_frame c _ _ _ _ _ _ e0).2.2.1)
    · simp only [Function.update_noteq e]
      exact hst
  | write h0 ws st1 =>
    by_cases e : h = h0
    · subst e
      simp only [Function.update_same]
      exact hst
    · simp only [Function.update_noteq e]
      exact hst
  | reorder h0 ls hp =>
    by_cases e : h = h0
    · subst e
      simp only [Function.update_same]
      exact hst
    · simp only [Function.update_noteq e]
      exact hst

theorem Steps_closed {σ : Type} (c : Collab σ) (s s2 : Sys σ) (hs : Steps c s s2) (h : Nat)
    (hst : (s.txns h).state_ = .SHRINKING ∨ (s.txns h).state_ = .COMMITTED ∨
      (s.txns h).state_ = .ABORTED) :
    (s2.txns h).state_ = .SHRINKING ∨ (s2.txns h).state_ = .COMMITTED ∨
      (s2.txns h).state_ = .ABORTED := by
  induction hs with
  | refl => exact hst
  | tail s1 s2 _ h2 ih => exact Step_closed c s1 s2 h2 h ih

theorem sys_S_reach : Reachable no_store sys_S :=
  after_acquire_reach _ _ sys0_reach _ _

theorem sys_S_distinct : DistinctIds sys_S :=
  after_acquire_distinct _ sys0_distinct _ _

theorem sys_SS_reach : Reachable no_store sys_SS :=
  after_acquire_reach _ _ sys_S_reach _ _

theorem sys_Xrec_reach : Reachable no_store sys_Xrec :=
  after_acquire_reach _ _ sys0_reach _ _

theorem erase_request_of_split (id : Int) (pre post : List LockRequest) (it : LockRequest)
    (hid : it.txn_id_ = id) (hpre : id ∉ queue_ids pre) :
    erase_request id (pre ++ it :: post) = pre ++ post := by
  induction pre with
  | nil => simp [erase_request, hid]
  | cons a pre ih =>
    simp only [queue_ids, List.map_cons, List.mem_cons, not_or] at hpre
    have ha : ¬ a.txn_id_ = id := fun h => hpre.1 h.symm
    have h3 := ih hpre.2
    simp only [List.cons_append, erase_request, ha, if_false, List.append_eq]
    rw [h3]

/-! ## Lemmas on begin -/

theorem txn_id_wrap_of_range (x : Int) (h1 : -2147483648 ≤ x) (h2 : x < 2147483648) :
    txn_id_wrap x = x := by
  unfold txn_id_wrap
  omega

theorem txn_id_wrap_add (x : Int) (n : Int) :
    txn_id_wrap (txn_id_wrap x + n) = txn_id_wrap (x + n) := by
  unfold txn_id_wrap
  omega

/-- While the counter does not reach the largest `txn_id_t`, a sequence of
`begin` calls does not decrease it and increases it by at most one per
call. -/
theorem begin_all_next_le (calls : List (Option Transaction)) :
    ∀ tm : TransactionManager, -2147483648 ≤ tm.next_txn_id_ →
      tm.next_txn_id_ + calls.length < 2147483648 →
      tm.next_txn_id_ ≤ (begin_all tm calls).next_txn_id_ ∧
      (begin_all tm calls).next_txn_id_ ≤ tm.next_txn_id_ + calls.length := by
  induction calls with
  | nil =>
    intro tm _ _
    simp [begin_all]
  | cons a rest ih =>
    intro tm h1 h2
    simp only [List.length_cons, Nat.cast_add, Nat.cast_one] at h2 ⊢
    unfold begin_all
    cases a with
    | none =>
      have e : (begin tm none).2.next_txn_id_ = tm.next_txn_id_ + 1 :=
        txn_id_wrap_of_range _ (by omega) (by omega)
      have h := ih (begin tm none).2 (by rw [e]; omega) (by rw [e]; omega)
      rw [e] at h
      omega
    | some t =>
      have e : (begin tm (some t)).2.next_txn_id_ = tm.next_txn_id_ := rfl
      have h := ih (begin tm (some t)).2 (by rw [e]; omega) (by rw [e]; omega)
      rw [e] at h
      omega

/-- The counter after `n` calls `begin(null)`. -/
theorem begin_all_replicate (n : Nat) :
    ∀ tm : TransactionManager,
      (begin_all tm (List.replicate n none)).next_txn_id_ =
        if n = 0 then tm.next_txn_id_ else txn_id_wrap (tm.next_txn_id_ + n) := by
  induction n with
  | zero =>
    intro tm
    rfl
  | succ n ih =>
    intro tm
    rw [List.replicate_succ]
    unfold begin_all
    rw [ih, if_neg (Nat.succ_ne_zero n)]
    have e : (begin tm none).2.next_txn_id_ = txn_id_wrap (tm.next_txn_id_ + 1) := rfl
    rw [e]
    by_cases hn : n = 0
    · subst hn
      simp
    · rw [if_neg hn, txn_id_wrap_add]
      congr 1
      push_cast
      omega

/-! ## The operations issued by abort -/

theorem run_ops_append {σ : Type} (c : Collab σ) (ops1 ops2 : List StoreOp) (st : σ) :
    run_ops c (ops1 ++ ops2) st =
      match run_ops c ops1 st with
      | none => none
      | some st1 => run_ops c ops2 st1 := by
  induction ops1 generalizing st with
  | nil => rfl
  | cons op ops ih =>
    simp only [List.cons_append, run_ops]
    cases op.run c st with
    | none => rfl
    | some st1 => exact ih st1

/-- The delete loop over the indexes, run on the logging collaborators, is the
spec-side list of deletions applied to the store and appended to the log. -/
theorem traced_delete_index_entries {σ : Type} (c : Collab σ) (t : String) (data : Bytes)
    (ixs : List IndexMeta) (st : σ) (log : List StoreOp) :
    delete_index_entries (traced c) t data ixs (st, log) =
      match index_keys data ixs with
      | none => none
      | some keys =>
        match run_ops c (delete_entry_ops t ixs keys) st with
        | none => none
        | some st1 => some (st1, log ++ delete_entry_ops t ixs keys) := by
  induction ixs generalizing st log with
  | nil => simp [delete_index_entries, index_keys, delete_entry_ops, run_ops]
  | cons ix rest ih =>
    unfold delete_index_entries index_keys
    cases hk : build_key ix data with
    | none => rfl
    | some key =>
      simp only [traced]
      cases hd : c.delete_entry st t ix.cols key with
      | none =>
        cases index_keys data rest with
        | none => rfl
        | some keys => simp [delete_entry_ops, run_ops, StoreOp.run, hd]
      | some st1 =>
        simp only
        have := ih st1 (log ++ [.delete_entry t ix.cols key])
        simp only [traced] at this
        rw [this]
        cases index_keys data rest with
        | none => rfl
        | some keys =>
          simp only [delete_entry_ops, run_ops, StoreOp.run, hd, List.append_assoc,
            List.singleton_append]

/-- The insert loop over the indexes, run on the logging collaborators, is the
spec-side list of insertions applied to the store and appended to the log. -/
theorem traced_insert_index_entries {σ : Type} (c : Collab σ) (t : String) (data : Bytes)
    (rid : Rid) (ixs : List IndexMeta) (st : σ) (log : List StoreOp) :
    insert_index_entries (traced c) t data rid ixs (st, log) =
      match index_keys data ixs with
      | none => none
      | some keys =>
        match run_ops c (insert_entry_ops t rid ixs keys) st with
        | none => none
        | some st1 => some (st1, log ++ insert_entry_ops t rid ixs keys) := by
  induction ixs generalizing st log with
  | nil => simp [insert_index_entries, index_keys, insert_entry_ops, run_ops]
  | cons ix rest ih =>
    unfold insert_index_entries index_keys
    cases hk : build_key ix data with
    | none => rfl
    | some key =>
      simp only [traced]
      cases hd : c.insert_entry st t ix.cols key rid with
      | none =>
        cases index_keys data rest with
        | none => rfl
        | some keys => simp [insert_entry_ops, run_ops, StoreOp.run, hd]
      | some st1 =>
        simp only
        have := ih st1 (log ++ [.insert_entry t ix.cols key rid])
        simp only [traced] at this
        rw [this]
        cases index_keys data rest with
        | none => rfl
        | some keys =>
          simp only [insert_entry_ops, run_ops, StoreOp.run, hd, List.append_assoc,
            List.singleton_append]

/-- One iteration of the while loop of `abort`, run on the logging
collaborators, applies the spec-side inverse of the write record and appends
it to the log. -/
theorem traced_undo_write {σ : Type} (c : Collab σ) (st : σ) (log : List StoreOp)
    (w : WriteRecord) :
    undo_write (traced c) (st, log) w =
      match inverse_ops c st w with
      | none => none
      | some ops =>
        match run_ops c ops st with
        | none => none
        | some st1 => some (st1, log ++ ops) := by
  unfold undo_write inverse_ops
  cases w.wtype_ with
  | INSERT_TUPLE =>
    simp only
    have hgt : (traced c).get_table (st, log) w.tab_name_ = c.get_table st w.tab_name_ := rfl
    have hgr : (traced c).get_record (st, log) w.tab_name_ w.rid_ =
        c.get_record st w.tab_name_ w.rid_ := rfl
    rw [hgt, hgr]
    cases c.get_table st w.tab_name_ with
    | none => rfl
    | some tab =>
      cases c.get_record st w.tab_name_ w.rid_ with
      | none => rfl
      | some cur =>
        simp only
        rw [traced_delete_index_entries]
        cases index_keys cur tab.indexes with
        | none => rfl
        | some keys =>
          simp only [run_ops_append]
          cases run_ops c (delete_entry_ops w.tab_name_ tab.indexes keys) st with
          | none => rfl
          | some st1 =>
            simp only [traced, run_ops, StoreOp.run]
            cases c.delete_record st1 w.tab_name_ w.rid_ with
            | none => rfl
            | some st2 => simp
  | DELETE_TUPLE =>
    simp only
    have hgt : (traced c).get_table (st, log) w.tab_name_ = c.get_table st w.tab_name_ := rfl
    rw [hgt]
    cases c.get_table st w.tab_name_ with
    | none => rfl
    | some tab =>
      simp only [traced]
      cases hins : c.insert_record st w.tab_name_ w.record_ with
      | none => rfl
      | some p =>
        obtain ⟨rid, st1⟩ := p
        simp only
        have := traced_insert_index_entries c w.tab_name_ w.record_ rid tab.indexes st1
          (log ++ [.insert_record w.tab_name_ w.record_ rid])
        simp only [traced] at this
        rw [this]
        cases index_keys w.record_ tab.indexes with
        | none => rfl
        | some keys =>
          simp only [run_ops, StoreOp.run, hins, if_true, List.append_assoc,
            List.singleton_append]
  | UPDATE_TUPLE =>
    simp only
    have hgt : (traced c).get_table (st, log) w.tab_name_ = c.get_table st w.tab_name_ := rfl
    have hgr : (traced c).get_record (st, log) w.tab_name_ w.rid_ =
        c.get_record st w.tab_name_ w.rid_ := rfl
    rw [hgt, hgr]
    cases c.get_table st w.tab_name_ with
    | none => rfl
    | some tab =>
      cases c.get_record st w.tab_name_ w.rid_ with
      | none => rfl
      | some cur =>
        simp only
        rw [traced_delete_index_entries]
        cases index_keys cur tab.indexes with
        | none => rfl
        | some keys_cur =>
          simp only [run_ops_append]
          cases hrun : run_ops c (delete_entry_ops w.tab_name_ tab.indexes keys_cur) st with
          | none =>
            cases index_keys w.record_ tab.indexes with
            | none => rfl
            | some keys_pre => simp [run_ops_append, hrun]
          | some st1 =>
            simp only
            rw [traced_insert_index_entries]
            cases index_keys w.record_ tab.indexes with
            | none => rfl
            | some keys_pre =>
              simp only [run_ops_append, hrun]
              cases run_ops c (insert_entry_ops w.tab_name_ w.rid_ tab.indexes keys_pre) st1 with
              | none => rfl
              | some st2 =>
                simp only [traced, run_ops, StoreOp.run]
                cases c.update_record st2 w.tab_name_ w.rid_ w.record_ with
                | none => rfl
                | some st3 => simp

/-- The while loop of `abort`, run on the logging collaborators, is the
spec-side replay, newest record first. -/
theorem traced_rollback {σ : Type} (c : Collab σ) (ws : List WriteRecord) (st : σ)
    (log : List StoreOp) :
    rollback (traced c) ws (st, log) =
      match replay_newest_first c ws st with
      | none => none
      | some (st1, ops) => some (st1, log ++ ops) := by
  induction ws generalizing st log with
  | nil => simp [rollback, replay_newest_first]
  | cons w older ih =>
    unfold rollback replay_newest_first
    rw [traced_undo_write]
    cases inverse_ops c st w with
    | none => rfl
    | some ops =>
      simp only
      cases run_ops c ops st with
      | none => rfl
      | some st1 =>
        simp only
        rw [ih]
        cases replay_newest_first c older st1 with
        | none => rfl
        | some p =>
          obtain ⟨st2, rest⟩ := p
          simp only [List.append_assoc]

/-- Logging does not change what the loops do to the store. -/
theorem traced_delete_fst {σ : Type} (c : Collab σ) (t : String) (data : Bytes)
    (ixs : List IndexMeta) (st : σ) (log : List StoreOp) :
    (delete_index_entries (traced c) t data ixs (st, log)).map (fun p => p.1) =
      delete_index_entries c t data ixs st := by
  induction ixs generalizing st log with
  | nil => rfl
  | cons ix rest ih =>
    unfold delete_index_entries
    cases build_key ix data with
    | none => rfl
    | some key =>
      simp only [traced]
      cases c.delete_entry st t ix.cols key with
      | none => rfl
      | some st1 =>
        have := ih st1 (log ++ [.delete_entry t ix.cols key])
        simp only [traced] at this
        exact this

theorem traced_insert_fst {σ : Type} (c : Collab σ) (t : String) (data : Bytes) (rid : Rid)
    (ixs : List IndexMeta) (st : σ) (log : List StoreOp) :
    (insert_index_entries (traced c) t data rid ixs (st, log)).map (fun p => p.1) =
      insert_index_entries c t data rid ixs st := by
  induction ixs generalizing st log with
  | nil => rfl
  | cons ix rest ih =>
    unfold insert_index_entries
    cases build_key ix data with
    | none => rfl
    | some key =>
      simp only [traced]
      cases c.insert_entry st t ix.cols key rid with
      | none => rfl
      | some st1 =>
        have := ih st1 (log ++ [.insert_entry t ix.cols key rid])
        simp only [traced] at this
        exact this

theorem traced_undo_write_fst {σ : Type} (c : Collab σ) (st : σ) (log : List StoreOp)
    (w : WriteRecord) :
    (undo_write (traced c) (st, log) w).map (fun p => p.1) = undo_write c st w := by
  unfold undo_write
  have hgt : (traced c).get_table (st, log) w.tab_name_ = c.get_table st w.tab_name_ := rfl
  have hgr : (traced c).get_record (st, log) w.tab_name_ w.rid_ =
      c.get_record st w.tab_name_ w.rid_ := rfl
  cases w.wtype_ with
  | INSERT_TUPLE =>
    simp only
    rw [hgt, hgr]
    cases c.get_table st w.tab_name_ with
    | none => rfl
    | some tab =>
      cases c.get_record st w.tab_name_ w.rid_ with
      | none => rfl
      | some cur =>
        simp only
        rw [← traced_delete_fst c w.tab_name_ cur tab.indexes st log]
        cases delete_index_entries (traced c) w.tab_name_ cur tab.indexes (st, log) with
        | none => rfl
        | some p =>
          obtain ⟨st1, log1⟩ := p
          simp only [traced, Option.map_some']
          cases c.delete_record st1 w.tab_name_ w.rid_ <;> rfl
  | DELETE_TUPLE =>
    simp only
    rw [hgt]
    cases c.get_table st w.tab_name_ with
    | none => rfl
    | some tab =>
      simp only [traced]
      cases c.insert_record st w.tab_name_ w.record_ with
      | none => rfl
      | some p =>
        obtain ⟨rid, st1⟩ := p
        simp only
        have := traced_insert_fst c w.tab_name_ w.record_ rid tab.indexes st1
          (log ++ [.insert_record w.tab_name_ w.record_ rid])
        simp only [traced] at this
        exact this
  | UPDATE_TUPLE =>
    simp only
    rw [hgt, hgr]
    cases c.get_table st w.tab_name_ with
    | none => rfl
    | some tab =>
      cases c.get_record st w.tab_name_ w.rid_ with
      | none => rfl
      | some cur =>
        simp only
        rw [← traced_delete_fst c w.tab_name_ cur tab.indexes st log]
        cases delete_index_entries (traced c) w.tab_name_ cur tab.indexes (st, log) with
        | none => rfl
        | some p =>
          obtain ⟨st1, log1⟩ := p
          simp only [Option.map_some']
          rw [← traced_insert_fst c w.tab_name_ w.record_ w.rid_ tab.indexes st1 log1]
          cases insert_index_entries (traced c) w.tab_name_ w.record_ w.rid_ tab.indexes
              (st1, log1) with
          | none => rfl
          | some p2 =>
            obtain ⟨st2, log2⟩ := p2
            simp only [traced, Option.map_some']
            cases c.update_record st2 w.tab_name_ w.rid_ w.record_ <;> rfl

theorem traced_rollback_fst {σ : Type} (c : Collab σ) (ws : List WriteRecord) (st : σ)
    (log : List StoreOp) :
    (rollback (traced c) ws (st, log)).map (fun p => p.1) = rollback c ws st := by
  induction ws generalizing st log with
  | nil => rfl
  | cons w older ih =>
    unfold rollback
    rw [← traced_undo_write_fst c st log w]
    cases undo_write (traced c) (st, log) w with
    | none => rfl
    | some p =>
      obtain ⟨st1, log1⟩ := p
      simp only [Option.map_some']
      exact ih st1 log1

/-! ## Lemmas on the store of maps -/

theorem set_entry_index (s : MapStore) (t : String) (cols : List ColMeta) (key : Bytes)
    (v : Option Rid) (t1 : String) (cols1 : List ColMeta) (key1 : Bytes) :
    (s.set_entry t cols key v).index t1 cols1 key1 =
      if t1 = t ∧ cols1 = cols ∧ key1 = key then v else s.index t1 cols1 key1 := by
  unfold MapStore.set_entry
  by_cases h1 : t1 = t
  · subst h1
    by_cases h2 : cols1 = cols
    · subst h2
      by_cases h3 : key1 = key
      · subst h3
        simp
      · simp [Function.update_noteq h3, h3]
    · simp [Function.update_noteq h2, h2]
  · simp [Function.update_noteq h1, h1]

/-- The delete loop of `abort` on the store of maps: when every key can be
built it returns, keeps the catalog and the heap, and leaves no entry for the
keys built from the record in the indexes it visited. -/
theorem map_delete_index_entries (alloc : (Rid → Option Bytes) → Rid) (t : String) (R : Bytes)
    (ixs : List IndexMeta) (s : MapStore)
    (hkeys : ∀ ix ∈ ixs, ∃ k, build_key ix R = some k) :
    ∃ s1, delete_index_entries (map_collab alloc) t R ixs s = some s1 ∧
      s1.heap = s.heap ∧ s1.tables = s.tables ∧
      (∀ cols k, s.index t cols k = none → s1.index t cols k = none) ∧
      (∀ ix ∈ ixs, ∀ k, build_key ix R = some k → s1.index t ix.cols k = none) := by
  induction ixs generalizing s with
  | nil => exact ⟨s, rfl, rfl, rfl, fun _ _ h => h, by simp⟩
  | cons ix rest ih =>
    obtain ⟨k, hk⟩ := hkeys ix (by simp)
    obtain ⟨s1, h1, h2, h3, h4, h5⟩ :=
      ih (s.set_entry t ix.cols k none) (fun ix1 h => hkeys ix1 (by simp [h]))
    refine ⟨s1, ?_, h2, h3, ?_, ?_⟩
    · unfold delete_index_entries
      rw [hk]
      exact h1
    · intro cols k1 hnone
      apply h4
      rw [set_entry_index]
      split
      · rfl
      · exact hnone
    · intro ix1 hix1 k1 hk1
      rcases List.mem_cons.mp hix1 with e | e
      · subst e
        rw [hk] at hk1
        simp only [Option.some.injEq] at hk1
        subst hk1
        apply h4
        rw [set_entry_index]
        simp
      · exact h5 ix1 e k1 hk1

/-! ## Lemmas on index keys -/

theorem spec_key_length (data : Bytes) (cols : List ColMeta)
    (h : ∀ col ∈ cols, col.offset + col.len ≤ data.length) :
    (spec_key data cols).length = cols_len cols := by
  induction cols with
  | nil => rfl
  | cons col rest ih =>
    have h1 := h col (by simp)
    simp only [spec_key, cols_len, List.length_append, List.length_take, List.length_drop]
    rw [ih (fun c hc => h c (by simp [hc]))]
    omega

/-- The inner loop of the key construction, over the column numbers
`a, ..., a + n - 1`: when it returns, every column number was in range and in
bounds, and the key is the bytes written before followed by the concatenation
for these columns. -/
theorem build_key_from_range (index : IndexMeta) (data : Bytes) (n a : Nat) (key k : Bytes)
    (h : build_key_from index data (List.range' a n) key = some k) :
    k = key ++ spec_key data ((index.cols.drop a).take n) ∧
      (n ≠ 0 → a + n ≤ index.cols.length) ∧
      (∀ col ∈ (index.cols.drop a).take n, col.offset + col.len ≤ data.length) ∧
      k.length ≤ max key.length index.col_tot_len := by
  induction n generalizing a key with
  | zero =>
    simp only [List.range', build_key_from, Option.some.injEq] at h
    subst h
    simp [spec_key]
  | succ n ih =>
    simp only [List.range', build_key_from] at h
    cases hc : index.cols[a]? with
    | none =>
      rw [hc] at h
      simp at h
    | some col =>
      rw [hc] at h
      simp only at h
      split at h
      · rename_i hb
        obtain ⟨e, hn, hin, hlen⟩ := ih (a + 1) _ h
        have ha : a < index.cols.length := by
          rcases List.getElem?_eq_some.mp hc with ⟨hlt, _⟩
          exact hlt
        have hd : index.cols.drop a = col :: index.cols.drop (a + 1) := by
          rcases List.getElem?_eq_some.mp hc with ⟨hlt, e1⟩
          rw [List.drop_eq_getElem_cons hlt, e1]
        refine ⟨?_, ?_, ?_, ?_⟩
        · rw [e, hd]
          simp [spec_key, List.append_assoc]
        · intro _
          by_cases hn0 : n = 0
          · omega
          · have := hn hn0
            omega
        · intro c hcm
          rw [hd] at hcm
          simp only [List.take_succ_cons, List.mem_cons] at hcm
          rcases hcm with e1 | e1
          · rw [e1]
            exact hb.1
          · exact hin c e1
        · simp only [List.length_append, List.length_take, List.length_drop] at hlen
          omega
      · simp at h

/-- The inner loop returns when every column number is in range, every column
lies inside the record and the key buffer is large enough. -/
theorem build_key_from_some (index : IndexMeta) (data : Bytes) (n a : Nat) (key : Bytes)
    (hn : a + n ≤ index.cols.length)
    (hin : ∀ col ∈ (index.cols.drop a).take n, col.offset + col.len ≤ data.length)
    (hlen : key.length + cols_len ((index.cols.drop a).take n) ≤ index.col_tot_len) :
    build_key_from index data (List.range' a n) key =
      some (key ++ spec_key data ((index.cols.drop a).take n)) := by
  induction n generalizing a key with
  | zero => simp [List.range', build_key_from, spec_key]
  | succ n ih =>
    have ha : a < index.cols.length := by omega
    have hd : index.cols.drop a = index.cols[a] :: index.cols.drop (a + 1) :=
      List.drop_eq_getElem_cons ha
    rw [hd] at hin hlen ⊢
    simp only [List.take_succ_cons, List.mem_cons, forall_eq_or_imp, cols_len] at hin hlen
    simp only [List.range', build_key_from, List.getElem?_eq_getElem ha, List.take_succ_cons,
      spec_key]
    have hb : index.cols[a].offset + index.cols[a].len ≤ data.length ∧
        key.length + index.cols[a].len ≤ index.col_tot_len := ⟨hin.1, by omega⟩
    rw [if_pos hb]
    rw [ih (a + 1) _ (by omega) hin.2 (by
      simp only [List.length_append, List.length_take, List.length_drop]
      omega)]
    simp [List.append_assoc]

/-! ## Lemmas for the implicit lock claims -/

theorem find_request_of_mem {rs : List LockRequest} (hnd : (queue_ids rs).Nodup)
    {it : LockRequest} (hit : it ∈ rs) : find_request it.txn_id_ rs = some it := by
  cases hf : find_request it.txn_id_ rs with
  | none =>
    exfalso
    apply (find_request_none_iff _ _).mp hf
    exact List.mem_map.mpr ⟨it, hit, rfl⟩
  | some it1 =>
    obtain ⟨hm, hid⟩ := find_request_mem _ _ it1 hf
    rw [nodup_ids_eq hnd hm hit hid]

/-- A fresh request that is granted is appended at the end of the queue with
the mode of the operation, and the counters grow by the mode. -/
theorem acquire_fresh (op : LockOp) (txn : Transaction) (lt : LockTable)
    (hst : txn.state_ = .DEFAULT ∨ txn.state_ = .GROWING)
    (hfind : find_request txn.txn_id_ (queue_at lt op.target).request_queue_ = none)
    (hok : (acquire op txn lt).outcome = .ret true) :
    ∃ g, (acquire op txn lt).lock_table =
        Function.update (ensure_queue lt op.target) op.target (some
          { request_queue_ :=
              (queue_at lt op.target).request_queue_ ++ [⟨txn.txn_id_, op.mode, true⟩]
            group_lock_mode_ := g
            shared_lock_num_ := (queue_at lt op.target).shared_lock_num_ +
              (if op.mode = .SHARED ∨ op.mode = .S_IX then 1 else 0)
            IX_lock_num_ := (queue_at lt op.target).IX_lock_num_ +
              (if op.mode = .INTENTION_EXCLUSIVE ∨ op.mode = .S_IX then 1 else 0) }) ∧
      (acquire op txn lt).txn =
        { txn with
          state_ := .GROWING
          lock_set_ := lock_set_emplace txn.lock_set_ op.target } := by
  cases op with
  | shared_on_record rid fd =>
    simp only [acquire, LockOp.target, LockOp.mode] at hfind hok ⊢
    unfold lock_shared_on_record at hok ⊢
    rw [check_state_ok txn hst] at hok ⊢
    simp only [queue_at_ensure, hfind] at hok ⊢
    split at hok
    · simp at hok
    · rename_i hg
      rw [if_neg hg]
      refine ⟨?_, ?_, rfl⟩
      rotate_left
      simp only [reduceCtorEq, or_false, false_or, or_self, if_true, if_false, add_zero,
        true_or, or_true]
      exact rfl
  | exclusive_on_record rid fd =>
    simp only [acquire, LockOp.target, LockOp.mode] at hfind hok ⊢
    unfold lock_exclusive_on_record at hok ⊢
    rw [check_state_ok txn hst] at hok ⊢
    simp only [queue_at_ensure, hfind] at hok ⊢
    split at hok
    · simp at hok
    · rename_i hg
      rw [if_neg hg]
      refine ⟨?_, ?_, rfl⟩
      rotate_left
      simp only [reduceCtorEq, or_false, false_or, or_self, if_true, if_false, add_zero,
        true_or, or_true]
      exact rfl
  | shared_on_table fd =>
    simp only [acquire, LockOp.target, LockOp.mode] at hfind hok ⊢
    unfold lock_shared_on_table at hok ⊢
    rw [check_state_ok txn hst] at hok ⊢
    simp only [queue_at_ensure, hfind] at hok ⊢
    split at hok
    · simp at hok
    · rename_i hg
      rw [if_neg hg]
      refine ⟨?_, ?_, rfl⟩
      rotate_left
      simp only [reduceCtorEq, or_false, false_or, or_self, if_true, if_false, add_zero,
        true_or, or_true]
      exact rfl
  | exclusive_on_table fd =>
    simp only [acquire, LockOp.target, LockOp.mode] at hfind hok ⊢
    unfold lock_exclusive_on_table at hok ⊢
    rw [check_state_ok txn hst] at hok ⊢
    simp only [queue_at_ensure, hfind] at hok ⊢
    split at hok
    · simp at hok
    · rename_i hg
      rw [if_neg hg]
      refine ⟨?_, ?_, rfl⟩
      rotate_left
      simp only [reduceCtorEq, or_false, false_or, or_self, if_true, if_false, add_zero,
        true_or, or_true]
      exact rfl
  | IS_on_table fd =>
    simp only [acquire, LockOp.target, LockOp.mode] at hfind hok ⊢
    unfold lock_IS_on_table at hok ⊢
    rw [check_state_ok txn hst] at hok ⊢
    simp only [queue_at_ensure, hfind] at hok ⊢
    split at hok
    · simp at hok
    · rename_i hg
      rw [if_neg hg]
      refine ⟨?_, ?_, rfl⟩
      rotate_left
      simp only [reduceCtorEq, or_false, false_or, or_self, if_true, if_false, add_zero,
        true_or, or_true]
      exact rfl
  | IX_on_table fd =>
    simp only [acquire, LockOp.target, LockOp.mode] at hfind hok ⊢
    unfold lock_IX_on_table at hok ⊢
    rw [check_state_ok txn hst] at hok ⊢
    simp only [queue_at_ensure, hfind] at hok ⊢
    split at hok
    · simp at hok
    · rename_i hg
      rw [if_neg hg]
      refine ⟨?_, ?_, rfl⟩
      rotate_left
      simp only [reduceCtorEq, or_false, false_or, or_self, if_true, if_false, add_zero,
        true_or, or_true]
      exact rfl

theorem queue_at_update (lt : LockTable) (d : LockDataId) (q : LockRequestQueue) :
    queue_at (Function.update lt d (some q)) d = q := by
  unfold queue_at
  rw [Function.update_same]
  rfl

/-! ## Lemmas on the nested-loop join -/

theorem join_rest_end (sat : Bytes → Bytes → Bool) (L R : List Bytes) (i j : Nat)
    (h : L.length ≤ i) : join_rest sat L R i j = [] := by
  unfold join_rest
  rw [List.drop_eq_nil_of_le h]

theorem join_rest_zero (sat : Bytes → Bytes → Bool) (L R : List Bytes) :
    join_rest sat L R 0 0 = join_spec sat L R := by
  unfold join_rest
  cases L with
  | nil => rfl
  | cons l ls => simp [join_spec]

theorem join_rest_row_end (sat : Bytes → Bytes → Bool) (L R : List Bytes) (i j : Nat)
    (hi : i < L.length) (hj : R.length ≤ j) :
    join_rest sat L R i j = join_rest sat L R (i + 1) 0 := by
  unfold join_rest
  rw [List.drop_eq_getElem_cons hi, List.drop_eq_nil_of_le hj]
  simp only [List.filter_nil, List.map_nil, List.nil_append, List.drop_zero]
  cases L.drop (i + 1) with
  | nil => rfl
  | cons l ls => rfl

theorem join_rest_step (sat : Bytes → Bytes → Bool) (L R : List Bytes) (i j : Nat)
    (hi : i < L.length) (hj : j < R.length) :
    join_rest sat L R i j =
      (if sat (L.get ⟨i, hi⟩) (R.get ⟨j, hj⟩) = true then [L.get ⟨i, hi⟩ ++ R.get ⟨j, hj⟩]
        else []) ++ join_rest sat L R i (j + 1) := by
  unfold join_rest
  rw [List.drop_eq_getElem_cons hi, List.drop_eq_getElem_cons hj]
  simp only [List.get_eq_getElem, List.filter_cons]
  by_cases hs : sat L[i] R[j] = true
  · simp only [hs, if_true, List.map_cons, List.cons_append, List.nil_append]
  · simp only [hs, if_false, List.nil_append, Bool.false_eq_true]

theorem mem_join_spec (sat : Bytes → Bytes → Bool) (L R : List Bytes) (record : Bytes)
    (h : record ∈ join_spec sat L R) :
    ∃ l ∈ L, ∃ r ∈ R, sat l r = true ∧ record = l ++ r := by
  induction L with
  | nil => simp [join_spec] at h
  | cons l ls ih =>
    simp only [join_spec, List.mem_append, List.mem_map, List.mem_filter] at h
    rcases h with ⟨r, ⟨hr, hs⟩, e⟩ | h
    · exact ⟨l, List.mem_cons_self _ _, r, hr, hs, e.symm⟩
    · obtain ⟨l1, hl1, r, hr, hs, e⟩ := ih h
      exact ⟨l1, List.mem_cons_of_mem _ hl1, r, hr, hs, e⟩

theorem length_join_spec_le (sat : Bytes → Bytes → Bool) (L R : List Bytes) :
    (join_spec sat L R).length ≤ L.length * R.length := by
  induction L with
  | nil => simp [join_spec]
  | cons l ls ih =>
    simp only [join_spec, List.length_append, List.length_map, List.length_cons]
    have h1 := List.length_filter_le (fun r => sat l r) R
    rw [Nat.succ_mul]
    omega

theorem memcpy_at_concat (n : Nat) (l r : Bytes) (h : l.length + r.length = n) :
    (match memcpy_at (List.replicate n 0) 0 l with
      | none => none
      | some record => memcpy_at record l.length r) = some (l ++ r) := by
  subst h
  have h1 : memcpy_at (List.replicate (l.length + r.length) 0) 0 l =
      some (l ++ List.replicate r.length 0) := by
    unfold memcpy_at
    rw [if_pos (by simp)]
    simp
  rw [h1]
  simp only
  unfold memcpy_at
  rw [if_pos (by simp)]
  simp

theorem scan_of_end (hp : ExecHelpers) (e : NestedLoopJoinExecutor) (h : e.is_end = true) :
    NestedLoopJoinExecutor.scan hp e = some e := by
  rw [NestedLoopJoinExecutor.scan, dif_pos h]

theorem scan_of_pair (hp : ExecHelpers) (e : NestedLoopJoinExecutor) (l r : Bytes)
    (hend : e.is_end = false) (hl : e.left_.Next = some l) (hr : e.right_.Next = some r) :
    NestedLoopJoinExecutor.scan hp e =
      match eval_conds hp e.left_.tupleLen e.cols_ e.fed_conds_ l r with
      | none => none
      | some true => some e
      | some false =>
        if e.right_.nextTuple.is_end then
          NestedLoopJoinExecutor.scan hp
            { e with left_ := e.left_.nextTuple, right_ := e.right_.nextTuple.beginTuple }
        else
          NestedLoopJoinExecutor.scan hp { e with right_ := e.right_.nextTuple } := by
  rw [NestedLoopJoinExecutor.scan, dif_neg (by simp [hend])]
  split
  · rename_i l1 r1 h1 h2
    rw [hl] at h1
    rw [hr] at h2
    simp only [Option.some.injEq] at h1 h2
    subst h1
    subst h2
    rfl
  · rename_i h1
    exact (h1 l r hl hr).elim

theorem join_state_Next (left right : AbstractExecutor) (conds : List Condition) (i j : Nat)
    (hi : i < left.tuples.length) (hj : j < right.tuples.length)
    (hl : ∀ l ∈ left.tuples, l.length = left.len)
    (hr : ∀ r ∈ right.tuples, r.length = right.len) :
    (join_state left right conds i j).Next =
      some (left.tuples.get ⟨i, hi⟩ ++ right.tuples.get ⟨j, hj⟩) := by
  have h1 : (join_state left right conds i j).is_end = false := by
    simp [join_state, NestedLoopJoinExecutor.is_end, AbstractExecutor.is_end, hi]
  have h2 : (join_state left right conds i j).left_.Next = some (left.tuples.get ⟨i, hi⟩) := by
    simp [join_state, AbstractExecutor.Next, List.getElem?_eq_getElem hi]
  have h3 : (join_state left right conds i j).right_.Next = some (right.tuples.get ⟨j, hj⟩) := by
    simp [join_state, AbstractExecutor.Next, List.getElem?_eq_getElem hj]
  unfold NestedLoopJoinExecutor.Next
  rw [h1, h2, h3]
  simp only [Bool.false_eq_true, if_false]
  apply memcpy_at_concat
  rw [hl _ (List.get_mem _ _ _), hr _ (List.get_mem _ _ _)]
  rfl

theorem join_state_nextTuple (hp : ExecHelpers) (left right : AbstractExecutor)
    (conds : List Condition) (i j : Nat) (hi : i < left.tuples.length) :
    (join_state left right conds i j).nextTuple hp =
      if right.tuples.length ≤ j + 1 then
        NestedLoopJoinExecutor.scan hp (join_state left right conds (i + 1) 0)
      else NestedLoopJoinExecutor.scan hp (join_state left right conds i (j + 1)) := by
  have h1 : (join_state left right conds i j).is_end = false := by
    simp [join_state, NestedLoopJoinExecutor.is_end, AbstractExecutor.is_end, hi]
  unfold NestedLoopJoinExecutor.nextTuple
  rw [h1]
  simp only [Bool.false_eq_true, if_false]
  by_cases hj : right.tuples.length ≤ j + 1
  · rw [if_pos hj, if_pos (by simp [join_state, AbstractExecutor.is_end,
      AbstractExecutor.nextTuple, hj])]
    rfl
  · rw [if_neg hj, if_neg (by simp [join_state, AbstractExecutor.is_end,
      AbstractExecutor.nextTuple, hj])]
    rfl

/-- The code side refines the spec side for one condition: when `eval_cond`
returns a boolean on a pair of tuples, the condition holds on the
concatenation of the two tuples exactly when the boolean is true. -/
theorem eval_cond_spec (hp : ExecHelpers) (hcmp : ReadsPrefix hp) (left_len : Nat)
    (cols : List ExecColMeta) (cond : Condition) (l r : Bytes) (b : Bool)
    (hlen : l.length = left_len)
    (h : eval_cond hp left_len cols cond l r = some b) :
    cond_holds hp cols cond (l ++ r) = b := by
  unfold eval_cond at h
  unfold cond_holds
  cases hg : hp.get_col cols cond.lhs_col with
  | none =>
    rw [hg] at h
    simp at h
  | some lhs_col =>
    rw [hg] at h
    simp only at h ⊢
    by_cases hin : lhs_col.offset + lhs_col.len ≤ l.length
    · rw [if_pos hin] at h
      have hlhs : ∀ (rb : Bytes) (ty : ColType),
          hp.ix_compare ((l ++ r).drop lhs_col.offset) rb ty lhs_col.len =
            hp.ix_compare (l.drop lhs_col.offset) rb ty lhs_col.len := by
        intro rb ty
        apply hcmp _ _ _ _ _ _ _ rfl
        rw [List.drop_append_of_le_length (by omega),
          List.take_append_of_le_length (by rw [List.length_drop]; omega)]
      unfold eval_rhs at h
      by_cases hv : cond.is_rhs_val = true
      · rw [if_pos hv] at h ⊢
        by_cases hraw : lhs_col.len ≤ cond.rhs_val.raw.length
        · rw [if_pos hraw] at h
          simp only at h ⊢
          rw [hlhs]
          by_cases hty : cond.rhs_val.type = lhs_col.type
          · rw [if_pos hty] at h
            cases hop : cond.op <;> rw [hop] at h <;> simp only at h ⊢ <;>
              first
              | exact Option.some.inj h
              | exact absurd h (by simp)
          · rw [if_neg hty] at h
            simp at h
        · rw [if_neg hraw] at h
          simp at h
      · rw [if_neg hv] at h ⊢
        cases hg2 : hp.get_col cols cond.rhs_col with
        | none =>
          rw [hg2] at h
          simp at h
        | some rhs_col =>
          rw [hg2] at h
          simp only at h ⊢
          by_cases hin2 : left_len ≤ rhs_col.offset ∧
              rhs_col.offset - left_len + lhs_col.len ≤ r.length
          · rw [if_pos hin2] at h
            simp only at h ⊢
            have hrhs : (l ++ r).drop rhs_col.offset = r.drop (rhs_col.offset - left_len) := by
              rw [List.drop_append_eq_append_drop, List.drop_eq_nil_of_le (by omega), hlen]
              rfl
            rw [hlhs, hrhs]
            by_cases hty : rhs_col.type = lhs_col.type
            · rw [if_pos hty] at h
              cases hop : cond.op <;> rw [hop] at h <;> simp only at h ⊢ <;>
                first
                | exact Option.some.inj h
                | exact absurd h (by simp)
            · rw [if_neg hty] at h
              simp at h
          · rw [if_neg hin2] at h
            simp at h
    · rw [if_neg hin] at h
      simp at h

/-- The code side refines the spec side for the conditions of a join: when
`eval_conds` returns a boolean on a pair of tuples, it is true exactly when
every condition holds on the concatenation of the two tuples. -/
theorem eval_conds_spec (hp : ExecHelpers) (hcmp : ReadsPrefix hp) (left_len : Nat)
    (cols : List ExecColMeta) (conds : List Condition) (l r : Bytes) (b : Bool)
    (hlen : l.length = left_len)
    (h : eval_conds hp left_len cols conds l r = some b) :
    join_sat hp cols conds l r = b := by
  induction conds with
  | nil =>
    simp only [eval_conds, Option.some.injEq] at h
    rw [← h]
    rfl
  | cons cond rest ih =>
    unfold eval_conds at h
    unfold join_sat
    rw [List.all_cons]
    cases hc : eval_cond hp left_len cols cond l r with
    | none =>
      rw [hc] at h
      simp at h
    | some b1 =>
      rw [hc] at h
      rw [eval_cond_spec hp hcmp left_len cols cond l r b1 hlen hc]
      cases b1 with
      | false =>
        simp only [Option.some.injEq] at h
        rw [← h]
        rfl
      | true =>
        simp only at h
        rw [Bool.true_and]
        exact ih h

/-- From the pair of cursors `(i, j)` on, the loop of `beginTuple` and
`nextTuple` followed by the loop of the caller returns the rest of the join. -/
theorem join_collect (hp : ExecHelpers) (left right : AbstractExecutor) (conds : List Condition)
    (sat : Bytes → Bytes → Bool)
    (hR : right.tuples ≠ [])
    (hl : ∀ l ∈ left.tuples, l.length = left.len)
    (hr : ∀ r ∈ right.tuples, r.length = right.len)
    (hsat : ∀ l ∈ left.tuples, ∀ r ∈ right.tuples,
      eval_conds hp left.tupleLen (NestedLoopJoinExecutor.new left right conds).cols_ conds l r =
        some (sat l r)) :
    ∀ (m i j fuel : Nat),
      (left.tuples.length - i) * (right.tuples.length + 1) + (right.tuples.length - j) ≤ m →
      (i < left.tuples.length → j < right.tuples.length) →
      (join_rest sat left.tuples right.tuples i j).length ≤ fuel →
      ∃ e1, NestedLoopJoinExecutor.scan hp (join_state left right conds i j) = some e1 ∧
        NestedLoopJoinExecutor.collect hp fuel e1 =
          some (join_rest sat left.tuples right.tuples i j) := by
  have hRpos : 0 < right.tuples.length := List.length_pos.mpr hR
  intro m
  induction m with
  | zero =>
    intro i j fuel hm hij hfuel
    have hi : left.tuples.length ≤ i := by
      by_contra hc
      obtain ⟨k, hk⟩ : ∃ k, left.tuples.length - i = k + 1 := ⟨left.tuples.length - i - 1, by omega⟩
      rw [hk, Nat.succ_mul] at hm
      omega
    refine ⟨_, scan_of_end hp _ (by simp [join_state, NestedLoopJoinExecutor.is_end,
      AbstractExecutor.is_end, hi]), ?_⟩
    rw [join_rest_end _ _ _ _ _ hi]
    cases fuel <;>
      simp [NestedLoopJoinExecutor.collect, join_state, NestedLoopJoinExecutor.is_end,
        AbstractExecutor.is_end, hi]
  | succ m ih =>
    intro i j fuel hm hij hfuel
    by_cases hi : left.tuples.length ≤ i
    · refine ⟨_, scan_of_end hp _ (by simp [join_state, NestedLoopJoinExecutor.is_end,
        AbstractExecutor.is_end, hi]), ?_⟩
      rw [join_rest_end _ _ _ _ _ hi]
      cases fuel <;>
        simp [NestedLoopJoinExecutor.collect, join_state, NestedLoopJoinExecutor.is_end,
          AbstractExecutor.is_end, hi]
    · have hi1 : i < left.tuples.length := by omega
      have hj1 := hij hi1
      have hend : (join_state left right conds i j).is_end = false := by
        simp [join_state, NestedLoopJoinExecutor.is_end, AbstractExecutor.is_end, hi1]
      have hln : (join_state left right conds i j).left_.Next =
          some (left.tuples.get ⟨i, hi1⟩) := by
        simp [join_state, AbstractExecutor.Next, List.getElem?_eq_getElem hi1]
      have hrn : (join_state left right conds i j).right_.Next =
          some (right.tuples.get ⟨j, hj1⟩) := by
        simp [join_state, AbstractExecutor.Next, List.getElem?_eq_getElem hj1]
      have hsc := scan_of_pair hp _ _ _ hend hln hrn
      have hstep := join_rest_step sat left.tuples right.tuples i j hi1 hj1
      have hevb := hsat _ (List.get_mem _ i hi1) _ (List.get_mem _ j hj1)
      obtain ⟨k, hk⟩ : ∃ k, left.tuples.length - i = k + 1 :=
        ⟨left.tuples.length - i - 1, by omega⟩
      rw [hk, Nat.succ_mul] at hm
      -- the rest of the join from the next pair of cursors
      have hnext : ∀ fuel1,
          (join_rest sat left.tuples right.tuples i (j + 1)).length ≤ fuel1 →
          ∃ e1, (if right.tuples.length ≤ j + 1 then
                NestedLoopJoinExecutor.scan hp (join_state left right conds (i + 1) 0)
              else NestedLoopJoinExecutor.scan hp (join_state left right conds i (j + 1))) =
              some e1 ∧
            NestedLoopJoinExecutor.collect hp fuel1 e1 =
              some (join_rest sat left.tuples right.tuples i (j + 1)) := by
        intro fuel1 hf1
        by_cases hj : right.tuples.length ≤ j + 1
        · rw [if_pos hj]
          rw [join_rest_row_end _ _ _ i (j + 1) hi1 hj] at hf1 ⊢
          apply ih (i + 1) 0 fuel1 _ (fun _ => hRpos) hf1
          have : left.tuples.length - (i + 1) = k := by omega
          rw [this]
          omega
        · rw [if_neg hj]
          apply ih i (j + 1) fuel1 _ (fun _ => by omega) hf1
          rw [hk, Nat.succ_mul]
          omega
      have hcols : (join_state left right conds i j).cols_ =
          (NestedLoopJoinExecutor.new left right conds).cols_ := rfl
      generalize hb : sat (left.tuples.get ⟨i, hi1⟩) (right.tuples.get ⟨j, hj1⟩) = b at hevb hstep
      have hsc1 : NestedLoopJoinExecutor.scan hp (join_state left right conds i j) =
          match (some b : Option Bool) with
          | none => none
          | some true => some (join_state left right conds i j)
          | some false =>
            if right.tuples.length ≤ j + 1 then
              NestedLoopJoinExecutor.scan hp (join_state left right conds (i + 1) 0)
            else NestedLoopJoinExecutor.scan hp (join_state left right conds i (j + 1)) := by
        rw [hsc, ← hevb]
        have h3 : (join_state left right conds i j).right_.nextTuple.is_end =
            decide (right.tuples.length ≤ j + 1) := rfl
        rw [h3]
        by_cases hj : right.tuples.length ≤ j + 1
        · simp only [hj, decide_True, if_true]
          rfl
        · simp only [hj, decide_False, if_false, Bool.false_eq_true]
          rfl
      cases b with
      | false =>
        simp only [Bool.false_eq_true, if_false, List.nil_append] at hstep
        rw [hstep] at hfuel ⊢
        rw [hsc1]
        exact hnext fuel hfuel
      | true =>
        simp only [if_true, List.singleton_append] at hstep
        rw [hstep] at hfuel ⊢
        rw [hsc1]
        refine ⟨_, rfl, ?_⟩
        cases fuel with
        | zero => simp at hfuel
        | succ f =>
          simp only [List.length_cons, Nat.add_le_add_iff_right] at hfuel
          obtain ⟨e1, he1, hc1⟩ := hnext f hfuel
          rw [NestedLoopJoinExecutor.collect, hend]
          simp only [Bool.false_eq_true, if_false]
          rw [join_state_Next left right conds i j hi1 hj1 hl hr,
            join_state_nextTuple hp left right conds i j hi1, he1]
          simp only [hc1]

theorem beginTuple_new (hp : ExecHelpers) (left right : AbstractExecutor)
    (conds : List Condition) :
    (NestedLoopJoinExecutor.new left right conds).beginTuple hp =
      if decide (left.tuples.length ≤ 0) = true then
        some { NestedLoopJoinExecutor.new left right conds with left_ := left.beginTuple }
      else NestedLoopJoinExecutor.scan hp (join_state left right conds 0 0) :=
  rfl

/-! ## Claims -/

/-- C1: in every state reachable from an empty lock table and fresh
transactions by acquire, unlock, commit and abort calls, the group mode of
every request queue equals the strongest mode among its requests under the
precedence X > SIX > S > IX > IS > NONE (NONE for an empty queue). -/
theorem C1_group_mode_invariant {σ : Type} (c : Collab σ) (s : Sys σ) (hr : Reachable c s)
    (d : LockDataId) (q : LockRequestQueue) (hq : s.lock_table d = some q) :
    q.group_lock_mode_ = strongest_mode q.request_queue_ :=
  (Reachable_inv c s hr d q hq).group

/-- C1 (witness): after transaction 1 takes S on table 0 the queue of table 0
is reachable, and its group mode S is the strongest mode of its requests. -/
theorem C1_group_mode_invariant_witness :
    Reachable no_store sys_S ∧
    sys_S.lock_table (.TABLE 0) = some ⟨[⟨1, .SHARED, true⟩], .S, 1, 0⟩ ∧
    (⟨[⟨1, .SHARED, true⟩], .S, 1, 0⟩ : LockRequestQueue).group_lock_mode_ =
      strongest_mode [⟨1, .SHARED, true⟩] :=
  ⟨sys_S_reach, rfl,
    C1_group_mode_invariant no_store sys_S sys_S_reach (.TABLE 0)
      ⟨[⟨1, .SHARED, true⟩], .S, 1, 0⟩ rfl⟩

/-- C2 (the code departs from the claim): after transaction 1 takes S on a
table and then X on the same table, the queue holds one X request and no S or
SIX request, yet `shared_lock_num_` is still 1.  The stale count survives the
release: after transaction 1 took IX then X and committed, the IX request of
transaction 2 alone in the queue leaves `IX_lock_num_` at 2, and its
`lock_shared_on_table` is refused although no other transaction holds IX. -/
theorem C2_counters_stale_after_upgrade_to_X :
    Reachable no_store sys_SX ∧
    sys_SX.lock_table (.TABLE 0) = some ⟨[⟨1, .EXLUCSIVE, true⟩], .X, 1, 0⟩ ∧
    S_holders [⟨1, .EXLUCSIVE, true⟩] = 0 ∧
    Reachable no_store sys_IX_after_X ∧
    sys_IX_after_X.lock_table (.TABLE 0) = some ⟨[⟨2, .INTENTION_EXCLUSIVE, true⟩], .IX, 0, 2⟩ ∧
    IX_holders [⟨2, .INTENTION_EXCLUSIVE, true⟩] = 1 ∧
    (lock_shared_on_table (sys_IX_after_X.txns 2) sys_IX_after_X.lock_table 0).outcome =
      .throw .DEADLOCK_PREVENTION := by
  refine ⟨?_, rfl, rfl, ?_, rfl, rfl, rfl⟩
  · exact after_acquire_reach _ _ (after_acquire_reach _ _ sys0_reach _ _) _ _
  · exact after_acquire_reach _ _ (after_commit_reach _ _
      (after_acquire_reach _ _ (after_acquire_reach _ _ sys0_reach _ _) _ _) _) _ _

/-- C3 (counterexample): a transaction in state DEFAULT calls unlock, which
returns true and leaves it in DEFAULT; its next lock_shared_on_table returns
true instead of raising lock-on-shrinking. -/
theorem C3_unlock_in_DEFAULT_then_acquire :
    (unlock (Transaction.fresh 1) LockTable.empty (.TABLE 0)).outcome = .ret true ∧
    (unlock (Transaction.fresh 1) LockTable.empty (.TABLE 0)).txn.state_ = .DEFAULT ∧
    (acquire (.shared_on_table 0) (unlock (Transaction.fresh 1) LockTable.empty (.TABLE 0)).txn
      (unlock (Transaction.fresh 1) LockTable.empty (.TABLE 0)).lock_table).outcome = .ret true :=
  ⟨rfl, rfl, rfl⟩

/-- C3 (amended): for a transaction in state GROWING or SHRINKING and any lock
id, unlock returns true, and after any further run of the system no acquire
call by that transaction succeeds: it raises lock-on-shrinking while the
transaction is neither COMMITTED nor ABORTED, and returns false once it is. -/
theorem C3_no_acquire_after_unlock {σ : Type} (c : Collab σ) (s s2 : Sys σ) (h : Nat)
    (d : LockDataId)
    (hst : (s.txns h).state_ = .GROWING ∨ (s.txns h).state_ = .SHRINKING)
    (hrun : Steps c (after_unlock s h d) s2) :
    (unlock (s.txns h) s.lock_table d).outcome = .ret true ∧
    ∀ op : LockOp,
      (acquire op (s2.txns h) s2.lock_table).outcome ≠ .ret true ∧
      (((s2.txns h).state_ = .SHRINKING ∧
          (acquire op (s2.txns h) s2.lock_table).outcome = .throw .LOCK_ON_SHIRINKING) ∨
        (((s2.txns h).state_ = .COMMITTED ∨ (s2.txns h).state_ = .ABORTED) ∧
          (acquire op (s2.txns h) s2.lock_table).outcome = .ret false)) := by
  have hnt : (s.txns h).state_ ≠ .COMMITTED ∧ (s.txns h).state_ ≠ .ABORTED := by
    rcases hst with e | e <;> rw [e] <;> simp
  refine ⟨(unlock_shape _ _ d hnt).1, ?_⟩
  have h1 : ((after_unlock s h d).txns h).state_ = .SHRINKING := by
    simp only [after_unlock, Function.update_same]
    rw [unlock_state]
    rcases hst with e | e <;> simp [e]
  have h2 := Steps_closed c _ s2 hrun h (Or.inl h1)
  intro op
  rcases acquire_shape op (s2.txns h) s2.lock_table with ⟨ht, ho, _⟩ | ⟨hs, ho, _⟩ | ⟨hg, _⟩
  · exact ⟨by rw [ho]; simp, Or.inr ⟨ht, ho⟩⟩
  · exact ⟨by rw [ho]; simp, Or.inl ⟨hs, ho⟩⟩
  · exfalso
    rcases hg with e | e <;> rw [e] at h2 <;> simp at h2

/-- C3 (witness): transaction 1, GROWING after taking S on table 0, unlocks
it; the unlock returns true and its next lock_IX_on_table does not succeed. -/
theorem C3_no_acquire_after_unlock_witness :
    ((sys_S.txns 1).state_ = .GROWING ∨ (sys_S.txns 1).state_ = .SHRINKING) ∧
    Steps no_store (after_unlock sys_S 1 (.TABLE 0)) (after_unlock sys_S 1 (.TABLE 0)) ∧
    (unlock (sys_S.txns 1) sys_S.lock_table (.TABLE 0)).outcome = .ret true ∧
    (acquire (.IX_on_table 0) ((after_unlock sys_S 1 (.TABLE 0)).txns 1)
      (after_unlock sys_S 1 (.TABLE 0)).lock_table).outcome ≠ .ret true :=
  ⟨Or.inl rfl, Steps.refl _,
    (C3_no_acquire_after_unlock no_store sys_S (after_unlock sys_S 1 (.TABLE 0)) 1 (.TABLE 0)
      (Or.inl rfl) (Steps.refl _)).1,
    ((C3_no_acquire_after_unlock no_store sys_S (after_unlock sys_S 1 (.TABLE 0)) 1 (.TABLE 0)
      (Or.inl rfl) (Steps.refl _)).2 (.IX_on_table 0)).1⟩

/-- C4: in every reachable state with pairwise distinct transaction ids, for
every resource and every transaction, the id of the transaction occurs at most
once in the request queue of the resource, and when it occurs there the lock
id of the resource is in the lock-set of the transaction. -/
theorem C4_lock_set_coverage {σ : Type} (c : Collab σ) (s : Sys σ) (hr : Reachable c s)
    (hd : DistinctIds s) (d : LockDataId) (q : LockRequestQueue)
    (hq : s.lock_table d = some q) (h : Nat) :
    (queue_ids q.request_queue_).count (s.txns h).txn_id_ ≤ 1 ∧
    ((s.txns h).txn_id_ ∈ queue_ids q.request_queue_ → d ∈ (s.txns h).lock_set_) := by
  constructor
  · exact List.nodup_iff_count_le_one.mp (Reachable_inv c s hr d q hq).nodup _
  · exact (Reachable_SysInv c s hr hd).cover h d q hq

/-- C4 (witness): after transaction 1 takes S on table 0, its id occurs once
in the queue of table 0 and table 0 is in its lock-set. -/
theorem C4_lock_set_coverage_witness :
    Reachable no_store sys_S ∧ DistinctIds sys_S ∧
    sys_S.lock_table (.TABLE 0) = some ⟨[⟨1, .SHARED, true⟩], .S, 1, 0⟩ ∧
    (queue_ids [⟨1, .SHARED, true⟩]).count (sys_S.txns 1).txn_id_ ≤ 1 ∧
    ((sys_S.txns 1).txn_id_ ∈ queue_ids [⟨1, .SHARED, true⟩] →
      LockDataId.TABLE 0 ∈ (sys_S.txns 1).lock_set_) :=
  ⟨sys_S_reach, sys_S_distinct, rfl,
    C4_lock_set_coverage no_store sys_S sys_S_reach sys_S_distinct (.TABLE 0)
      ⟨[⟨1, .SHARED, true⟩], .S, 1, 0⟩ rfl 1⟩

/-- C5: in every reachable state with pairwise distinct transaction ids, after
commit of a transaction, and after an abort that returns, the lock-set of the
transaction is empty and no request queue of the lock table holds a request
with its id; abort returns whenever the rollback of the write-set does (no
collaborator throws). -/
theorem C5_commit_abort_release_everything {σ : Type} (c : Collab σ) (s : Sys σ)
    (hr : Reachable c s) (hd : DistinctIds s) (h : Nat) :
    ((commit (s.txns h) s.lock_table).1.lock_set_ = [] ∧
      ∀ d q, (commit (s.txns h) s.lock_table).2 d = some q →
        (s.txns h).txn_id_ ∉ queue_ids q.request_queue_) ∧
    (∀ st1, rollback c (s.txns h).write_set_.reverse s.store = some st1 →
      ∃ txn1 lt1, abort c s.store (s.txns h) s.lock_table = some (st1, txn1, lt1)) ∧
    (∀ st1 txn1 lt1, abort c s.store (s.txns h) s.lock_table = some (st1, txn1, lt1) →
      txn1.lock_set_ = [] ∧
      ∀ d q, lt1 d = some q → (s.txns h).txn_id_ ∉ queue_ids q.request_queue_) := by
  have hinv := Reachable_inv c s hr
  have hsys := Reachable_SysInv c s hr hd
  refine ⟨⟨(commit_frame _ _).2.1, ?_⟩, ?_, ?_⟩
  · intro d q hq
    exact unlock_all_clears { s.txns h with write_set_ := [] } s.lock_table hinv
      (hsys.cover h) (hsys.terminal h) d q hq
  · intro st1 e
    unfold abort
    rw [e]
    exact ⟨_, _, rfl⟩
  · intro st1 txn1 lt1 e
    obtain ⟨_, f2, _, _, f5⟩ := abort_frame c _ _ _ _ _ _ e
    refine ⟨f2, ?_⟩
    intro d q hq
    rw [f5] at hq
    exact unlock_all_clears { s.txns h with write_set_ := [] } s.lock_table hinv
      (hsys.cover h) (hsys.terminal h) d q hq

/-- C5 (witness): transaction 1 holds S on table 0 and commits, or aborts
with an empty write-set; its lock-set is then empty and the queue of table 0
holds no request of transaction 1. -/
theorem C5_commit_abort_release_everything_witness :
    Reachable no_store sys_S ∧ DistinctIds sys_S ∧
    ((commit (sys_S.txns 1) sys_S.lock_table).1.lock_set_ = [] ∧
      ∀ d q, (commit (sys_S.txns 1) sys_S.lock_table).2 d = some q →
        (sys_S.txns 1).txn_id_ ∉ queue_ids q.request_queue_) ∧
    (∃ txn1 lt1, abort no_store sys_S.store (sys_S.txns 1) sys_S.lock_table =
      some ((), txn1, lt1)) :=
  ⟨sys_S_reach, sys_S_distinct,
    (C5_commit_abort_release_everything no_store sys_S sys_S_reach sys_S_distinct 1).1,
    (C5_commit_abort_release_everything no_store sys_S sys_S_reach sys_S_distinct 1).2.1 () rfl⟩

/-- C6: if one of the six acquire operations raises an abort condition
(lock-on-shrinking or deadlock-prevention), the lock table (every queue with
its requests, group mode and both counters) and the lock-set of the
transaction are the same as before the call. -/
theorem C6_error_atomicity (op : LockOp) (txn : Transaction) (lt : LockTable) (r : AbortReason)
    (h : (acquire op txn lt).outcome = .throw r) :
    (acquire op txn lt).lock_table = lt ∧ (acquire op txn lt).txn.lock_set_ = txn.lock_set_ := by
  rcases acquire_shape op txn lt with ⟨_, ho, _⟩ | ⟨_, _, e1, e2⟩ | ⟨_, hg⟩
  · rw [ho] at h
    simp at h
  · rw [e1, e2]
    exact ⟨rfl, rfl⟩
  · rcases hg with ⟨e1, e2, hc⟩ | ⟨_, _, _, _, _, _, ho, _⟩ | ⟨_, _, _, _, _, ho, _⟩
    · rcases hc with ⟨ho, _⟩ | ⟨_, hne⟩
      · rw [ho] at h
        simp at h
      · rw [e1, e2, ensure_queue_eq_of_ne_empty lt op.target hne]
        exact ⟨rfl, rfl⟩
    · rw [ho] at h
      simp at h
    · rw [ho] at h
      simp at h

/-- C6 (witness): transaction 1 holds S on table 0; lock_IX_on_table by
transaction 2 raises deadlock-prevention and changes neither the lock table
nor the lock-set. -/
theorem C6_error_atomicity_witness :
    (acquire (.IX_on_table 0) (sys_S.txns 2) sys_S.lock_table).outcome =
      .throw .DEADLOCK_PREVENTION ∧
    (acquire (.IX_on_table 0) (sys_S.txns 2) sys_S.lock_table).lock_table = sys_S.lock_table ∧
    (acquire (.IX_on_table 0) (sys_S.txns 2) sys_S.lock_table).txn.lock_set_ =
      (sys_S.txns 2).lock_set_ :=
  ⟨rfl, C6_error_atomicity (.IX_on_table 0) (sys_S.txns 2) sys_S.lock_table
    .DEADLOCK_PREVENTION rfl⟩

/-- C7: a transaction that has successfully acquired a lock is GROWING; its
next unlock returns true and makes it SHRINKING; and from state SHRINKING each
of the six acquire operations, on every resource and every lock table, raises
lock-on-shrinking (it returns neither true nor false). -/
theorem C7_lock_on_shrinking (op0 : LockOp) (txn0 : Transaction) (lt0 : LockTable)
    (hacq : (acquire op0 txn0 lt0).outcome = .ret true) :
    (acquire op0 txn0 lt0).txn.state_ = .GROWING ∧
    (∀ (lt1 : LockTable) (d : LockDataId),
      (unlock (acquire op0 txn0 lt0).txn lt1 d).outcome = .ret true ∧
      (unlock (acquire op0 txn0 lt0).txn lt1 d).txn.state_ = .SHRINKING) ∧
    (∀ (txn : Transaction) (lt : LockTable) (op : LockOp), txn.state_ = .SHRINKING →
      (acquire op txn lt).outcome = .throw .LOCK_ON_SHIRINKING) := by
  have hG : (acquire op0 txn0 lt0).txn.state_ = .GROWING := by
    rcases acquire_shape op0 txn0 lt0 with ⟨_, ho, _⟩ | ⟨_, ho, _⟩ | ⟨_, hg⟩
    · rw [ho] at hacq
      simp at hacq
    · rw [ho] at hacq
      simp at hacq
    · rcases hg with ⟨e, _⟩ | ⟨_, _, _, _, _, _, _, e, _⟩ | ⟨_, _, _, _, _, _, e, _⟩ <;> rw [e]
  refine ⟨hG, ?_, ?_⟩
  · intro lt1 d
    refine ⟨(unlock_shape _ lt1 d (by simp [hG])).1, ?_⟩
    rw [unlock_state, hG]
    simp
  · intro txn lt op hS
    rcases acquire_shape op txn lt with ⟨h, _⟩ | ⟨_, ho, _⟩ | ⟨h, _⟩
    · rw [hS] at h
      simp at h
    · exact ho
    · rw [hS] at h
      simp at h

/-- C7 (witness): a fresh transaction takes S on table 0 and is GROWING; its
unlock makes it SHRINKING. -/
theorem C7_lock_on_shrinking_witness :
    (acquire (.shared_on_table 0) (Transaction.fresh 1) LockTable.empty).outcome = .ret true ∧
    (acquire (.shared_on_table 0) (Transaction.fresh 1) LockTable.empty).txn.state_ = .GROWING ∧
    (∀ (lt1 : LockTable) (d : LockDataId),
      (unlock (acquire (.shared_on_table 0) (Transaction.fresh 1) LockTable.empty).txn
        lt1 d).outcome = .ret true ∧
      (unlock (acquire (.shared_on_table 0) (Transaction.fresh 1) LockTable.empty).txn
        lt1 d).txn.state_ = .SHRINKING) :=
  ⟨rfl,
    (C7_lock_on_shrinking (.shared_on_table 0) (Transaction.fresh 1) LockTable.empty rfl).1,
    (C7_lock_on_shrinking (.shared_on_table 0) (Transaction.fresh 1) LockTable.empty rfl).2.1⟩

/-- C8: for a transaction whose state is COMMITTED or ABORTED, each of the
six acquire operations and unlock returns false, raises nothing, and leaves
the lock table and the transaction (so its state and lock-set) unchanged. -/
theorem C8_terminal_state_calls (txn : Transaction) (lt : LockTable)
    (h : txn.state_ = .COMMITTED ∨ txn.state_ = .ABORTED) :
    (∀ op : LockOp, (acquire op txn lt).outcome = .ret false ∧ (acquire op txn lt).txn = txn ∧
      (acquire op txn lt).lock_table = lt) ∧
    (∀ d : LockDataId, (unlock txn lt d).outcome = .ret false ∧ (unlock txn lt d).txn = txn ∧
      (unlock txn lt d).lock_table = lt) := by
  constructor
  · intro op
    rcases acquire_shape op txn lt with ⟨_, h1⟩ | ⟨hs, _⟩ | ⟨hs, _⟩
    · exact h1
    · rw [hs] at h
      simp at h
    · rcases h with h | h <;> rw [h] at hs <;> simp at hs
  · intro d
    exact unlock_terminal txn lt d h

/-- C8 (witness): a committed transaction calls lock_exclusive_on_table and
unlock on the lock table in which transaction 1 holds S on table 0. -/
theorem C8_terminal_state_calls_witness :
    ((⟨2, .COMMITTED, [], []⟩ : Transaction).state_ = .COMMITTED ∨
      (⟨2, .COMMITTED, [], []⟩ : Transaction).state_ = .ABORTED) ∧
    (acquire (.exclusive_on_table 0) ⟨2, .COMMITTED, [], []⟩ sys_S.lock_table).outcome =
      .ret false ∧
    (unlock ⟨2, .COMMITTED, [], []⟩ sys_S.lock_table (.TABLE 0)).outcome = .ret false :=
  ⟨Or.inl rfl,
    ((C8_terminal_state_calls ⟨2, .COMMITTED, [], []⟩ sys_S.lock_table (Or.inl rfl)).1
      (.exclusive_on_table 0)).1,
    ((C8_terminal_state_calls ⟨2, .COMMITTED, [], []⟩ sys_S.lock_table (Or.inl rfl)).2
      (.TABLE 0)).1⟩

/-- C9: in every reachable state in which the queue of record r holds an X
request of some transaction, lock_shared_on_record on r by a transaction with
another id, in state DEFAULT or GROWING, raises deadlock-prevention, and
afterwards the queue of r is as before and holds no request of the caller. -/
theorem C9_writer_blocks_reader {σ : Type} (c : Collab σ) (s : Sys σ) (hr : Reachable c s)
    (fd : Int) (rid : Rid) (q : LockRequestQueue)
    (hq : s.lock_table (.RECORD fd rid) = some q)
    (r1 : LockRequest) (hr1 : r1 ∈ q.request_queue_) (hX : r1.lock_mode_ = .EXLUCSIVE)
    (txn2 : Transaction) (hne : txn2.txn_id_ ≠ r1.txn_id_)
    (hst : txn2.state_ = .DEFAULT ∨ txn2.state_ = .GROWING) :
    (lock_shared_on_record txn2 s.lock_table rid fd).outcome = .throw .DEADLOCK_PREVENTION ∧
    (lock_shared_on_record txn2 s.lock_table rid fd).lock_table (.RECORD fd rid) = some q ∧
    txn2.txn_id_ ∉ queue_ids q.request_queue_ := by
  have hqi := Reachable_inv c s hr _ q hq
  have hfind : find_request txn2.txn_id_ q.request_queue_ = none := by
    cases e : find_request txn2.txn_id_ q.request_queue_ with
    | none => rfl
    | some it =>
      exfalso
      obtain ⟨hm, hid⟩ := find_request_mem _ _ it e
      have hne2 : it ≠ r1 := by
        intro e1
        rw [e1] at hid
        exact hne hid.symm
      have := hqi.compat_of_ne it hm r1 hr1 hne2
      rw [hX] at this
      revert this
      cases it.lock_mode_ <;> simp [compatible]
  have hg : q.group_lock_mode_ = .X := by
    have := hqi.rank_le r1 hr1
    rw [hX] at this
    revert this
    cases q.group_lock_mode_ <;> simp [GroupLockMode.rank, LockMode.toGroup]
  obtain ⟨e1, e2⟩ := queue_at_of_some _ _ q hq
  unfold lock_shared_on_record
  rw [check_state_ok txn2 hst]
  dsimp only
  rw [e2, e1, hfind]
  simp only [hg, reduceCtorEq, true_or, or_true, if_true]
  exact ⟨trivial, hq, (find_request_none_iff _ _).mp hfind⟩

/-- C9 (witness): transaction 1 holds X on record (0, 0) of table 0;
lock_shared_on_record by the fresh transaction 2 raises deadlock-prevention. -/
theorem C9_writer_blocks_reader_witness :
    Reachable no_store sys_Xrec ∧
    sys_Xrec.lock_table (.RECORD 0 ⟨0, 0⟩) = some ⟨[⟨1, .EXLUCSIVE, true⟩], .X, 0, 0⟩ ∧
    (lock_shared_on_record (Transaction.fresh 2) sys_Xrec.lock_table ⟨0, 0⟩ 0).outcome =
      .throw .DEADLOCK_PREVENTION ∧
    (lock_shared_on_record (Transaction.fresh 2) sys_Xrec.lock_table ⟨0, 0⟩ 0).lock_table
      (.RECORD 0 ⟨0, 0⟩) = some ⟨[⟨1, .EXLUCSIVE, true⟩], .X, 0, 0⟩ ∧
    (Transaction.fresh 2).txn_id_ ∉ queue_ids [⟨1, .EXLUCSIVE, true⟩] :=
  ⟨sys_Xrec_reach, rfl,
    C9_writer_blocks_reader no_store sys_Xrec sys_Xrec_reach 0 ⟨0, 0⟩
      ⟨[⟨1, .EXLUCSIVE, true⟩], .X, 0, 0⟩ rfl ⟨1, .EXLUCSIVE, true⟩ (by simp) rfl
      (Transaction.fresh 2) (by decide) (Or.inl rfl)⟩

/-- C10: decision rule of lock_IX_on_table for a transaction in DEFAULT or
GROWING, with `q` the queue of the table (an empty queue when the table has
none) and `r` the result of the call.  (a) When the transaction has a request
`it` in the queue: mode IX, X or SIX gives success with the queue unchanged;
mode IS with group mode IS or IX rewrites the request to IX, sets the group
mode to IX and increments the IX-count; mode S with S-count 1 rewrites the
request to SIX, sets the group mode to SIX and increments the IX-count, the
S-count staying 1; every other case raises deadlock-prevention.  (b) When it
has no request: deadlock-prevention is raised exactly when the group mode is
S, X or SIX; otherwise a granted IX request is appended at the end, the group
mode becomes IX and the IX-count is incremented.  (c) In a reachable state, in
particular, the call raises deadlock-prevention when the caller and another
transaction both hold S on the table. -/
theorem C10_lock_IX_on_table_rule {σ : Type} (c : Collab σ) (txn : Transaction)
    (lt : LockTable) (fd : Int) (q : LockRequestQueue) (r : LockResult)
    (hst : txn.state_ = .DEFAULT ∨ txn.state_ = .GROWING)
    (hq : q = queue_at lt (.TABLE fd)) (hr : r = lock_IX_on_table txn lt fd) :
    (∀ pre it post, q.request_queue_ = pre ++ it :: post → it.txn_id_ = txn.txn_id_ →
      txn.txn_id_ ∉ queue_ids pre →
      ((it.lock_mode_ = .INTENTION_EXCLUSIVE ∨ it.lock_mode_ = .EXLUCSIVE ∨
          it.lock_mode_ = .S_IX) →
        r.outcome = .ret true ∧ r.lock_table (.TABLE fd) = some q) ∧
      (it.lock_mode_ = .INTENTION_SHARED →
        (q.group_lock_mode_ = .IS ∨ q.group_lock_mode_ = .IX) →
        r.outcome = .ret true ∧
        r.lock_table (.TABLE fd) = some
          ⟨pre ++ { it with lock_mode_ := .INTENTION_EXCLUSIVE } :: post, .IX,
            q.shared_lock_num_, q.IX_lock_num_ + 1⟩) ∧
      (it.lock_mode_ = .SHARED → q.shared_lock_num_ = 1 →
        r.outcome = .ret true ∧
        r.lock_table (.TABLE fd) = some
          ⟨pre ++ { it with lock_mode_ := .S_IX } :: post, .SIX, 1, q.IX_lock_num_ + 1⟩) ∧
      (it.lock_mode_ = .INTENTION_SHARED →
        ¬ (q.group_lock_mode_ = .IS ∨ q.group_lock_mode_ = .IX) →
        r.outcome = .throw .DEADLOCK_PREVENTION) ∧
      (it.lock_mode_ = .SHARED → q.shared_lock_num_ ≠ 1 →
        r.outcome = .throw .DEADLOCK_PREVENTION)) ∧
    (txn.txn_id_ ∉ queue_ids q.request_queue_ →
      (r.outcome = .throw .DEADLOCK_PREVENTION ↔
        (q.group_lock_mode_ = .S ∨ q.group_lock_mode_ = .X ∨ q.group_lock_mode_ = .SIX)) ∧
      (¬ (q.group_lock_mode_ = .S ∨ q.group_lock_mode_ = .X ∨ q.group_lock_mode_ = .SIX) →
        r.outcome = .ret true ∧
        r.lock_table (.TABLE fd) = some
          ⟨q.request_queue_ ++ [⟨txn.txn_id_, .INTENTION_EXCLUSIVE, true⟩], .IX,
            q.shared_lock_num_, q.IX_lock_num_ + 1⟩)) ∧
    (∀ s : Sys σ, Reachable c s → s.lock_table = lt →
      ∀ r1 ∈ q.request_queue_, ∀ r2 ∈ q.request_queue_,
        r1.txn_id_ = txn.txn_id_ → r2.txn_id_ ≠ txn.txn_id_ →
        r1.lock_mode_ = .SHARED → r2.lock_mode_ = .SHARED →
        r.outcome = .throw .DEADLOCK_PREVENTION) := by
  have hens := ensure_queue_at_eq lt (.TABLE fd)
  rw [← hq] at hens
  unfold lock_IX_on_table at hr
  rw [check_state_ok txn hst] at hr
  simp only [queue_at_ensure] at hr
  rw [← hq] at hr
  refine ⟨?_, ?_, ?_⟩
  · intro pre it post e hid hpre
    obtain ⟨hf, hset⟩ := find_request_of_split txn.txn_id_ pre post it hid hpre
    rw [← e] at hf hset
    rw [hf] at hr
    simp only [hset] at hr
    refine ⟨?_, ?_, ?_, ?_, ?_⟩
    · intro hm
      simp only [hm, if_true] at hr
      rw [hr]
      exact ⟨rfl, hens⟩
    · intro hm hg
      simp only [hm, hg, reduceCtorEq, false_or, or_false, or_self, if_false, true_and,
        if_true] at hr
      rw [hr]
      exact ⟨rfl, by simp only [Function.update_same]⟩
    · intro hm hn
      simp only [hm, hn, reduceCtorEq, false_or, or_false, or_self, if_false, true_and,
        false_and, and_self, if_true] at hr
      rw [hr]
      exact ⟨rfl, by simp only [Function.update_same]⟩
    · intro hm hg
      simp only [hm, hg, reduceCtorEq, false_or, or_false, or_self, if_false, true_and,
        false_and, and_false] at hr
      rw [hr]
    · intro hm hn
      simp only [hm, hn, reduceCtorEq, false_or, or_false, or_self, if_false, true_and,
        false_and, and_false] at hr
      rw [hr]
  · intro hnot
    have hf := (find_request_none_iff _ _).mpr hnot
    rw [hf] at hr
    simp only at hr
    by_cases hg : q.group_lock_mode_ = .S ∨ q.group_lock_mode_ = .X ∨ q.group_lock_mode_ = .SIX
    · simp only [hg, if_true] at hr
      rw [hr]
      exact ⟨⟨fun _ => hg, fun _ => rfl⟩, fun h => absurd hg h⟩
    · simp only [hg, if_false] at hr
      rw [hr]
      refine ⟨⟨fun h => ?_, fun h => absurd h hg⟩, fun _ => ⟨rfl, ?_⟩⟩
      · simp at h
      · simp only [Function.update_same]
  · intro s hreach hlt r1 hr1 r2 hr2 hid1 hid2 hm1 hm2
    have hinv : TableInv lt := by
      rw [← hlt]
      exact Reachable_inv c s hreach
    have hqi : QueueInv q := by
      rw [hq]
      exact QueueInv_queue_at hinv _
    cases hf : find_request txn.txn_id_ q.request_queue_ with
    | none =>
      exfalso
      apply (find_request_none_iff _ _).mp hf
      rw [← hid1]
      exact List.mem_map.mpr ⟨r1, hr1, rfl⟩
    | some it =>
      obtain ⟨hmem, hid⟩ := find_request_mem _ _ it hf
      have heq : it = r1 := nodup_ids_eq hqi.nodup hmem hr1 (hid.trans hid1.symm)
      subst heq
      have hsn : q.shared_lock_num_ ≠ 1 := by
        intro h1
        exact others_not_S hqi hf (Or.inl hm1) h1 r2 hr2 hid2 (Or.inl hm2)
      rw [hf] at hr
      simp only [hm1, hsn, reduceCtorEq, false_or, or_false, or_self, if_false, true_and,
        false_and, and_false] at hr
      rw [hr]

/-- C10 (witness): transactions 1 and 2 both hold S on table 0 (S-count 2);
lock_IX_on_table by transaction 1 raises deadlock-prevention. -/
theorem C10_lock_IX_on_table_rule_witness :
    ((sys_SS.txns 1).state_ = .DEFAULT ∨ (sys_SS.txns 1).state_ = .GROWING) ∧
    queue_at sys_SS.lock_table (.TABLE 0) =
      ⟨[⟨1, .SHARED, true⟩, ⟨2, .SHARED, true⟩], .S, 2, 0⟩ ∧
    (lock_IX_on_table (sys_SS.txns 1) sys_SS.lock_table 0).outcome =
      .throw .DEADLOCK_PREVENTION :=
  ⟨Or.inr rfl, rfl,
    (C10_lock_IX_on_table_rule no_store (sys_SS.txns 1) sys_SS.lock_table 0
      (queue_at sys_SS.lock_table (.TABLE 0)) (lock_IX_on_table (sys_SS.txns 1) sys_SS.lock_table 0)
      (Or.inr rfl) rfl rfl).2.2 sys_SS sys_SS_reach rfl
      ⟨1, .SHARED, true⟩ (by decide) ⟨2, .SHARED, true⟩ (by decide) rfl (by decide) rfl rfl⟩

/-- C11: decision rule of lock_shared_on_table for a transaction in DEFAULT or
GROWING, with `q` the queue of the table (an empty queue when the table has
none) and `r` the result of the call.  (a) When the transaction has a request
`it` in the queue: mode S, X or SIX gives success with the queue unchanged;
mode IS with group mode S or IS rewrites the request to S, sets the group mode
to S and increments the S-count; mode IX with IX-count 1 rewrites the request
to SIX, sets the group mode to SIX and increments the S-count; every other
case raises deadlock-prevention.  (b) When it has no request:
deadlock-prevention is raised exactly when the group mode is IX, X or SIX;
otherwise a granted S request is appended, the group mode becomes S and the
S-count is incremented.  (c) IS followed by S by a single transaction on a
table that has no queue yet (or a default one) ends with one S request, group
mode S and S-count 1. -/
theorem C11_lock_shared_on_table_rule (txn : Transaction) (lt : LockTable) (fd : Int)
    (q : LockRequestQueue) (r : LockResult)
    (hst : txn.state_ = .DEFAULT ∨ txn.state_ = .GROWING)
    (hq : q = queue_at lt (.TABLE fd)) (hr : r = lock_shared_on_table txn lt fd) :
    (∀ pre it post, q.request_queue_ = pre ++ it :: post → it.txn_id_ = txn.txn_id_ →
      txn.txn_id_ ∉ queue_ids pre →
      ((it.lock_mode_ = .SHARED ∨ it.lock_mode_ = .EXLUCSIVE ∨ it.lock_mode_ = .S_IX) →
        r.outcome = .ret true ∧ r.lock_table (.TABLE fd) = some q) ∧
      (it.lock_mode_ = .INTENTION_SHARED →
        (q.group_lock_mode_ = .S ∨ q.group_lock_mode_ = .IS) →
        r.outcome = .ret true ∧
        r.lock_table (.TABLE fd) = some
          ⟨pre ++ { it with lock_mode_ := .SHARED } :: post, .S,
            q.shared_lock_num_ + 1, q.IX_lock_num_⟩) ∧
      (it.lock_mode_ = .INTENTION_EXCLUSIVE → q.IX_lock_num_ = 1 →
        r.outcome = .ret true ∧
        r.lock_table (.TABLE fd) = some
          ⟨pre ++ { it with lock_mode_ := .S_IX } :: post, .SIX,
            q.shared_lock_num_ + 1, 1⟩) ∧
      (it.lock_mode_ = .INTENTION_SHARED →
        ¬ (q.group_lock_mode_ = .S ∨ q.group_lock_mode_ = .IS) →
        r.outcome = .throw .DEADLOCK_PREVENTION) ∧
      (it.lock_mode_ = .INTENTION_EXCLUSIVE → q.IX_lock_num_ ≠ 1 →
        r.outcome = .throw .DEADLOCK_PREVENTION)) ∧
    (txn.txn_id_ ∉ queue_ids q.request_queue_ →
      (r.outcome = .throw .DEADLOCK_PREVENTION ↔
        (q.group_lock_mode_ = .IX ∨ q.group_lock_mode_ = .X ∨ q.group_lock_mode_ = .SIX)) ∧
      (¬ (q.group_lock_mode_ = .IX ∨ q.group_lock_mode_ = .X ∨ q.group_lock_mode_ = .SIX) →
        r.outcome = .ret true ∧
        r.lock_table (.TABLE fd) = some
          ⟨q.request_queue_ ++ [⟨txn.txn_id_, .SHARED, true⟩], .S,
            q.shared_lock_num_ + 1, q.IX_lock_num_⟩)) ∧
    (q = LockRequestQueue.empty →
      (lock_IS_on_table txn lt fd).outcome = .ret true ∧
      (lock_shared_on_table (lock_IS_on_table txn lt fd).txn
        (lock_IS_on_table txn lt fd).lock_table fd).outcome = .ret true ∧
      (lock_shared_on_table (lock_IS_on_table txn lt fd).txn
        (lock_IS_on_table txn lt fd).lock_table fd).lock_table (.TABLE fd) = some
          ⟨[⟨txn.txn_id_, .SHARED, true⟩], .S, 1, 0⟩) := by
  have hens := ensure_queue_at_eq lt (.TABLE fd)
  rw [← hq] at hens
  refine ⟨?_, ?_, ?_⟩
  · unfold lock_shared_on_table at hr
    rw [check_state_ok txn hst] at hr
    simp only [queue_at_ensure] at hr
    rw [← hq] at hr
    intro pre it post e hid hpre
    obtain ⟨hf, hset⟩ := find_request_of_split txn.txn_id_ pre post it hid hpre
    rw [← e] at hf hset
    rw [hf] at hr
    simp only [hset] at hr
    refine ⟨?_, ?_, ?_, ?_, ?_⟩
    · intro hm
      simp only [hm, if_true] at hr
      rw [hr]
      exact ⟨rfl, hens⟩
    · intro hm hg
      simp only [hm, hg, reduceCtorEq, false_or, or_false, or_self, if_false, true_and,
        if_true] at hr
      rw [hr]
      exact ⟨rfl, by simp only [Function.update_same]⟩
    · intro hm hn
      simp only [hm, hn, reduceCtorEq, false_or, or_false, or_self, if_false, true_and,
        false_and, and_self, if_true] at hr
      rw [hr]
      exact ⟨rfl, by simp only [Function.update_same]⟩
    · intro hm hg
      simp only [hm, hg, reduceCtorEq, false_or, or_false, or_self, if_false, true_and,
        false_and, and_false] at hr
      rw [hr]
    · intro hm hn
      simp only [hm, hn, reduceCtorEq, false_or, or_false, or_self, if_false, true_and,
        false_and, and_false] at hr
      rw [hr]
  · unfold lock_shared_on_table at hr
    rw [check_state_ok txn hst] at hr
    simp only [queue_at_ensure] at hr
    rw [← hq] at hr
    intro hnot
    have hf := (find_request_none_iff _ _).mpr hnot
    rw [hf] at hr
    simp only at hr
    by_cases hg : q.group_lock_mode_ = .IX ∨ q.group_lock_mode_ = .X ∨ q.group_lock_mode_ = .SIX
    · simp only [hg, if_true] at hr
      rw [hr]
      exact ⟨⟨fun _ => hg, fun _ => rfl⟩, fun h => absurd hg h⟩
    · simp only [hg, if_false] at hr
      rw [hr]
      refine ⟨⟨fun h => ?_, fun h => absurd h hg⟩, fun _ => ⟨rfl, ?_⟩⟩
      · simp at h
      · simp only [Function.update_same]
  · intro hqe
    have h1 : lock_IS_on_table txn lt fd =
        ⟨.ret true,
          { txn with
            state_ := .GROWING
            lock_set_ := lock_set_emplace txn.lock_set_ (.TABLE fd) },
          Function.update (ensure_queue lt (.TABLE fd)) (.TABLE fd)
            (some ⟨[⟨txn.txn_id_, .INTENTION_SHARED, true⟩], .IS, 0, 0⟩)⟩ := by
      unfold lock_IS_on_table
      rw [check_state_ok txn hst]
      simp only [queue_at_ensure]
      rw [← hq, hqe]
      simp [LockRequestQueue.empty, find_request]
    rw [h1]
    refine ⟨rfl, ?_⟩
    unfold lock_shared_on_table
    rw [check_state_ok _ (Or.inr rfl)]
    simp [queue_at, ensure_queue, find_request, set_mode]

/-- C11 (witness): transaction 1 holds IS on table 0 (group mode IS) and calls
lock_shared_on_table: its request becomes S, the group mode S, the S-count 1. -/
theorem C11_lock_shared_on_table_rule_witness :
    ((sys_IS.txns 1).state_ = .DEFAULT ∨ (sys_IS.txns 1).state_ = .GROWING) ∧
    queue_at sys_IS.lock_table (.TABLE 0) = ⟨[] ++ ⟨1, .INTENTION_SHARED, true⟩ :: [], .IS, 0, 0⟩ ∧
    (lock_shared_on_table (sys_IS.txns 1) sys_IS.lock_table 0).outcome = .ret true ∧
    (lock_shared_on_table (sys_IS.txns 1) sys_IS.lock_table 0).lock_table (.TABLE 0) =
      some ⟨[] ++ ⟨1, .SHARED, true⟩ :: [], .S, 0 + 1, 0⟩ :=
  ⟨Or.inr rfl, rfl,
    ((C11_lock_shared_on_table_rule (sys_IS.txns 1) sys_IS.lock_table 0
      (queue_at sys_IS.lock_table (.TABLE 0))
      (lock_shared_on_table (sys_IS.txns 1) sys_IS.lock_table 0) (Or.inr rfl) rfl rfl).1
      [] ⟨1, .INTENTION_SHARED, true⟩ [] rfl rfl (by simp [queue_ids])).2.1 rfl (Or.inr rfl)⟩

/-- C12: decision rule of lock_exclusive_on_table for a transaction in DEFAULT
or GROWING, with `q` the queue of the table (an empty queue when the table has
none) and `r` the result of the call.  (a) When the transaction has a request
`it` in the queue: mode X gives success with the queue unchanged; otherwise,
if the queue has exactly one request, that request is rewritten to X and the
group mode becomes X; otherwise deadlock-prevention is raised.  (b) When it
has no request: the call succeeds exactly when the group mode is NONE, and
then a granted X request is appended and the group mode becomes X; otherwise
it raises deadlock-prevention. -/
theorem C12_lock_exclusive_on_table_rule (txn : Transaction) (lt : LockTable) (fd : Int)
    (q : LockRequestQueue) (r : LockResult)
    (hst : txn.state_ = .DEFAULT ∨ txn.state_ = .GROWING)
    (hq : q = queue_at lt (.TABLE fd)) (hr : r = lock_exclusive_on_table txn lt fd) :
    (∀ pre it post, q.request_queue_ = pre ++ it :: post → it.txn_id_ = txn.txn_id_ →
      txn.txn_id_ ∉ queue_ids pre →
      (it.lock_mode_ = .EXLUCSIVE →
        r.outcome = .ret true ∧ r.lock_table (.TABLE fd) = some q) ∧
      (it.lock_mode_ ≠ .EXLUCSIVE → q.request_queue_.length = 1 →
        r.outcome = .ret true ∧
        r.lock_table (.TABLE fd) = some
          ⟨[{ it with lock_mode_ := .EXLUCSIVE }], .X, q.shared_lock_num_, q.IX_lock_num_⟩) ∧
      (it.lock_mode_ ≠ .EXLUCSIVE → q.request_queue_.length ≠ 1 →
        r.outcome = .throw .DEADLOCK_PREVENTION)) ∧
    (txn.txn_id_ ∉ queue_ids q.request_queue_ →
      (r.outcome = .ret true ↔ q.group_lock_mode_ = .NON_LOCK) ∧
      (q.group_lock_mode_ = .NON_LOCK →
        r.lock_table (.TABLE fd) = some
          ⟨q.request_queue_ ++ [⟨txn.txn_id_, .EXLUCSIVE, true⟩], .X,
            q.shared_lock_num_, q.IX_lock_num_⟩) ∧
      (q.group_lock_mode_ ≠ .NON_LOCK → r.outcome = .throw .DEADLOCK_PREVENTION)) := by
  have hens := ensure_queue_at_eq lt (.TABLE fd)
  rw [← hq] at hens
  unfold lock_exclusive_on_table at hr
  rw [check_state_ok txn hst] at hr
  simp only [queue_at_ensure] at hr
  rw [← hq] at hr
  refine ⟨?_, ?_⟩
  · intro pre it post e hid hpre
    obtain ⟨hf, hset⟩ := find_request_of_split txn.txn_id_ pre post it hid hpre
    rw [← e] at hf hset
    rw [hf] at hr
    simp only [hset] at hr
    refine ⟨?_, ?_, ?_⟩
    · intro hm
      simp only [hm, if_true] at hr
      rw [hr]
      exact ⟨rfl, hens⟩
    · intro hne hlen
      simp only [hne, hlen, if_false, if_true] at hr
      rw [hr]
      refine ⟨rfl, ?_⟩
      simp only [Function.update_same]
      have hl := hlen
      rw [e] at hl
      simp only [List.length_append, List.length_cons] at hl
      have hpre0 : pre = [] := List.length_eq_zero.mp (by omega)
      have hpost0 : post = [] := List.length_eq_zero.mp (by omega)
      rw [hpre0, hpost0]
      rfl
    · intro hne hlen
      simp only [hne, hlen, if_false] at hr
      rw [hr]
  · intro hnot
    have hf := (find_request_none_iff _ _).mpr hnot
    rw [hf] at hr
    simp only at hr
    by_cases hg : q.group_lock_mode_ = .NON_LOCK
    · simp only [hg, ne_eq, not_true_eq_false, if_false] at hr
      rw [hr]
      refine ⟨⟨fun _ => hg, fun _ => rfl⟩, fun _ => ?_, fun h => absurd hg h⟩
      simp only [Function.update_same]
    · simp only [ne_eq, hg, not_false_eq_true, if_true] at hr
      rw [hr]
      refine ⟨⟨fun h => ?_, fun h => absurd h hg⟩, fun h => absurd h hg, fun _ => rfl⟩
      simp at h

/-- C12 (witness): transaction 1 alone holds S on table 0 and calls
lock_exclusive_on_table: its request is rewritten to X and the group mode
becomes X. -/
theorem C12_lock_exclusive_on_table_rule_witness :
    ((sys_S.txns 1).state_ = .DEFAULT ∨ (sys_S.txns 1).state_ = .GROWING) ∧
    queue_at sys_S.lock_table (.TABLE 0) = ⟨[] ++ ⟨1, .SHARED, true⟩ :: [], .S, 1, 0⟩ ∧
    (lock_exclusive_on_table (sys_S.txns 1) sys_S.lock_table 0).outcome = .ret true ∧
    (lock_exclusive_on_table (sys_S.txns 1) sys_S.lock_table 0).lock_table (.TABLE 0) =
      some ⟨[⟨1, .EXLUCSIVE, true⟩], .X, 1, 0⟩ :=
  ⟨Or.inr rfl, rfl,
    ((C12_lock_exclusive_on_table_rule (sys_S.txns 1) sys_S.lock_table 0
      (queue_at sys_S.lock_table (.TABLE 0))
      (lock_exclusive_on_table (sys_S.txns 1) sys_S.lock_table 0) (Or.inr rfl) rfl rfl).1
      [] ⟨1, .SHARED, true⟩ [] rfl rfl (by simp [queue_ids])).2.1 (by decide) rfl⟩

/-- C13: decision rule of lock_exclusive_on_record for a transaction in
DEFAULT or GROWING, with `q` the queue of the record (an empty queue when the
record has none) and `r` the result of the call.  (a) When the transaction has
a request `it` in the queue: mode X gives success with the queue unchanged;
mode S while the queue has exactly one request rewrites it to X and sets the
group mode to X; every other case (S held while the queue has more than one
request, or a mode other than X and S) raises deadlock-prevention.  (b) When
it has no request: the call succeeds exactly when the group mode is NONE, and
then a granted X request is appended and the group mode becomes X; otherwise
it raises deadlock-prevention. -/
theorem C13_lock_exclusive_on_record_rule (txn : Transaction) (lt : LockTable) (rid : Rid) (fd : Int)
    (q : LockRequestQueue) (r : LockResult)
    (hst : txn.state_ = .DEFAULT ∨ txn.state_ = .GROWING)
    (hq : q = queue_at lt (.RECORD fd rid)) (hr : r = lock_exclusive_on_record txn lt rid fd) :
    (∀ pre it post, q.request_queue_ = pre ++ it :: post → it.txn_id_ = txn.txn_id_ →
      txn.txn_id_ ∉ queue_ids pre →
      (it.lock_mode_ = .EXLUCSIVE →
        r.outcome = .ret true ∧ r.lock_table (.RECORD fd rid) = some q) ∧
      (it.lock_mode_ = .SHARED → q.request_queue_.length = 1 →
        r.outcome = .ret true ∧
        r.lock_table (.RECORD fd rid) = some
          ⟨[{ it with lock_mode_ := .EXLUCSIVE }], .X, q.shared_lock_num_, q.IX_lock_num_⟩) ∧
      (it.lock_mode_ ≠ .EXLUCSIVE →
        ¬ (it.lock_mode_ = .SHARED ∧ q.request_queue_.length = 1) →
        r.outcome = .throw .DEADLOCK_PREVENTION)) ∧
    (txn.txn_id_ ∉ queue_ids q.request_queue_ →
      (r.outcome = .ret true ↔ q.group_lock_mode_ = .NON_LOCK) ∧
      (q.group_lock_mode_ = .NON_LOCK →
        r.lock_table (.RECORD fd rid) = some
          ⟨q.request_queue_ ++ [⟨txn.txn_id_, .EXLUCSIVE, true⟩], .X,
            q.shared_lock_num_, q.IX_lock_num_⟩) ∧
      (q.group_lock_mode_ ≠ .NON_LOCK → r.outcome = .throw .DEADLOCK_PREVENTION)) := by
  have hens := ensure_queue_at_eq lt (.RECORD fd rid)
  rw [← hq] at hens
  unfold lock_exclusive_on_record at hr
  rw [check_state_ok txn hst] at hr
  simp only [queue_at_ensure] at hr
  rw [← hq] at hr
  refine ⟨?_, ?_⟩
  · intro pre it post e hid hpre
    obtain ⟨hf, hset⟩ := find_request_of_split txn.txn_id_ pre post it hid hpre
    rw [← e] at hf hset
    rw [hf] at hr
    simp only [hset] at hr
    refine ⟨?_, ?_, ?_⟩
    · intro hm
      simp only [hm, if_true] at hr
      rw [hr]
      exact ⟨rfl, hens⟩
    · intro hm hlen
      simp only [hm, hlen, reduceCtorEq, if_false, and_self, if_true] at hr
      rw [hr]
      refine ⟨rfl, ?_⟩
      simp only [Function.update_same]
      have hl := hlen
      rw [e] at hl
      simp only [List.length_append, List.length_cons] at hl
      have hpre0 : pre = [] := List.length_eq_zero.mp (by omega)
      have hpost0 : post = [] := List.length_eq_zero.mp (by omega)
      rw [hpre0, hpost0]
      rfl
    · intro hne hnot
      simp only [hne, hnot, if_false] at hr
      rw [hr]
  · intro hnot
    have hf := (find_request_none_iff _ _).mpr hnot
    rw [hf] at hr
    simp only at hr
    by_cases hg : q.group_lock_mode_ = .NON_LOCK
    · simp only [hg, ne_eq, not_true_eq_false, if_false] at hr
      rw [hr]
      refine ⟨⟨fun _ => hg, fun _ => rfl⟩, fun _ => ?_, fun h => absurd hg h⟩
      simp only [Function.update_same]
    · simp only [ne_eq, hg, not_false_eq_true, if_true] at hr
      rw [hr]
      refine ⟨⟨fun h => ?_, fun h => absurd h hg⟩, fun h => absurd h hg, fun _ => rfl⟩
      simp at h

/-- C13 (witness): transaction 1 alone holds S on record (0, 0) of table 0 and
calls lock_exclusive_on_record: its request is rewritten to X and the group
mode becomes X. -/
theorem C13_lock_exclusive_on_record_rule_witness :
    ((sys_Srec.txns 1).state_ = .DEFAULT ∨ (sys_Srec.txns 1).state_ = .GROWING) ∧
    queue_at sys_Srec.lock_table (.RECORD 0 ⟨0, 0⟩) =
      ⟨[] ++ ⟨1, .SHARED, true⟩ :: [], .S, 1, 0⟩ ∧
    (lock_exclusive_on_record (sys_Srec.txns 1) sys_Srec.lock_table ⟨0, 0⟩ 0).outcome =
      .ret true ∧
    (lock_exclusive_on_record (sys_Srec.txns 1) sys_Srec.lock_table ⟨0, 0⟩ 0).lock_table
      (.RECORD 0 ⟨0, 0⟩) = some ⟨[⟨1, .EXLUCSIVE, true⟩], .X, 1, 0⟩ :=
  ⟨Or.inr rfl, rfl,
    ((C13_lock_exclusive_on_record_rule (sys_Srec.txns 1) sys_Srec.lock_table ⟨0, 0⟩ 0
      (queue_at sys_Srec.lock_table (.RECORD 0 ⟨0, 0⟩))
      (lock_exclusive_on_record (sys_Srec.txns 1) sys_Srec.lock_table ⟨0, 0⟩ 0) (Or.inr rfl)
      rfl rfl).1
      [] ⟨1, .SHARED, true⟩ [] rfl rfl (by simp [queue_ids])).2.1 rfl rfl⟩

/-- C14: for a transaction that is not in a terminal state and whose (first)
request `it` stands in the queue of resource `d`, unlock returns true, and
afterwards (i) the requests of `d` are the previous ones without `it`, in the
same order, (ii) the S-count is one less exactly when the removed mode was S
or SIX and the IX-count is one less exactly when it was IX or SIX, (iii) the
group mode of `d` is the strongest mode among the remaining requests, and
(iv) the queue of every other resource is unchanged. -/
theorem C14_effect_of_release (txn : Transaction) (lt : LockTable) (d : LockDataId)
    (q : LockRequestQueue) (pre post : List LockRequest) (it : LockRequest)
    (hst : txn.state_ ≠ .COMMITTED ∧ txn.state_ ≠ .ABORTED)
    (hq : lt d = some q) (e : q.request_queue_ = pre ++ it :: post)
    (hid : it.txn_id_ = txn.txn_id_) (hpre : txn.txn_id_ ∉ queue_ids pre) :
    (unlock txn lt d).outcome = .ret true ∧
    (unlock txn lt d).lock_table d = some
      { request_queue_ := pre ++ post
        group_lock_mode_ := strongest_mode (pre ++ post)
        shared_lock_num_ :=
          q.shared_lock_num_ -
            (if it.lock_mode_ = .SHARED ∨ it.lock_mode_ = .S_IX then 1 else 0)
        IX_lock_num_ :=
          q.IX_lock_num_ -
            (if it.lock_mode_ = .INTENTION_EXCLUSIVE ∨ it.lock_mode_ = .S_IX then 1 else 0) } ∧
    (∀ d1, d1 ≠ d → (unlock txn lt d).lock_table d1 = lt d1) := by
  obtain ⟨hf, _⟩ := find_request_of_split txn.txn_id_ pre post it hid hpre
  rw [← e] at hf
  obtain ⟨ho, _, hc⟩ := unlock_shape txn lt d hst
  refine ⟨ho, ?_⟩
  rcases hc with ⟨_, hn | ⟨q0, hq0, hf0⟩⟩ | ⟨q0, it0, hq0, hf0, hlt⟩
  · rw [hn] at hq
    simp at hq
  · rw [hq] at hq0
    simp only [Option.some.injEq] at hq0
    subst hq0
    rw [hf] at hf0
    simp at hf0
  · rw [hq] at hq0
    simp only [Option.some.injEq] at hq0
    subst hq0
    rw [hf] at hf0
    simp only [Option.some.injEq] at hf0
    subst hf0
    rw [hlt]
    constructor
    · simp only [Function.update_same, Option.some.injEq]
      have herase : erase_request txn.txn_id_ q.request_queue_ = pre ++ post := by
        rw [e]
        exact erase_request_of_split txn.txn_id_ pre post it hid hpre
      rw [herase, recompute_group_eq]
      congr 1
      · split <;> simp
      · split <;> simp
    · intro d1 hd1
      rw [Function.update_noteq hd1]

/-- C14 (witness): transactions 1 and 2 hold S on table 0 and transaction 1
unlocks it: the request of transaction 2 remains, the group mode is S and the
S-count is 1. -/
theorem C14_effect_of_release_witness :
    ((sys_SS.txns 1).state_ ≠ .COMMITTED ∧ (sys_SS.txns 1).state_ ≠ .ABORTED) ∧
    sys_SS.lock_table (.TABLE 0) =
      some ⟨[] ++ ⟨1, .SHARED, true⟩ :: [⟨2, .SHARED, true⟩], .S, 2, 0⟩ ∧
    (unlock (sys_SS.txns 1) sys_SS.lock_table (.TABLE 0)).outcome = .ret true ∧
    (unlock (sys_SS.txns 1) sys_SS.lock_table (.TABLE 0)).lock_table (.TABLE 0) = some
      { request_queue_ := [] ++ [⟨2, .SHARED, true⟩]
        group_lock_mode_ := strongest_mode ([] ++ [⟨2, .SHARED, true⟩])
        shared_lock_num_ := 2 - (if LockMode.SHARED = .SHARED ∨ LockMode.SHARED = .S_IX then 1 else 0)
        IX_lock_num_ :=
          0 - (if LockMode.SHARED = .INTENTION_EXCLUSIVE ∨ LockMode.SHARED = .S_IX then 1 else 0) } :=
  ⟨by decide, rfl,
    (C14_effect_of_release (sys_SS.txns 1) sys_SS.lock_table (.TABLE 0)
      ⟨[⟨1, .SHARED, true⟩, ⟨2, .SHARED, true⟩], .S, 2, 0⟩ [] [⟨2, .SHARED, true⟩]
      ⟨1, .SHARED, true⟩ (by decide) rfl rfl rfl (by simp [queue_ids])).1,
    (C14_effect_of_release (sys_SS.txns 1) sys_SS.lock_table (.TABLE 0)
      ⟨[⟨1, .SHARED, true⟩, ⟨2, .SHARED, true⟩], .S, 2, 0⟩ [] [⟨2, .SHARED, true⟩]
      ⟨1, .SHARED, true⟩ (by decide) rfl rfl rfl (by simp [queue_ids])).2.1⟩

/-- C15 (counterexample): transaction 1 is GROWING after taking S on table 0
and unlocks table 5, which is absent from the lock table; unlock returns true
and leaves the lock table alone, but the transaction is now SHRINKING. -/
theorem C15_unlock_of_absent_changes_state :
    (sys_S.txns 1).state_ = .GROWING ∧
    sys_S.lock_table (.TABLE 5) = none ∧
    (unlock (sys_S.txns 1) sys_S.lock_table (.TABLE 5)).outcome = .ret true ∧
    (unlock (sys_S.txns 1) sys_S.lock_table (.TABLE 5)).txn.state_ = .SHRINKING ∧
    (unlock (sys_S.txns 1) sys_S.lock_table (.TABLE 5)).txn ≠ sys_S.txns 1 :=
  ⟨rfl, rfl, rfl, rfl, by decide⟩

/-- C15 (amended): for a transaction in DEFAULT, GROWING or SHRINKING, if the
lock id is absent from the lock table or its queue holds no request of the
transaction, unlock returns true and leaves the lock table as it is; the
transaction keeps its id, lock-set and write-set, a GROWING transaction
becomes SHRINKING, and a transaction in DEFAULT or SHRINKING is unchanged. -/
theorem C15_release_of_not_held (txn : Transaction) (lt : LockTable) (d : LockDataId)
    (hst : txn.state_ = .DEFAULT ∨ txn.state_ = .GROWING ∨ txn.state_ = .SHRINKING)
    (habs : lt d = none ∨ ∃ q, lt d = some q ∧ txn.txn_id_ ∉ queue_ids q.request_queue_) :
    (unlock txn lt d).outcome = .ret true ∧
    (unlock txn lt d).lock_table = lt ∧
    (unlock txn lt d).txn =
      { txn with state_ := if txn.state_ = .GROWING then .SHRINKING else txn.state_ } ∧
    (txn.state_ ≠ .GROWING → (unlock txn lt d).txn = txn) := by
  have hnt : txn.state_ ≠ .COMMITTED ∧ txn.state_ ≠ .ABORTED := by
    rcases hst with h | h | h <;> rw [h] <;> simp
  obtain ⟨ho, ht, hc⟩ := unlock_shape txn lt d hnt
  have hlt : (unlock txn lt d).lock_table = lt := by
    rcases hc with ⟨h, _⟩ | ⟨q0, it0, hq0, hf0, _⟩
    · exact h
    · exfalso
      rcases habs with hn | ⟨q, hq, hnot⟩
      · rw [hn] at hq0
        simp at hq0
      · rw [hq] at hq0
        simp only [Option.some.injEq] at hq0
        subst hq0
        rw [(find_request_none_iff _ _).mpr hnot] at hf0
        simp at hf0
  refine ⟨ho, hlt, ht, ?_⟩
  intro hng
  rw [ht]
  simp only [hng, if_false]

/-- C15 (witness): the fresh transaction 2 (DEFAULT) unlocks table 0, whose
queue holds only the request of transaction 1: nothing changes. -/
theorem C15_release_of_not_held_witness :
    ((sys_S.txns 2).state_ = .DEFAULT ∨ (sys_S.txns 2).state_ = .GROWING ∨
      (sys_S.txns 2).state_ = .SHRINKING) ∧
    (unlock (sys_S.txns 2) sys_S.lock_table (.TABLE 0)).outcome = .ret true ∧
    (unlock (sys_S.txns 2) sys_S.lock_table (.TABLE 0)).lock_table = sys_S.lock_table ∧
    (unlock (sys_S.txns 2) sys_S.lock_table (.TABLE 0)).txn = sys_S.txns 2 :=
  ⟨Or.inl rfl,
    (C15_release_of_not_held (sys_S.txns 2) sys_S.lock_table (.TABLE 0) (Or.inl rfl)
      (Or.inr ⟨⟨[⟨1, .SHARED, true⟩], .S, 1, 0⟩, rfl, by decide⟩)).1,
    (C15_release_of_not_held (sys_S.txns 2) sys_S.lock_table (.TABLE 0) (Or.inl rfl)
      (Or.inr ⟨⟨[⟨1, .SHARED, true⟩], .S, 1, 0⟩, rfl, by decide⟩)).2.1,
    (C15_release_of_not_held (sys_S.txns 2) sys_S.lock_table (.TABLE 0) (Or.inl rfl)
      (Or.inr ⟨⟨[⟨1, .SHARED, true⟩], .S, 1, 0⟩, rfl, by decide⟩)).2.2.2 (by decide)⟩

/-- C16: for a transaction in any state, after commit its write-set is empty,
its lock-set is empty and its state is COMMITTED; when no collaborator throws
during the rollback, abort returns and afterwards the write-set is empty, the
lock-set is empty and the state is ABORTED. -/
theorem C16_terminal_postcondition {σ : Type} (c : Collab σ) (st st1 : σ) (txn : Transaction)
    (lt : LockTable) (hroll : rollback c txn.write_set_.reverse st = some st1) :
    ((commit txn lt).1.write_set_ = [] ∧ (commit txn lt).1.lock_set_ = [] ∧
      (commit txn lt).1.state_ = .COMMITTED) ∧
    ∃ txn1 lt1, abort c st txn lt = some (st1, txn1, lt1) ∧
      txn1.write_set_ = [] ∧ txn1.lock_set_ = [] ∧ txn1.state_ = .ABORTED := by
  obtain ⟨_, h2, h3, h4⟩ := commit_frame txn lt
  refine ⟨⟨h4, h2, h3⟩, ?_⟩
  have hab : ∃ txn1 lt1, abort c st txn lt = some (st1, txn1, lt1) := by
    unfold abort
    rw [hroll]
    exact ⟨_, _, rfl⟩
  obtain ⟨txn1, lt1, e⟩ := hab
  obtain ⟨_, f2, f3, f4, _⟩ := abort_frame c _ _ _ _ _ _ e
  exact ⟨txn1, lt1, e, f4, f2, f3⟩

/-- C16 (witness): the transaction that inserted the row `[7]` into table `t`
commits, or aborts with a rollback that returns. -/
theorem C16_terminal_postcondition_witness :
    (∃ st1, rollback (map_collab first_free) txn_insert.write_set_.reverse store_row = some st1) ∧
    ((commit txn_insert LockTable.empty).1.write_set_ = [] ∧
      (commit txn_insert LockTable.empty).1.lock_set_ = [] ∧
      (commit txn_insert LockTable.empty).1.state_ = .COMMITTED) ∧
    ∃ st1 txn1 lt1,
      abort (map_collab first_free) store_row txn_insert LockTable.empty = some (st1, txn1, lt1) ∧
      txn1.write_set_ = [] ∧ txn1.lock_set_ = [] ∧ txn1.state_ = .ABORTED :=
  ⟨⟨_, rfl⟩,
    (C16_terminal_postcondition (map_collab first_free) store_row _ txn_insert LockTable.empty
      rfl).1,
    ⟨_, (C16_terminal_postcondition (map_collab first_free) store_row _ txn_insert
      LockTable.empty rfl).2⟩⟩

/-- C17: abort replays the write-set in strict LIFO order.  Run on
collaborators that log every mutating call, abort on a write-set
`[w1, ..., wn]` returns exactly when the spec-side replay does, reaches the
same store, and its log is the concatenation inverse(wn), ..., inverse(w1) of
`replay_spec` (`inverse_ops` spells out the three inverses); logging does not
change what abort does. -/
theorem C17_abort_replays_write_set_LIFO {σ : Type} (c : Collab σ) (st : σ)
    (txn : Transaction) (lt : LockTable) :
    (abort (traced c) (st, []) txn lt).map (fun r => r.1) = replay_spec c txn.write_set_ st ∧
    (abort (traced c) (st, []) txn lt).map (fun r => (r.1.1, r.2)) = abort c st txn lt := by
  constructor
  · unfold abort replay_spec
    rw [traced_rollback]
    cases replay_newest_first c txn.write_set_.reverse st with
    | none => rfl
    | some p =>
      obtain ⟨st1, ops⟩ := p
      simp
  · unfold abort
    rw [← traced_rollback_fst c txn.write_set_.reverse st []]
    cases rollback (traced c) txn.write_set_.reverse (st, []) with
    | none => rfl
    | some p => rfl

/-- C18: over the store of maps, for a transaction whose write-set is the
single entry INSERT(t, rid), where row R is stored at rid and every index of t
holds the entry key(R) -> rid: abort returns, and afterwards the heap has no
record at rid, no index of t holds the key built from R, the state of the
transaction is ABORTED and its lock-set is empty. -/
theorem C18_abort_undoes_insert (alloc : (Rid → Option Bytes) → Rid) (s : MapStore)
    (txn : Transaction) (lt : LockTable) (t : String) (rid : Rid) (R pre : Bytes)
    (tab : TabMeta)
    (hws : txn.write_set_ = [⟨.INSERT_TUPLE, t, rid, pre⟩])
    (htab : s.tables t = some tab) (hrow : s.heap t rid = some R)
    (hkeys : ∀ ix ∈ tab.indexes, ∃ k, build_key ix R = some k ∧ s.index t ix.cols k = some rid) :
    ∃ s1 txn1 lt1, abort (map_collab alloc) s txn lt = some (s1, txn1, lt1) ∧
      s1.heap t rid = none ∧
      (∀ ix ∈ tab.indexes, ∀ k, build_key ix R = some k → s1.index t ix.cols k = none) ∧
      txn1.state_ = .ABORTED ∧ txn1.lock_set_ = [] := by
  obtain ⟨s1, h1, h2, _, _, h5⟩ := map_delete_index_entries alloc t R tab.indexes s
    (fun ix h => (hkeys ix h).imp fun _ hk => hk.1)
  have hroll : rollback (map_collab alloc) txn.write_set_.reverse s =
      some (s1.set_record t rid none) := by
    rw [hws]
    simp only [List.reverse_cons, List.reverse_nil, List.nil_append, rollback, undo_write]
    have hgt : (map_collab alloc).get_table s t = some tab := htab
    have hgr : (map_collab alloc).get_record s t rid = some R := hrow
    rw [hgt, hgr]
    simp only [h1]
    rfl
  have hab : ∃ txn1 lt1, abort (map_collab alloc) s txn lt =
      some (s1.set_record t rid none, txn1, lt1) := by
    unfold abort
    rw [hroll]
    exact ⟨_, _, rfl⟩
  obtain ⟨txn1, lt1, e⟩ := hab
  obtain ⟨_, f2, f3, _, _⟩ := abort_frame _ _ _ _ _ _ _ e
  refine ⟨_, txn1, lt1, e, ?_, ?_, f3, f2⟩
  · simp [MapStore.set_record]
  · intro ix hix k hk
    exact h5 ix hix k hk

/-- C18 (witness): the transaction that inserted the row `[7]` at slot 0 of
table `t` aborts: the slot is empty again and the index on column `a` has no
entry for the key `[7]`. -/
theorem C18_abort_undoes_insert_witness :
    txn_insert.write_set_ = [⟨.INSERT_TUPLE, "t", ⟨0, 0⟩, []⟩] ∧
    store_row.tables "t" = some tab_t ∧ store_row.heap "t" ⟨0, 0⟩ = some [7] ∧
    (∀ ix ∈ tab_t.indexes,
      ∃ k, build_key ix [7] = some k ∧ store_row.index "t" ix.cols k = some ⟨0, 0⟩) ∧
    ∃ s1 txn1 lt1, abort (map_collab first_free) store_row txn_insert LockTable.empty =
        some (s1, txn1, lt1) ∧
      s1.heap "t" ⟨0, 0⟩ = none ∧
      (∀ ix ∈ tab_t.indexes, ∀ k, build_key ix [7] = some k → s1.index "t" ix.cols k = none) ∧
      txn1.state_ = .ABORTED ∧ txn1.lock_set_ = [] :=
  have hk : ∀ ix ∈ tab_t.indexes,
      ∃ k, build_key ix [7] = some k ∧ store_row.index "t" ix.cols k = some ⟨0, 0⟩ := by
    intro ix hix
    simp only [tab_t, List.mem_singleton] at hix
    subst hix
    exact ⟨[7], rfl, rfl⟩
  ⟨rfl, rfl, rfl, hk,
    C18_abort_undoes_insert first_free store_row txn_insert LockTable.empty "t" ⟨0, 0⟩ [7] []
      tab_t rfl rfl rfl hk⟩

/-- C19 (the code departs from the claim): in the snapshot the row `[7]` of
table `t` stands at slot 1 and slot 0 is free.  A transaction updates the row
to `[8]` and then deletes it, and aborts.  Undoing the delete re-inserts `[8]`
at the first free slot, slot 0; undoing the update then reads slot 1, where no
record stands, so abort throws.  The heap is left with `[8]` at slot 0 and the
index with the key `[8]`, not with the row `[7]` of the snapshot. -/
theorem C19_abort_reads_stale_rid_after_reinsert :
    store_snapshot.heap "t" ⟨0, 1⟩ = some [7] ∧ store_snapshot.heap "t" ⟨0, 0⟩ = none ∧
    store_snapshot.index "t" [col_a] [7] = some ⟨0, 1⟩ ∧
    (undo_write (map_collab first_free) store_deleted ⟨.DELETE_TUPLE, "t", ⟨0, 1⟩, [8]⟩).map
        (fun s => (s.heap "t" ⟨0, 0⟩, s.heap "t" ⟨0, 1⟩, s.index "t" [col_a] [8],
          s.index "t" [col_a] [7])) =
      some (some [8], none, some ⟨0, 0⟩, none) ∧
    ((undo_write (map_collab first_free) store_deleted ⟨.DELETE_TUPLE, "t", ⟨0, 1⟩, [8]⟩).bind
        (fun s => undo_write (map_collab first_free) s ⟨.UPDATE_TUPLE, "t", ⟨0, 1⟩, [7]⟩)).isNone
      = true ∧
    (abort (map_collab first_free) store_deleted ⟨1, .GROWING, [], write_set_update_delete⟩
      LockTable.empty).isNone = true :=
  ⟨rfl, rfl, rfl, rfl, rfl, rfl⟩

/-- C20: `begin(null)` returns a fresh transaction whose id is the current
value of `next_txn_id_` and registers it in `txn_map` under its id;
`begin(txn)` returns the same transaction (state unchanged), registers it
under its id and leaves the counter alone.  The counter is a `txn_id_t` and
wraps: below the largest value `begin(null)` increments it by one, and while
it stays below, a transaction created by `begin(null)` after any further
`begin` calls has a strictly larger id than one created before.  But the
manager that starts at 0 reaches the largest value after 2147483647 calls
`begin(null)`; the next two calls hand out 2147483647 and then -2147483648, so
the later transaction has the smaller id and the counter was not incremented
by one; and the transaction created 4294967296 calls after the first one has
the id of the first one. -/
theorem C20_begin_id_counter_wraps :
    (∀ tm : TransactionManager,
      ((begin tm none).1 = Transaction.fresh tm.next_txn_id_ ∧
        (begin tm none).1.txn_id_ = tm.next_txn_id_ ∧
        (begin tm none).2.next_txn_id_ = txn_id_wrap (tm.next_txn_id_ + 1) ∧
        (begin tm none).2.txn_map tm.next_txn_id_ = some (begin tm none).1 ∧
        ∀ id, id ≠ tm.next_txn_id_ → (begin tm none).2.txn_map id = tm.txn_map id) ∧
      (∀ t : Transaction,
        (begin tm (some t)).1 = t ∧
        (begin tm (some t)).2.next_txn_id_ = tm.next_txn_id_ ∧
        (begin tm (some t)).2.txn_map t.txn_id_ = some t ∧
        ∀ id, id ≠ t.txn_id_ → (begin tm (some t)).2.txn_map id = tm.txn_map id) ∧
      (-2147483648 ≤ tm.next_txn_id_ → tm.next_txn_id_ < 2147483647 →
        (begin tm none).2.next_txn_id_ = tm.next_txn_id_ + 1) ∧
      (∀ calls : List (Option Transaction), -2147483648 ≤ tm.next_txn_id_ →
        tm.next_txn_id_ + 1 + calls.length < 2147483648 →
        (begin tm none).1.txn_id_ <
          (begin (begin_all (begin tm none).2 calls) none).1.txn_id_)) ∧
    (begin_all tm_init (List.replicate 2147483647 none)).next_txn_id_ = 2147483647 ∧
    (begin (begin_all tm_init (List.replicate 2147483647 none)) none).1.txn_id_ =
      2147483647 ∧
    (begin (begin_all tm_init (List.replicate 2147483647 none)) none).2.next_txn_id_ =
      -2147483648 ∧
    (begin (begin (begin_all tm_init (List.replicate 2147483647 none)) none).2 none).1.txn_id_ =
      -2147483648 ∧
    (begin (begin (begin_all tm_init (List.replicate 2147483647 none)) none).2 none).1.txn_id_ <
      (begin (begin_all tm_init (List.replicate 2147483647 none)) none).1.txn_id_ ∧
    (begin (begin_all (begin tm_init none).2 (List.replicate 4294967295 none)) none).1.txn_id_ =
      (begin tm_init none).1.txn_id_ := by
  have hmax : (begin_all tm_init (List.replicate 2147483647 none)).next_txn_id_ =
      2147483647 := by
    rw [begin_all_replicate, if_neg (by norm_num)]
    simp only [tm_init, txn_id_wrap]
    norm_num
  have hid : ∀ tm : TransactionManager, (begin tm none).1.txn_id_ = tm.next_txn_id_ :=
    fun _ => rfl
  have hnext : ∀ tm : TransactionManager,
      (begin tm none).2.next_txn_id_ = txn_id_wrap (tm.next_txn_id_ + 1) := fun _ => rfl
  have hmin : (begin (begin_all tm_init (List.replicate 2147483647 none)) none).2.next_txn_id_ =
      -2147483648 := by
    rw [hnext, hmax]
    simp only [txn_id_wrap]
    norm_num
  refine ⟨?_, hmax, ?_, hmin, ?_, ?_, ?_⟩
  · intro tm
    refine ⟨⟨rfl, rfl, rfl, ?_, ?_⟩, ?_, ?_, ?_⟩
    · simp [begin, Transaction.fresh]
    · intro id hid1
      simp [begin, Transaction.fresh, Function.update_noteq hid1]
    · intro t
      refine ⟨rfl, rfl, ?_, ?_⟩
      · simp [begin]
      · intro id hid1
        simp [begin, Function.update_noteq hid1]
    · intro h1 h2
      rw [hnext]
      exact txn_id_wrap_of_range _ (by omega) (by omega)
    · intro calls h1 h2
      have e : (begin tm none).2.next_txn_id_ = tm.next_txn_id_ + 1 := by
        rw [hnext]
        exact txn_id_wrap_of_range _ (by omega) (by omega)
      have h := begin_all_next_le calls (begin tm none).2 (by rw [e]; omega) (by rw [e]; omega)
      rw [hid, hid]
      rw [e] at h
      omega
  · rw [hid, hmax]
  · rw [hid, hmin]
  · rw [hid, hid, hmin, hmax]
    norm_num
  · rw [hid, hid, begin_all_replicate, if_neg (by norm_num), hnext]
    simp only [tm_init, txn_id_wrap]
    norm_num

/-- C21: for an index of the catalog (its `col_num` is the number of its
columns and its `col_tot_len` their total length) and a record that holds
every indexed column, the key that abort builds is the concatenation, in
declared column order, of the record bytes `[offset, offset + len)` of the
columns; its length is the sum of the column lengths, which is `col_tot_len`;
and this key is what the loops of abort pass to `delete_entry` and to
`insert_entry` of the index handle.  For any index metadata, a key that is
built at all is that concatenation over the first `col_num` columns and has
the sum of their lengths as length. -/
theorem C21_index_key_reconstruction (index : IndexMeta) (data : Bytes)
    (hnum : index.col_num = index.cols.length)
    (htot : index.col_tot_len = cols_len index.cols)
    (hin : ∀ col ∈ index.cols, col.offset + col.len ≤ data.length) :
    build_key index data = some (spec_key data index.cols) ∧
    (spec_key data index.cols).length = cols_len index.cols ∧
    cols_len index.cols = index.col_tot_len ∧
    (∀ (σ : Type) (c : Collab σ) (t : String) (rest : List IndexMeta) (st : σ),
      delete_index_entries c t data (index :: rest) st =
        match c.delete_entry st t index.cols (spec_key data index.cols) with
        | none => none
        | some st1 => delete_index_entries c t data rest st1) ∧
    (∀ (σ : Type) (c : Collab σ) (t : String) (rid : Rid) (rest : List IndexMeta) (st : σ),
      insert_index_entries c t data rid (index :: rest) st =
        match c.insert_entry st t index.cols (spec_key data index.cols) rid with
        | none => none
        | some st1 => insert_index_entries c t data rid rest st1) ∧
    (∀ (index1 : IndexMeta) (key : Bytes), build_key index1 data = some key →
      key = spec_key data (index1.cols.take index1.col_num) ∧
      key.length = cols_len (index1.cols.take index1.col_num) ∧
      key.length ≤ index1.col_tot_len) := by
  have hb : build_key index data = some (spec_key data index.cols) := by
    unfold build_key
    rw [List.range_eq_range']
    have h := build_key_from_some index data index.col_num 0 []
      (by omega)
      (by
        rw [List.drop_zero, hnum, List.take_length]
        exact hin)
      (by
        rw [List.drop_zero, hnum, List.take_length, htot]
        simp)
    rw [h, List.drop_zero, hnum, List.take_length]
    simp
  refine ⟨hb, spec_key_length data index.cols hin, htot.symm, ?_, ?_, ?_⟩
  · intro σ c t rest st
    simp only [delete_index_entries, hb]
  · intro σ c t rid rest st
    simp only [insert_index_entries, hb]
  · intro index1 key hk
    unfold build_key at hk
    rw [List.range_eq_range'] at hk
    obtain ⟨e, _, hin1, hlen⟩ := build_key_from_range index1 data index1.col_num 0 [] key hk
    rw [List.drop_zero] at e hin1
    simp only [List.nil_append] at e
    refine ⟨e, ?_, ?_⟩
    · rw [e]
      exact spec_key_length data _ hin1
    · simpa using hlen

/-- C21 (witness): for the index on the one-byte column at offset 0, the key
of the record with the byte 7 is that byte. -/
theorem C21_index_key_reconstruction_witness :
    index_a.col_num = index_a.cols.length ∧
    index_a.col_tot_len = cols_len index_a.cols ∧
    build_key index_a [7] = some [7] ∧
    spec_key [7] index_a.cols = [7] :=
  ⟨rfl, rfl,
    (C21_index_key_reconstruction index_a [7] rfl rfl (by decide)).1.trans rfl, rfl⟩

/-- C22: in every reachable state, any two requests of one queue that belong
to different transactions have compatible modes, where the compatible pairs
are exactly: IS with IS, IX, S and SIX; IX with IS and IX; S with IS and S;
SIX with IS; X with nothing. -/
theorem C22_lock_compatibility {σ : Type} (c : Collab σ) (s : Sys σ) (hr : Reachable c s)
    (d : LockDataId) (q : LockRequestQueue) (hq : s.lock_table d = some q)
    (a b : LockRequest) (ha : a ∈ q.request_queue_) (hb : b ∈ q.request_queue_)
    (hne : a.txn_id_ ≠ b.txn_id_) :
    compatible a.lock_mode_ b.lock_mode_ = true ∧
    (∀ m1 m2 : LockMode, compatible m1 m2 = true ↔
      (m1 = .INTENTION_SHARED ∧ (m2 = .INTENTION_SHARED ∨ m2 = .INTENTION_EXCLUSIVE ∨
          m2 = .SHARED ∨ m2 = .S_IX)) ∨
      (m1 = .INTENTION_EXCLUSIVE ∧ (m2 = .INTENTION_SHARED ∨ m2 = .INTENTION_EXCLUSIVE)) ∨
      (m1 = .SHARED ∧ (m2 = .INTENTION_SHARED ∨ m2 = .SHARED)) ∨
      (m1 = .S_IX ∧ m2 = .INTENTION_SHARED)) := by
  constructor
  · apply (Reachable_inv c s hr d q hq).compat_of_ne a ha b hb
    intro e
    exact hne (by rw [e])
  · intro m1 m2
    cases m1 <;> cases m2 <;> simp [compatible]

/-- C22 (witness): after transactions 1 and 2 both took S on table 0, the two
requests in the queue of table 0 are compatible. -/
theorem C22_lock_compatibility_witness :
    Reachable no_store sys_SS ∧
    sys_SS.lock_table (.TABLE 0) =
      some ⟨[⟨1, .SHARED, true⟩, ⟨2, .SHARED, true⟩], .S, 2, 0⟩ ∧
    compatible LockMode.SHARED LockMode.SHARED = true :=
  ⟨sys_SS_reach, rfl,
    (C22_lock_compatibility no_store sys_SS sys_SS_reach (.TABLE 0)
      ⟨[⟨1, .SHARED, true⟩, ⟨2, .SHARED, true⟩], .S, 2, 0⟩ rfl
      ⟨1, .SHARED, true⟩ ⟨2, .SHARED, true⟩ (by simp) (by simp) (by decide)).1⟩

/-- C23: in every reachable state, for every queue, the S-count is at least
the number of S and SIX requests and the IX-count is at least the number of IX
and SIX requests; both counts are at least zero, also in the table that any
unlock or acquire call produces from the state, so no decrement goes below
zero; and when the S-count (IX-count) is 1 and a request of the queue is S or
SIX (IX or SIX), no request of another transaction is in that class. -/
theorem C23_counters_never_under_count {σ : Type} (c : Collab σ) (s : Sys σ)
    (hr : Reachable c s) (d : LockDataId) (q : LockRequestQueue)
    (hq : s.lock_table d = some q) :
    (S_holders q.request_queue_ : Int) ≤ q.shared_lock_num_ ∧
    (IX_holders q.request_queue_ : Int) ≤ q.IX_lock_num_ ∧
    0 ≤ q.shared_lock_num_ ∧ 0 ≤ q.IX_lock_num_ ∧
    (∀ (txn : Transaction) (d1 d2 : LockDataId) (q1 : LockRequestQueue),
      (unlock txn s.lock_table d1).lock_table d2 = some q1 →
        0 ≤ q1.shared_lock_num_ ∧ 0 ≤ q1.IX_lock_num_) ∧
    (∀ (op : LockOp) (txn : Transaction) (d2 : LockDataId) (q1 : LockRequestQueue),
      (acquire op txn s.lock_table).lock_table d2 = some q1 →
        0 ≤ q1.shared_lock_num_ ∧ 0 ≤ q1.IX_lock_num_) ∧
    (∀ it ∈ q.request_queue_, (it.lock_mode_ = .SHARED ∨ it.lock_mode_ = .S_IX) →
      q.shared_lock_num_ = 1 →
      ∀ r ∈ q.request_queue_, r.txn_id_ ≠ it.txn_id_ →
        ¬ (r.lock_mode_ = .SHARED ∨ r.lock_mode_ = .S_IX)) ∧
    (∀ it ∈ q.request_queue_,
      (it.lock_mode_ = .INTENTION_EXCLUSIVE ∨ it.lock_mode_ = .S_IX) →
      q.IX_lock_num_ = 1 →
      ∀ r ∈ q.request_queue_, r.txn_id_ ≠ it.txn_id_ →
        ¬ (r.lock_mode_ = .INTENTION_EXCLUSIVE ∨ r.lock_mode_ = .S_IX)) := by
  have hinv := Reachable_inv c s hr
  have hqi := hinv d q hq
  have nonneg : ∀ q1 : LockRequestQueue, QueueInv q1 →
      0 ≤ q1.shared_lock_num_ ∧ 0 ≤ q1.IX_lock_num_ := by
    intro q1 h1
    have h2 := h1.s_count
    have h3 := h1.ix_count
    constructor <;> omega
  refine ⟨hqi.s_count, hqi.ix_count, (nonneg q hqi).1, (nonneg q hqi).2, ?_, ?_, ?_, ?_⟩
  · intro txn d1 d2 q1 h1
    exact nonneg q1 (unlock_inv txn s.lock_table d1 hinv d2 q1 h1)
  · intro op txn d2 q1 h1
    exact nonneg q1 (acquire_inv op txn s.lock_table hinv d2 q1 h1)
  · intro it hit hm hsn
    exact others_not_S hqi (find_request_of_mem hqi.nodup hit) hm hsn
  · intro it hit hm hixn
    exact others_not_IX hqi (find_request_of_mem hqi.nodup hit) hm hixn

/-- C23 (witness): after transaction 1 took S on table 0, the queue of table 0
has one S request and S-count 1. -/
theorem C23_counters_never_under_count_witness :
    Reachable no_store sys_S ∧
    sys_S.lock_table (.TABLE 0) = some ⟨[⟨1, .SHARED, true⟩], .S, 1, 0⟩ ∧
    (S_holders [⟨1, .SHARED, true⟩] : Int) ≤ 1 :=
  ⟨sys_S_reach, rfl,
    (C23_counters_never_under_count no_store sys_S sys_S_reach (.TABLE 0)
      ⟨[⟨1, .SHARED, true⟩], .S, 1, 0⟩ rfl).1⟩

/-- C24: in every reachable state, when a transaction in state DEFAULT or
GROWING that has no request in the queue of the resource of an acquire call
makes the call and it succeeds, and then calls unlock on the resource, the
queue of the resource (an absent queue counting as the empty queue) is again
what it was before the acquire: the same requests, group mode, S-count and
IX-count; every other resource keeps its entry in the lock table. -/
theorem C24_acquire_unlock_round_trip {σ : Type} (c : Collab σ) (s : Sys σ)
    (hr : Reachable c s) (op : LockOp) (txn : Transaction)
    (hst : txn.state_ = .DEFAULT ∨ txn.state_ = .GROWING)
    (hfresh : txn.txn_id_ ∉ queue_ids (queue_at s.lock_table op.target).request_queue_)
    (hok : (acquire op txn s.lock_table).outcome = .ret true) :
    queue_at (unlock (acquire op txn s.lock_table).txn
      (acquire op txn s.lock_table).lock_table op.target).lock_table op.target =
      queue_at s.lock_table op.target ∧
    ∀ d1, d1 ≠ op.target →
      (unlock (acquire op txn s.lock_table).txn
        (acquire op txn s.lock_table).lock_table op.target).lock_table d1 =
        s.lock_table d1 := by
  have hinv := Reachable_inv c s hr
  have hqi := QueueInv_queue_at hinv op.target
  have hfind := (find_request_none_iff _ _).mpr hfresh
  obtain ⟨g, hlt, htx⟩ := acquire_fresh op txn s.lock_table hst hfind hok
  have hne : (acquire op txn s.lock_table).txn.state_ ≠ .COMMITTED ∧
      (acquire op txn s.lock_table).txn.state_ ≠ .ABORTED := by
    rw [htx]
    exact ⟨by simp, by simp⟩
  have hid : (acquire op txn s.lock_table).txn.txn_id_ = txn.txn_id_ := by rw [htx]
  have hat := congrFun hlt op.target
  rw [Function.update_same] at hat
  have hf := (find_request_of_split txn.txn_id_ (queue_at s.lock_table op.target).request_queue_ []
    ⟨txn.txn_id_, op.mode, true⟩ rfl hfresh).1
  have he := erase_request_of_split txn.txn_id_ (queue_at s.lock_table op.target).request_queue_ []
    ⟨txn.txn_id_, op.mode, true⟩ rfl hfresh
  rcases (unlock_shape _ (acquire op txn s.lock_table).lock_table op.target hne).2.2 with
    ⟨_, hc⟩ | ⟨q, it, hq, hit, e⟩
  · exfalso
    rcases hc with hc | ⟨q, hq, hn⟩
    · rw [hat] at hc
      simp at hc
    · rw [hat] at hq
      simp only [Option.some.injEq] at hq
      subst hq
      rw [hid] at hn
      simp only at hn
      rw [hf] at hn
      simp at hn
  · rw [hat] at hq
    simp only [Option.some.injEq] at hq
    subst hq
    rw [hid] at hit e
    simp only at hit e
    rw [hf] at hit
    simp only [Option.some.injEq] at hit
    subst hit
    rw [he] at e
    simp only [List.append_nil] at e
    rw [e]
    constructor
    · rw [queue_at_update, recompute_group_eq, ← hqi.group]
      generalize queue_at s.lock_table op.target = q0
      cases q0
      simp only [LockRequestQueue.mk.injEq, true_and]
      constructor
      · split <;> simp
      · split <;> simp
    · intro d1 hd1
      rw [Function.update_noteq hd1, hlt, Function.update_noteq hd1]
      unfold ensure_queue
      split
      · rw [Function.update_noteq hd1]
      · rfl

/-- C24 (witness): transaction 2 takes S on table 0 after transaction 1 did,
and unlocks it: the queue of table 0 is again the one request of transaction
1 with S-count 1. -/
theorem C24_acquire_unlock_round_trip_witness :
    Reachable no_store sys_S ∧
    (acquire (.shared_on_table 0) (Transaction.fresh 2) sys_S.lock_table).outcome = .ret true ∧
    queue_at (unlock (acquire (.shared_on_table 0) (Transaction.fresh 2) sys_S.lock_table).txn
      (acquire (.shared_on_table 0) (Transaction.fresh 2) sys_S.lock_table).lock_table
      (.TABLE 0)).lock_table (.TABLE 0) = ⟨[⟨1, .SHARED, true⟩], .S, 1, 0⟩ :=
  ⟨sys_S_reach, rfl,
    (C24_acquire_unlock_round_trip no_store sys_S sys_S_reach (.shared_on_table 0)
      (Transaction.fresh 2) (Or.inl rfl) (by decide) rfl).1⟩

/-- C25: an unlock call leaves the lock-set of the transaction as it was; so
in every reachable state with pairwise distinct transaction ids, after a
transaction that has a request in the queue of a resource calls unlock on the
resource, the resource is still in its lock-set although the queue of the
resource holds no request of the transaction. -/
theorem C25_unlock_keeps_lock_set {σ : Type} (c : Collab σ) (s : Sys σ) (hr : Reachable c s)
    (hd : DistinctIds s) (h : Nat) (d : LockDataId) (q : LockRequestQueue)
    (hq : s.lock_table d = some q)
    (hheld : (s.txns h).txn_id_ ∈ queue_ids q.request_queue_) :
    (∀ (txn : Transaction) (lt : LockTable) (d1 : LockDataId),
      (unlock txn lt d1).txn.lock_set_ = txn.lock_set_) ∧
    ((after_unlock s h d).txns h).lock_set_ = (s.txns h).lock_set_ ∧
    d ∈ ((after_unlock s h d).txns h).lock_set_ ∧
    ∃ q1, (after_unlock s h d).lock_table d = some q1 ∧
      ((after_unlock s h d).txns h).txn_id_ ∉ queue_ids q1.request_queue_ := by
  have hsys := Reachable_SysInv c s hr hd
  have hinv := Reachable_inv c s hr
  have hmem := hsys.cover h d q hq hheld
  have hne : (s.txns h).state_ ≠ .COMMITTED ∧ (s.txns h).state_ ≠ .ABORTED := by
    constructor
    · intro e
      rw [hsys.terminal h (Or.inl e)] at hmem
      simp at hmem
    · intro e
      rw [hsys.terminal h (Or.inr e)] at hmem
      simp at hmem
  have hfr := unlock_frame (s.txns h) s.lock_table d
  have htx : (after_unlock s h d).txns h = (unlock (s.txns h) s.lock_table d).txn := by
    simp [after_unlock]
  have hlt : (after_unlock s h d).lock_table = (unlock (s.txns h) s.lock_table d).lock_table :=
    rfl
  refine ⟨fun txn lt d1 => (unlock_frame txn lt d1).2.1, ?_, ?_, ?_⟩
  · rw [htx, hfr.2.1]
  · rw [htx, hfr.2.1]
    exact hmem
  · rw [htx, hlt, hfr.1]
    rcases (unlock_shape (s.txns h) s.lock_table d hne).2.2 with ⟨_, hc⟩ | ⟨q0, it, _, _, e⟩
    · exfalso
      rcases hc with hc | ⟨q0, hq0, hn⟩
      · rw [hq] at hc
        simp at hc
      · rw [hq] at hq0
        simp only [Option.some.injEq] at hq0
        subst hq0
        exact (find_request_none_iff _ _).mp hn hheld
    · have h1 := congrFun e d
      rw [Function.update_same] at h1
      exact ⟨_, h1, unlock_removes (s.txns h) s.lock_table d hinv hne _ h1⟩

/-- C25 (witness): transaction 1 holds S on table 0 and unlocks it: table 0
stays in its lock-set and the queue of table 0 is empty. -/
theorem C25_unlock_keeps_lock_set_witness :
    Reachable no_store sys_S ∧ DistinctIds sys_S ∧
    sys_S.lock_table (.TABLE 0) = some ⟨[⟨1, .SHARED, true⟩], .S, 1, 0⟩ ∧
    (sys_S.txns 1).txn_id_ ∈ queue_ids [⟨1, .SHARED, true⟩] ∧
    LockDataId.TABLE 0 ∈ ((after_unlock sys_S 1 (.TABLE 0)).txns 1).lock_set_ ∧
    (after_unlock sys_S 1 (.TABLE 0)).lock_table (.TABLE 0) =
      some ⟨[], .NON_LOCK, 0, 0⟩ :=
  ⟨sys_S_reach, sys_S_distinct, rfl, by decide,
    (C25_unlock_keeps_lock_set no_store sys_S sys_S_reach sys_S_distinct 1 (.TABLE 0)
      ⟨[⟨1, .SHARED, true⟩], .S, 1, 0⟩ rfl (by decide)).2.2.1, rfl⟩

/-- C26: when a transaction in state DEFAULT makes an acquire call that ends
with the deadlock-prevention abort, the transaction is left in state GROWING
and its lock-set is what it was before the call. -/
theorem C26_deadlock_prevention_from_DEFAULT (op : LockOp) (txn : Transaction) (lt : LockTable)
    (hst : txn.state_ = .DEFAULT)
    (hthrow : (acquire op txn lt).outcome = .throw .DEADLOCK_PREVENTION) :
    (acquire op txn lt).txn.state_ = .GROWING ∧
    (acquire op txn lt).txn.lock_set_ = txn.lock_set_ ∧
    (acquire op txn lt).txn = { txn with state_ := .GROWING } := by
  rcases acquire_shape op txn lt with ⟨h, _⟩ | ⟨h, _⟩ | ⟨_, hg⟩
  · rw [hst] at h
    simp at h
  · rw [hst] at h
    simp at h
  · rcases hg with ⟨e, _⟩ | ⟨_, _, _, _, _, _, e, _⟩ | ⟨_, _, _, _, _, e, _⟩
    · rw [e]
      exact ⟨rfl, rfl, rfl⟩
    · rw [e] at hthrow
      simp at hthrow
    · rw [e] at hthrow
      simp at hthrow

/-- C26 (witness): transaction 1 holds S on table 0; the fresh transaction 2
asks for X on table 0, is refused with the deadlock-prevention abort, and is
left in state GROWING with an empty lock-set. -/
theorem C26_deadlock_prevention_from_DEFAULT_witness :
    (Transaction.fresh 2).state_ = .DEFAULT ∧
    (acquire (.exclusive_on_table 0) (Transaction.fresh 2) sys_S.lock_table).outcome =
      .throw .DEADLOCK_PREVENTION ∧
    (acquire (.exclusive_on_table 0) (Transaction.fresh 2) sys_S.lock_table).txn.state_ =
      .GROWING ∧
    (acquire (.exclusive_on_table 0) (Transaction.fresh 2) sys_S.lock_table).txn.lock_set_ = [] :=
  ⟨rfl, rfl,
    (C26_deadlock_prevention_from_DEFAULT (.exclusive_on_table 0) (Transaction.fresh 2)
      sys_S.lock_table rfl rfl).1,
    (C26_deadlock_prevention_from_DEFAULT (.exclusive_on_table 0) (Transaction.fresh 2)
      sys_S.lock_table rfl rfl).2.1⟩

/-- C27: for two children that are cursors over finite tuple sequences, the
right one not empty, whose tuples have the declared tuple lengths, join
conditions that `eval_conds` can evaluate on every pair of a left and a right
tuple, and a comparison that reads only the compared length of its operands:
`beginTuple` followed by `Next` and `nextTuple` until `is_end` ends (any
bound on the rounds of at least the number of pairs is enough) and the
records returned are exactly the concatenations `l ++ r` of the pairs for
which every join condition holds on `l ++ r`, in left-major and right-minor
order, each pair once; every record has the length left `tupleLen` plus right
`tupleLen`, which is the `tupleLen` of the join; and on every pair
`eval_conds` returns whether every join condition holds. -/
theorem C27_nested_loop_join (hp : ExecHelpers) (left right : AbstractExecutor)
    (conds : List Condition)
    (hcmp : ReadsPrefix hp)
    (hR : right.tuples ≠ [])
    (hl : ∀ l ∈ left.tuples, l.length = left.tupleLen)
    (hr : ∀ r ∈ right.tuples, r.length = right.tupleLen)
    (hev : ∀ l ∈ left.tuples, ∀ r ∈ right.tuples,
      eval_conds hp left.tupleLen (NestedLoopJoinExecutor.new left right conds).cols_ conds l r ≠
        none)
    (fuel : Nat) (hfuel : left.tuples.length * right.tuples.length ≤ fuel) :
    (NestedLoopJoinExecutor.new left right conds).run hp fuel =
      some (join_spec (join_sat hp (NestedLoopJoinExecutor.new left right conds).cols_ conds)
        left.tuples right.tuples) ∧
    (∀ record ∈ join_spec (join_sat hp (NestedLoopJoinExecutor.new left right conds).cols_ conds)
        left.tuples right.tuples,
      record.length = left.tupleLen + right.tupleLen) ∧
    (NestedLoopJoinExecutor.new left right conds).tupleLen =
      left.tupleLen + right.tupleLen ∧
    (∀ l ∈ left.tuples, ∀ r ∈ right.tuples,
      eval_conds hp left.tupleLen (NestedLoopJoinExecutor.new left right conds).cols_ conds l r =
        some (join_sat hp (NestedLoopJoinExecutor.new left right conds).cols_ conds l r)) := by
  have hsat : ∀ l ∈ left.tuples, ∀ r ∈ right.tuples,
      eval_conds hp left.tupleLen (NestedLoopJoinExecutor.new left right conds).cols_ conds l r =
        some (join_sat hp (NestedLoopJoinExecutor.new left right conds).cols_ conds l r) := by
    intro l hl1 r hr1
    cases hb : eval_conds hp left.tupleLen (NestedLoopJoinExecutor.new left right conds).cols_
        conds l r with
    | none => exact absurd hb (hev l hl1 r hr1)
    | some b => rw [eval_conds_spec hp hcmp _ _ conds l r b (hl l hl1) hb]
  refine ⟨?_, ?_, rfl, hsat⟩
  · have hlen := length_join_spec_le
      (join_sat hp (NestedLoopJoinExecutor.new left right conds).cols_ conds)
      left.tuples right.tuples
    unfold NestedLoopJoinExecutor.run
    rw [beginTuple_new]
    by_cases h0 : left.tuples.length ≤ 0
    · have hnil : left.tuples = [] := List.length_eq_zero.mp (by omega)
      rw [if_pos (by simpa using h0), hnil]
      cases fuel <;>
        simp [NestedLoopJoinExecutor.collect, NestedLoopJoinExecutor.is_end,
          AbstractExecutor.is_end, AbstractExecutor.beginTuple, hnil, join_spec]
    · rw [if_neg (by simpa using h0)]
      obtain ⟨e1, he1, hc1⟩ := join_collect hp left right conds _ hR hl hr hsat _ 0 0 fuel
        (le_refl _) (fun _ => List.length_pos.mpr hR)
        (by rw [join_rest_zero]; omega)
      rw [he1]
      simp only
      rw [hc1, join_rest_zero]
  · intro record hrec
    obtain ⟨l, hl1, r, hr1, _, e⟩ := mem_join_spec _ _ _ _ hrec
    rw [e, List.length_append, hl l hl1, hr r hr1]

/-- C27 (witness): the join of the left tuples 1, 2, 3 with the right tuples
2, 3, 2, 1 on the two conditions `t.a = u.b` and `t.a > 1` returns the records
(2, 2), (2, 2) and (3, 3), in this order; the pair (1, 1), which satisfies the
first condition only, is not returned. -/
theorem C27_nested_loop_join_witness :
    ReadsPrefix helpers_byte ∧ child_right.tuples ≠ [] ∧
    (NestedLoopJoinExecutor.new child_left child_right [cond_eq, cond_gt_one]).run
      helpers_byte 12 = some [[2, 2], [2, 2], [3, 3]] :=
  ⟨fun a a1 b b1 _ n h1 h2 => by simp only [helpers_byte, h1, h2], by decide,
    (C27_nested_loop_join helpers_byte child_left child_right [cond_eq, cond_gt_one]
      (fun a a1 b b1 _ n h1 h2 => by simp only [helpers_byte, h1, h2])
      (by decide) (by decide) (by decide) (by decide) 12 (by decide)).1.trans (by decide)⟩

end Rucbase
